import Mathlib

/-!
# Statistics engine of the DL/UL OFDMA Wi-Fi example (wifi-dl-ofdma_anand.cc)

A shallow embedding of the event handlers of class WifiDlOfdmaExample and
theorems about the statistics they maintain.

Modelling conventions.

* C++ double values are exact rationals (type ℚ): the handlers only add, multiply,
  divide and compare, and the properties proved are the exact-arithmetic ones.
  Division by zero is not given a meaning: the theorems are stated for events
  and states in which the divisors of the quotients they speak about are not zero.
  Where the rounding of the double operations decides a property (the order of
  the running mean of the head-of-line delay, the static_cast of a wrapped
  64-bit difference in the report), the operations are replayed with every
  result rounded to the nearest double, ties to even (roundDouble).
* ns3::Time is the signed tick count in nanoseconds (type ℤ), the default
  resolution; GetSeconds and ToDouble (Time::MS) divide it by 10^9 and 10^6.
* uint32_t arithmetic on A-MPDU sizes wraps modulo 2^32, and the unsigned
  64-bit subtraction that derives the number of scored trigger frames wraps
  modulo 2^64.  Counters that are only ever incremented by one per event are
  natural numbers.
* std::map is a list of key/value pairs; find, insert, erase and assignment
  through an iterator are the functions below.
* NS_ASSERT failures, std::out_of_range and dereferencing the end iterator of an
  empty container end the handler without a result (none).
* Values computed by ns-3 itself (Simulator::Now, WifiPhy::CalculateTxDuration,
  WifiPhy::ConvertLSigLengthToHeTbPpduDuration, ApWifiMac::GetStaList, the AP
  address, the queue max delay) are inputs of the handlers.
* The simulator is the list of pending events, ordered by time and, at equal
  times, by the order of the Schedule calls; Simulator::Stop is the stop event it
  schedules.  The durations m_warmup and m_simulationTime, doubles in seconds,
  are the Time values that Seconds makes of them, and Seconds of a sum is the sum
  of the Time values.  The time from StartAssociation for a station to the Assoc
  trace that calls EstablishBaAgreement is an input, one callback for every
  association started.  Trace sources are the list of connections of the
  handlers of this class; an event of a source runs its handler once for every
  connection.
-/

namespace WifiDlOfdma

/-! ## Data model -/

/-- A Mac48Address, as the number its 48 bits encode. -/
abbrev Mac48Address := Nat

/-- An ns3::Time, in nanoseconds. -/
abbrev Time := Int

/-- Time::GetSeconds, the value in seconds as a double. -/
def GetSeconds (t : Time) : ℚ := (t : ℚ) / 1000000000

/-- Time::ToDouble (Time::MS), the value in milliseconds as a double. -/
def ToDoubleMS (t : Time) : ℚ := (t : ℚ) / 1000000

/-- Struct DlStats, lines 221-237. -/
structure DlStats where
  failed : Nat
  expired : Nat
  minAmpduSize : Nat
  maxAmpduSize : Nat
  nAmpdus : Nat
  minAmpduRatio : ℚ
  maxAmpduRatio : ℚ
  avgAmpduRatio : ℚ
  nAmpduRatioSamples : Nat
  lastTxTime : Time
  minHolDelay : ℚ
  maxHolDelay : ℚ
  avgHolDelay : ℚ
  nHolDelaySamples : Nat
  deriving DecidableEq

/-- The value DlStats () built from the default member initialisers. -/
def DlStats.init : DlStats :=
  { failed := 0, expired := 0, minAmpduSize := 0, maxAmpduSize := 0, nAmpdus := 0,
    minAmpduRatio := 0, maxAmpduRatio := 0, avgAmpduRatio := 0, nAmpduRatioSamples := 0,
    lastTxTime := 0, minHolDelay := 0, maxHolDelay := 0, avgHolDelay := 0,
    nHolDelaySamples := 0 }

/-- Struct UlStats, lines 240-247. -/
structure UlStats where
  minLengthRatio : ℚ
  maxLenghtRatio : ℚ
  avgLengthRatio : ℚ
  nLengthRatioSamples : Nat
  nSolicitingTriggerFrames : Nat
  deriving DecidableEq

/-- The value UlStats () built from the default member initialisers. -/
def UlStats.init : UlStats :=
  { minLengthRatio := 0, maxLenghtRatio := 0, avgLengthRatio := 0,
    nLengthRatioSamples := 0, nSolicitingTriggerFrames := 0 }

/-- The statistics members of WifiDlOfdmaExample, lines 198-248. -/
structure State where
  m_maxTxop : Time
  m_minAmpduRatio : ℚ
  m_maxAmpduRatio : ℚ
  m_avgAmpduRatio : ℚ
  m_nAmpduRatioSamples : Nat
  m_lastTxTime : Time
  m_minHolDelay : ℚ
  m_maxHolDelay : ℚ
  m_avgHolDelay : ℚ
  m_nHolDelaySamples : Nat
  m_appPacketTxMap : List (Nat × Time)
  m_appLatencyMap : List (Nat × List Time)
  m_nBasicTriggerFramesSent : Nat
  m_nFailedTriggerFrames : Nat
  m_minLengthRatio : ℚ
  m_maxLenghtRatio : ℚ
  m_avgLengthRatio : ℚ
  m_tfUlLength : Time
  m_overallTimeGrantedByTf : Time
  m_responsesToLastTfDuration : Time
  m_dlStats : List (Mac48Address × DlStats)
  m_ulStats : List (Mac48Address × UlStats)
  deriving DecidableEq

/-! ## std::map operations -/

/-- The result of std::map::find: the mapped value, none for end (). -/
def find {α : Type} (k : Nat) : List (Nat × α) → Option α
  | [] => none
  | (k', v) :: m => if k' = k then some v else find k m

/-- Writing v through the iterator that find returned for key k. -/
def assign {α : Type} (k : Nat) (v : α) : List (Nat × α) → List (Nat × α)
  | [] => []
  | (k', v') :: m => if k' = k then (k', v) :: m else (k', v') :: assign k v m

/-- The call std::map::insert (std::make_pair (k, v)): a present key keeps its
value, a new key is placed in ascending key order. -/
def insert {α : Type} (k : Nat) (v : α) : List (Nat × α) → List (Nat × α)
  | [] => [(k, v)]
  | (k', v') :: m =>
    if k < k' then (k, v) :: (k', v') :: m
    else if k' = k then (k', v') :: m
    else (k', v') :: insert k v m

/-- The call std::map::erase on the iterator that find returned for key k. -/
def erase {α : Type} (k : Nat) : List (Nat × α) → List (Nat × α)
  | [] => []
  | (k', v') :: m => if k' = k then m else (k', v') :: erase k m

/-- The statement m[k] = v: assignment when the key is present, insertion otherwise. -/
def setAt {α : Type} (k : Nat) (v : α) (m : List (Nat × α)) : List (Nat × α) :=
  match find k m with
  | some _ => assign k v m
  | none => insert k v m

/-! ## Construction and Setup -/

/-- The members as the constructor leaves them, lines 284-302, with empty maps. -/
def State.ctor : State :=
  { m_maxTxop := 0,
    m_minAmpduRatio := 0, m_maxAmpduRatio := 0, m_avgAmpduRatio := 0,
    m_nAmpduRatioSamples := 0,
    m_lastTxTime := 0,
    m_minHolDelay := 0, m_maxHolDelay := 0, m_avgHolDelay := 0, m_nHolDelaySamples := 0,
    m_appPacketTxMap := [], m_appLatencyMap := [],
    m_nBasicTriggerFramesSent := 0, m_nFailedTriggerFrames := 0,
    m_minLengthRatio := 0, m_maxLenghtRatio := 0, m_avgLengthRatio := 0,
    m_tfUlLength := 0, m_overallTimeGrantedByTf := 0, m_responsesToLastTfDuration := 0,
    m_dlStats := [], m_ulStats := [] }

/-- The loop of Setup at lines 489-496 over the station devices, given by
their MAC addresses: m_dlStats[addr] = DlStats () and m_ulStats[addr] = UlStats (). -/
def setupStats : List Mac48Address → State → State
  | [], s => s
  | a :: rest, s =>
    setupStats rest { s with m_dlStats := setAt a DlStats.init s.m_dlStats,
                             m_ulStats := setAt a UlStats.init s.m_ulStats }

/-- The loop of Setup at lines 558-561: an empty latency vector is inserted for
the node ids i, i+1, ..., i+n-1. -/
def setupLatency : Nat → Nat → State → State
  | 0, _, s => s
  | n + 1, i, s =>
    setupLatency n (i + 1) { s with m_appLatencyMap := insert i [] s.m_appLatencyMap }

/-- The statistics state when the simulation starts: the constructor followed
by the two Setup loops, for the station addresses staAddrs and m_nStations. -/
def initialState (staAddrs : List Mac48Address) (m_nStations : Nat) : State :=
  setupLatency m_nStations 0 (setupStats staAddrs State.ctor)

/-! ## Inputs of the handlers -/

/-- What the handlers read from ns-3 objects that stay fixed during a run. -/
structure Env where
  /-- The address dev->GetMac ()->GetAddress () of the AP device. -/
  apAddress : Mac48Address
  /-- The map mac->GetStaList () of the AP, from AID to station address. -/
  staList : List (Nat × Mac48Address)
  /-- The member m_payloadSize. -/
  m_payloadSize : Nat
  /-- The value GetWifiMacQueue ()->GetMaxDelay () of the BE queue of the AP. -/
  maxDelay : Time

/-- The preamble types of ns-3 (enum WifiPreamble). -/
inductive WifiPreamble
  | LONG | SHORT | HT_MF | HT_GF | VHT_SU | VHT_MU | HE_SU | HE_ER_SU | HE_MU | HE_TB
  deriving DecidableEq

/-- What the handler asks of the MAC header of the first MPDU: IsQosData,
IsTrigger, or neither. -/
inductive FrameKind
  | qosData | trigger | other
  deriving DecidableEq

/-- What the handler reads from a CtrlTriggerHeader. -/
structure CtrlTriggerHeader where
  /-- The value of IsBasic (). -/
  isBasic : Bool
  /-- GetAid12 () of the user info fields, in iteration order. -/
  aid12s : List Nat
  /-- The result of WifiPhy::ConvertLSigLengthToHeTbPpduDuration for GetUlLength (). -/
  heTbPpduDuration : Time
  deriving DecidableEq

/-- What the handler reads from a WifiPsdu. -/
structure WifiPsdu where
  addr1 : Mac48Address
  addr2 : Mac48Address
  /-- The number of bytes; GetSize returns it as a uint32_t. -/
  size : Nat
  /-- The kind of GetHeader (0). -/
  kind : FrameKind
  /-- The header that PeekHeader reads from GetPayload (0). -/
  trigger : CtrlTriggerHeader
  deriving DecidableEq

/-- The uint32_t returned by WifiPsdu::GetSize. -/
def WifiPsdu.GetSize (p : WifiPsdu) : Nat := p.size % 4294967296

/-- What the handler reads from a WifiTxVector. -/
structure WifiTxVector where
  /-- The value of GetPreambleType (). -/
  preamble : WifiPreamble
  /-- The keys (STA-IDs) of GetHeMuUserInfoMap (), in iteration order. -/
  heMuUserInfoMap : List Nat
  deriving DecidableEq

/-- The arguments of NotifyPsduForwardedDown, with the TX duration that
WifiPhy::CalculateTxDuration returns for them. -/
structure PsduForwardedDown where
  /-- The WifiPsduMap, from STA-ID to PSDU, in iteration order. -/
  psduMap : List (Nat × WifiPsdu)
  txVector : WifiTxVector
  txDuration : Time
  deriving DecidableEq

/-- What NotifyMsduDequeuedFromEdcaQueue reads from the queue item. -/
structure WifiMacQueueItem where
  /-- The value of GetTimeStamp (). -/
  timeStamp : Time
  /-- The value of GetHeader ().GetAddr1 (). -/
  addr1 : Mac48Address
  deriving DecidableEq

/-- What the application handlers read from a Packet. -/
structure Packet where
  /-- The value of GetSize (). -/
  size : Nat
  /-- The value of GetUid (). -/
  uid : Nat
  deriving DecidableEq

/-! ## The repeated min / max / running-mean update -/

/-- The statement pattern: if (min == 0 || x < min) min = x. -/
def updMin (min x : ℚ) : ℚ := if min = 0 ∨ x < min then x else min

/-- The statement pattern: if (x > max) max = x. -/
def updMax (max x : ℚ) : ℚ := if x > max then x else max

/-- The statement pattern: avg = (avg * n + x) / (n + 1), over exact rationals;
updAvgDouble is the same pattern with every operation rounded to a double. -/
def updAvg (avg : ℚ) (n : Nat) (x : ℚ) : ℚ := (avg * (n : ℚ) + x) / ((n : ℚ) + 1)

/-- The unsigned 64-bit difference a - b. -/
def sub64 (a b : Nat) : Nat :=
  (a % 18446744073709551616 + (18446744073709551616 - b % 18446744073709551616))
    % 18446744073709551616

/-! ## Rounding to double

The handlers are read over exact rationals.  Where the rounding of the double
operations decides a property, the operations are replayed with every result
rounded to the nearest double. -/

/-- The number of times n can be halved before it is below 2, in at most fuel
steps; with fuel n this is the position of the highest bit of n. -/
def halvings : Nat → Nat → Nat
  | 0, _ => 0
  | fuel + 1, n => if n < 2 then 0 else halvings fuel (n / 2) + 1

/-- The exponent e with 2^e <= n / d < 2^(e+1), for n and d positive. -/
def binade (n d : Nat) : Int :=
  let e : Int := (halvings n n : Int) - (halvings d d : Int)
  if e ≥ 0 then (if n < d * 2 ^ e.toNat then e - 1 else e)
  else (if n * 2 ^ (-e).toNat < d then e - 1 else e)

/-- The integer nearest to n / d, the even one of the two when n / d is half way
between them. -/
def roundHalfEven (n d : Nat) : Nat :=
  let f := n / d
  let r := n % d
  if 2 * r < d then f
  else if d < 2 * r then f + 1
  else if f % 2 = 0 then f else f + 1

/-- The double nearest to the positive rational n / d, ties to even: n / d is
scaled by a power of two into [2^52, 2^53), rounded to an integer and scaled
back.  This is the rounding of IEEE 754 binary64 for results in the range of
the normal numbers; overflow and subnormal results are not modelled. -/
def roundPos (n d : Nat) : ℚ :=
  let e := binade n d
  if e ≥ 52 then
    mkRat (roundHalfEven n (d * 2 ^ (e - 52).toNat) * 2 ^ (e - 52).toNat : Nat) 1
  else
    mkRat (roundHalfEven (n * 2 ^ (52 - e).toNat) d : Nat) (2 ^ (52 - e).toNat)

/-- The double nearest to the rational q, ties to even. -/
def roundDouble (q : ℚ) : ℚ :=
  if q = 0 then 0
  else if 0 < q then roundPos q.num.toNat q.den
  else - roundPos (-q.num).toNat q.den

/-- The statement pattern avg = (avg * n + x) / (n + 1) as the processor
computes it: the two counts are converted to double, and the product, the sum
and the quotient are each rounded to a double. -/
def updAvgDouble (avg : ℚ) (n : Nat) (x : ℚ) : ℚ :=
  roundDouble
    (roundDouble (roundDouble (avg * roundDouble (n : ℚ)) + x)
      / roundDouble ((n + 1 : Nat) : ℚ))

/-- The double t.ToDouble (Time::MS), taken to be the double nearest to the
quotient of the nanoseconds by 10^6. -/
def ToDoubleMSRounded (t : Time) : ℚ := roundDouble ((t : ℚ) / 1000000)

/-! ## NotifyTxFailed, NotifyMsduExpired, TxopDuration -/

/-- NotifyTxFailed, lines 1014-1020; addr1 is hdr.GetAddr1 (). -/
def NotifyTxFailed (addr1 : Mac48Address) (s : State) : Option State :=
  match find addr1 s.m_dlStats with
  | none => none
  | some st => some { s with m_dlStats := assign addr1 { st with failed := st.failed + 1 } s.m_dlStats }

/-- NotifyMsduExpired, lines 1022-1028; addr1 is item->GetHeader ().GetAddr1 (). -/
def NotifyMsduExpired (addr1 : Mac48Address) (s : State) : Option State :=
  match find addr1 s.m_dlStats with
  | none => none
  | some st => some { s with m_dlStats := assign addr1 { st with expired := st.expired + 1 } s.m_dlStats }

/-- TxopDuration, lines 1259-1266. -/
def TxopDuration (duration : Time) (s : State) : State :=
  if duration > s.m_maxTxop then { s with m_maxTxop := duration } else s

/-! ## NotifyMsduDequeuedFromEdcaQueue -/

/-- Lines 1044-1064: the BSS-wide head-of-line sample and m_lastTxTime. -/
def dequeueGlobal (now : Time) (s : State) : State :=
  let s1 : State :=
    if 0 < s.m_lastTxTime then
      let newHolSample := ToDoubleMS (now - s.m_lastTxTime)
      if newHolSample > 0 then
        { s with m_minHolDelay := updMin s.m_minHolDelay newHolSample,
                 m_maxHolDelay := updMax s.m_maxHolDelay newHolSample,
                 m_avgHolDelay := updAvg s.m_avgHolDelay s.m_nHolDelaySamples newHolSample,
                 m_nHolDelaySamples := s.m_nHolDelaySamples + 1 }
      else s
    else s
  { s1 with m_lastTxTime := now }

/-- Lines 1069-1089: the head-of-line sample and lastTxTime of one station. -/
def dequeueSta (now : Time) (st : DlStats) : DlStats :=
  let st1 : DlStats :=
    if 0 < st.lastTxTime then
      let newHolSample := ToDoubleMS (now - st.lastTxTime)
      if newHolSample > 0 then
        { st with minHolDelay := updMin st.minHolDelay newHolSample,
                  maxHolDelay := updMax st.maxHolDelay newHolSample,
                  avgHolDelay := updAvg st.avgHolDelay st.nHolDelaySamples newHolSample,
                  nHolDelaySamples := st.nHolDelaySamples + 1 }
      else st
    else st
  { st1 with lastTxTime := now }

/-- NotifyMsduDequeuedFromEdcaQueue, lines 1030-1090; now is Simulator::Now (). -/
def NotifyMsduDequeuedFromEdcaQueue (env : Env) (now : Time) (item : WifiMacQueueItem)
    (s : State) : Option State :=
  if now > item.timeStamp + env.maxDelay then
    some s
  else
    let s2 := dequeueGlobal now s
    match find item.addr1 s2.m_dlStats with
    | none => none
    | some st => some { s2 with m_dlStats := assign item.addr1 (dequeueSta now st) s2.m_dlStats }

/-- Lines 1044-1064 with every double operation rounded: the BSS-wide
head-of-line sample and m_lastTxTime. -/
def dequeueGlobalDouble (now : Time) (s : State) : State :=
  let s1 : State :=
    if 0 < s.m_lastTxTime then
      let newHolSample := ToDoubleMSRounded (now - s.m_lastTxTime)
      if newHolSample > 0 then
        { s with m_minHolDelay := updMin s.m_minHolDelay newHolSample,
                 m_maxHolDelay := updMax s.m_maxHolDelay newHolSample,
                 m_avgHolDelay := updAvgDouble s.m_avgHolDelay s.m_nHolDelaySamples newHolSample,
                 m_nHolDelaySamples := s.m_nHolDelaySamples + 1 }
      else s
    else s
  { s1 with m_lastTxTime := now }

/-- Lines 1069-1089 with every double operation rounded: the head-of-line
sample and lastTxTime of one station. -/
def dequeueStaDouble (now : Time) (st : DlStats) : DlStats :=
  let st1 : DlStats :=
    if 0 < st.lastTxTime then
      let newHolSample := ToDoubleMSRounded (now - st.lastTxTime)
      if newHolSample > 0 then
        { st with minHolDelay := updMin st.minHolDelay newHolSample,
                  maxHolDelay := updMax st.maxHolDelay newHolSample,
                  avgHolDelay := updAvgDouble st.avgHolDelay st.nHolDelaySamples newHolSample,
                  nHolDelaySamples := st.nHolDelaySamples + 1 }
      else st
    else st
  { st1 with lastTxTime := now }

/-- NotifyMsduDequeuedFromEdcaQueue, lines 1030-1090, with every double
operation rounded; now is Simulator::Now (). -/
def NotifyMsduDequeuedFromEdcaQueueDouble (env : Env) (now : Time) (item : WifiMacQueueItem)
    (s : State) : Option State :=
  if now > item.timeStamp + env.maxDelay then
    some s
  else
    let s2 := dequeueGlobalDouble now s
    match find item.addr1 s2.m_dlStats with
    | none => none
    | some st =>
      some { s2 with m_dlStats := assign item.addr1 (dequeueStaDouble now st) s2.m_dlStats }

/-! ## NotifyPsduForwardedDown -/

/-- Lines 1105-1121: the HE TB PPDU of the station with address addr2. -/
def ulResponse (addr2 : Mac48Address) (txDuration : Time) (s : State) : Option State :=
  match find addr2 s.m_ulStats with
  | none => none
  | some st =>
    let currRatio := GetSeconds txDuration / GetSeconds s.m_tfUlLength
    some { s with
      m_responsesToLastTfDuration := s.m_responsesToLastTfDuration + txDuration,
      m_ulStats := assign addr2
        { st with minLengthRatio := updMin st.minLengthRatio currRatio,
                  maxLenghtRatio := updMax st.maxLenghtRatio currRatio,
                  avgLengthRatio := updAvg st.avgLengthRatio st.nLengthRatioSamples currRatio,
                  nLengthRatioSamples := st.nLengthRatioSamples + 1 } s.m_ulStats }

/-- Lines 1141-1149: the A-MPDU size extremes and count of one station. -/
def dlSizeSta (currSize : Nat) (st : DlStats) : DlStats :=
  { st with
    minAmpduSize := if st.minAmpduSize = 0 ∨ currSize < st.minAmpduSize then currSize
                    else st.minAmpduSize,
    maxAmpduSize := if currSize > st.maxAmpduSize then currSize else st.maxAmpduSize,
    nAmpdus := st.nAmpdus + 1 }

/-- The loop over psduMap at lines 1130-1150, from the current values of
maxAmpduSize, ampduSizeSum and m_dlStats. -/
def dlSizeLoop : List (Nat × WifiPsdu) → Nat → Nat → List (Mac48Address × DlStats) →
    Option (Nat × Nat × List (Mac48Address × DlStats))
  | [], maxAmpduSize, ampduSizeSum, dl => some (maxAmpduSize, ampduSizeSum, dl)
  | (_, psdu) :: rest, maxAmpduSize, ampduSizeSum, dl =>
    let currSize := psdu.GetSize
    let maxAmpduSize1 := if currSize > maxAmpduSize then currSize else maxAmpduSize
    let ampduSizeSum1 := (ampduSizeSum + currSize) % 4294967296
    match find psdu.addr1 dl with
    | none => none
    | some st => dlSizeLoop rest maxAmpduSize1 ampduSizeSum1 (assign psdu.addr1 (dlSizeSta currSize st) dl)

/-- Lines 1176-1186: the ratio charged to the station that was assigned the RU
of STA-ID staId. -/
def staRatio (psduMap : List (Nat × WifiPsdu)) (maxAmpduSize : Nat) (staId : Nat) : ℚ :=
  match find staId psduMap with
  | none => 0
  | some psdu => (psdu.GetSize : ℚ) / (maxAmpduSize : ℚ)

/-- Lines 1192-1202: one sample of the per-station A-MPDU ratio. -/
def dlRatioSta (currRatio : ℚ) (st : DlStats) : DlStats :=
  { st with
    minAmpduRatio := updMin st.minAmpduRatio currRatio,
    maxAmpduRatio := updMax st.maxAmpduRatio currRatio,
    avgAmpduRatio := updAvg st.avgAmpduRatio st.nAmpduRatioSamples currRatio,
    nAmpduRatioSamples := st.nAmpduRatioSamples + 1 }

/-- The loop over GetHeMuUserInfoMap () at lines 1174-1203. -/
def dlRatioLoop (env : Env) (psduMap : List (Nat × WifiPsdu)) (maxAmpduSize : Nat) :
    List Nat → List (Mac48Address × DlStats) → Option (List (Mac48Address × DlStats))
  | [], dl => some dl
  | staId :: rest, dl =>
    let currRatio := staRatio psduMap maxAmpduSize staId
    match find staId env.staList with
    | none => none
    | some address =>
      match find address dl with
      | none => none
      | some st => dlRatioLoop env psduMap maxAmpduSize rest (assign address (dlRatioSta currRatio st) dl)

/-- Lines 1153-1204: the accounting of a DL MU PPDU, after the size loop
returned maxAmpduSize, ampduSizeSum and the updated m_dlStats. -/
def dlMu (env : Env) (ev : PsduForwardedDown) (maxAmpduSize ampduSizeSum : Nat)
    (s : State) : Option State :=
  let nRus := ev.txVector.heMuUserInfoMap.length
  let maxBytes := (maxAmpduSize * nRus) % 4294967296
  if maxBytes > 0 then
    let currRatio := (ampduSizeSum : ℚ) / (maxBytes : ℚ)
    let s1 : State :=
      { s with m_minAmpduRatio := updMin s.m_minAmpduRatio currRatio,
               m_maxAmpduRatio := updMax s.m_maxAmpduRatio currRatio,
               m_avgAmpduRatio := updAvg s.m_avgAmpduRatio s.m_nAmpduRatioSamples currRatio,
               m_nAmpduRatioSamples := s.m_nAmpduRatioSamples + 1 }
    match dlRatioLoop env ev.psduMap maxAmpduSize ev.txVector.heMuUserInfoMap s1.m_dlStats with
    | none => none
    | some dl => some { s1 with m_dlStats := dl }
  else none

/-- Lines 1126-1205: the downlink branch. -/
def downlink (env : Env) (ev : PsduForwardedDown) (s : State) : Option State :=
  match dlSizeLoop ev.psduMap 0 0 s.m_dlStats with
  | none => none
  | some (maxAmpduSize, ampduSizeSum, dl) =>
    let s1 : State := { s with m_dlStats := dl }
    if ev.txVector.preamble = WifiPreamble.HE_MU then
      dlMu env ev maxAmpduSize ampduSizeSum s1
    else some s1

/-- Lines 1213-1236: closing the window of the previous Trigger Frame. -/
def closeWindow (s : State) : State :=
  if 0 < s.m_tfUlLength then
    if s.m_responsesToLastTfDuration = 0 then
      { s with m_nFailedTriggerFrames := s.m_nFailedTriggerFrames + 1 }
    else
      let currRatio := GetSeconds s.m_responsesToLastTfDuration / GetSeconds s.m_overallTimeGrantedByTf
      let samples := sub64 (sub64 s.m_nBasicTriggerFramesSent 1) s.m_nFailedTriggerFrames
      { s with m_minLengthRatio := updMin s.m_minLengthRatio currRatio,
               m_maxLenghtRatio := updMax s.m_maxLenghtRatio currRatio,
               m_avgLengthRatio := updAvg s.m_avgLengthRatio samples currRatio }
  else s

/-- The loop over the user info fields at lines 1248-1254. -/
def solicitLoop (env : Env) : List Nat → List (Mac48Address × UlStats) →
    Option (List (Mac48Address × UlStats))
  | [], ul => some ul
  | aid :: rest, ul =>
    match find aid env.staList with
    | none => none
    | some address =>
      match find address ul with
      | none => none
      | some st =>
        solicitLoop env rest
          (assign address { st with nSolicitingTriggerFrames := st.nSolicitingTriggerFrames + 1 } ul)

/-- Lines 1211-1255: a Basic Trigger Frame.  The call trigger.begin ()->GetAid12 ()
at line 1240 dereferences the first user info field, which an empty list lacks. -/
def basicTrigger (env : Env) (trigger : CtrlTriggerHeader) (s : State) : Option State :=
  let s1 := closeWindow s
  match trigger.aid12s with
  | [] => none
  | _ :: _ =>
    let s2 : State :=
      { s1 with m_nBasicTriggerFramesSent := s1.m_nBasicTriggerFramesSent + 1,
                m_responsesToLastTfDuration := 0,
                m_tfUlLength := trigger.heTbPpduDuration,
                m_overallTimeGrantedByTf := trigger.heTbPpduDuration * (trigger.aid12s.length : Int) }
    match solicitLoop env trigger.aid12s s2.m_ulStats with
    | none => none
    | some ul => some { s2 with m_ulStats := ul }

/-- NotifyPsduForwardedDown, lines 1092-1257.  An empty psduMap makes the second
condition dereference psduMap.begin (), which is the end iterator. -/
def NotifyPsduForwardedDown (env : Env) (ev : PsduForwardedDown) (s : State) : Option State :=
  match ev.psduMap with
  | [] => none
  | (_, first) :: _ =>
    if ev.psduMap.length = 1 ∧ first.addr1 = env.apAddress ∧ first.kind = FrameKind.qosData then
      if ev.txVector.preamble = WifiPreamble.HE_TB then
        ulResponse first.addr2 ev.txDuration s
      else some s
    else if first.kind = FrameKind.qosData then
      downlink env ev s
    else if ev.psduMap.length = 1 ∧ first.kind = FrameKind.trigger then
      if first.trigger.isBasic then basicTrigger env first.trigger s else some s
    else some s

/-- The handler applied to a sequence of events in order; none as soon as one
of them ends without a result. -/
def runEvents {ε : Type} (h : ε → State → Option State) : List ε → State → Option State
  | [], s => some s
  | e :: rest, s =>
    match h e s with
    | none => none
    | some s1 => runEvents h rest s1

/-! ## NotifyApplicationTx, NotifyApplicationRx, ContextToNodeId -/

/-- The characters that isspace accepts in the C locale. -/
def isSpaceChar (c : Char) : Bool :=
  c = ' ' || c = '\t' || c = '\n' || c = '\x0b' || c = '\x0c' || c = '\r'

/-- The decimal value that atoi accumulates over the leading digits of cs. -/
def digitsValue : List Char → Nat → Nat
  | [], acc => acc
  | c :: cs, acc =>
    if c.isDigit then digitsValue cs (acc * 10 + (c.toNat - 48)) else acc

/-- The C function atoi: leading white space, an optional sign, then decimal digits.
A value that does not fit an int has no defined result (none). -/
def atoi (cs : List Char) : Option Int :=
  let cs1 := cs.dropWhile isSpaceChar
  let r : Int :=
    match cs1 with
    | '-' :: rest => - (digitsValue rest 0 : Int)
    | '+' :: rest => (digitsValue rest 0 : Int)
    | rest => (digitsValue rest 0 : Int)
  if -2147483648 ≤ r ∧ r ≤ 2147483647 then some r else none

/-- Whether the characters of pat are the first characters of cs. -/
def startsWith : List Char → List Char → Bool
  | [], _ => true
  | _ :: _, [] => false
  | p :: ps, c :: cs => p = c && startsWith ps cs

/-- The call std::string::find (pat) on cs, counting positions from i: the first
position where pat occurs, none for npos. -/
def findFrom (pat : List Char) : List Char → Nat → Option Nat
  | [], i => if startsWith pat [] then some i else none
  | c :: cs, i => if startsWith pat (c :: cs) then some i else findFrom pat cs (i + 1)

/-- ContextToNodeId, lines 1296-1303.  The call substr (10) throws
std::out_of_range on a shorter string (none); npos stored in the uint32_t pos
is 4294967295; the int that atoi returns is converted to uint32_t. -/
def ContextToNodeId (context : String) : Option Nat :=
  if context.data.length < 10 then none
  else
    let sub := context.data.drop 10
    let pos : Nat :=
      match findFrom "/Device".data sub 0 with
      | some i => i % 4294967296
      | none => 4294967295
    match atoi (sub.take pos) with
    | none => none
    | some v => some (v % 4294967296).toNat

/-- NotifyApplicationTx, lines 1268-1276; now is Simulator::Now ().  The context
argument is not read. -/
def NotifyApplicationTx (env : Env) (now : Time) (p : Packet) (s : State) : State :=
  if p.size < env.m_payloadSize then s
  else { s with m_appPacketTxMap := insert p.uid now s.m_appPacketTxMap }

/-- NotifyApplicationRx, lines 1278-1294; now is Simulator::Now (). -/
def NotifyApplicationRx (env : Env) (now : Time) (context : String) (p : Packet)
    (s : State) : Option State :=
  if p.size < env.m_payloadSize then some s
  else
    match find p.uid s.m_appPacketTxMap with
    | none => some s
    | some start =>
      let latency := now - start
      match ContextToNodeId context with
      | none => none
      | some nodeId =>
        match find nodeId s.m_appLatencyMap with
        | none => none
        | some latencies =>
          some { s with
            m_appLatencyMap := assign nodeId (latencies ++ [latency]) s.m_appLatencyMap,
            m_appPacketTxMap := erase p.uid s.m_appPacketTxMap }

/-! ## Quantities named by the theorems -/

/-- The value of maxAmpduSize after the loop at lines 1130-1150 over l, started at mx. -/
def maxSizeFrom : List (Nat × WifiPsdu) → Nat → Nat
  | [], mx => mx
  | (_, psdu) :: rest, mx => maxSizeFrom rest (if psdu.GetSize > mx then psdu.GetSize else mx)

/-- The value of ampduSizeSum after the loop at lines 1130-1150 over l, started at sm. -/
def sizeSumFrom : List (Nat × WifiPsdu) → Nat → Nat
  | [], sm => sm
  | (_, psdu) :: rest, sm => sizeSumFrom rest ((sm + psdu.GetSize) % 4294967296)

/-- The value of maxBytes at line 1156. -/
def maxBytesOf (ev : PsduForwardedDown) : Nat :=
  (maxSizeFrom ev.psduMap 0 * ev.txVector.heMuUserInfoMap.length) % 4294967296

/-- The value of currRatio at line 1158. -/
def dlMuSample (ev : PsduForwardedDown) : ℚ :=
  (sizeSumFrom ev.psduMap 0 : ℚ) / (maxBytesOf ev : ℚ)

/-- The branches of NotifyPsduForwardedDown. -/
inductive Branch
  /-- The psduMap is empty. -/
  | undefined
  /-- Lines 1104-1121, for the transmitter address addr2. -/
  | ulHeTb (addr2 : Mac48Address)
  /-- The uplink condition of line 1098 holds but the preamble is not HE TB. -/
  | ulOther
  /-- Lines 1126-1205. -/
  | dl
  /-- Lines 1211-1255, for the trigger header read at line 1209. -/
  | basicTf (trigger : CtrlTriggerHeader)
  /-- No branch is taken, or the Trigger Frame is not a Basic one. -/
  | ignored
  deriving DecidableEq

/-- The branch that the conditions at lines 1098, 1102, 1125, 1206 and 1211 select. -/
def classify (env : Env) (ev : PsduForwardedDown) : Branch :=
  match ev.psduMap with
  | [] => Branch.undefined
  | (_, first) :: _ =>
    if ev.psduMap.length = 1 ∧ first.addr1 = env.apAddress ∧ first.kind = FrameKind.qosData then
      if ev.txVector.preamble = WifiPreamble.HE_TB then Branch.ulHeTb first.addr2
      else Branch.ulOther
    else if first.kind = FrameKind.qosData then Branch.dl
    else if ev.psduMap.length = 1 ∧ first.kind = FrameKind.trigger then
      if first.trigger.isBasic then Branch.basicTf first.trigger else Branch.ignored
    else Branch.ignored

/-- The event reaches the DL MU PPDU accounting of line 1153. -/
def isDlMu (env : Env) (ev : PsduForwardedDown) : Bool :=
  decide (classify env ev = Branch.dl ∧ ev.txVector.preamble = WifiPreamble.HE_MU)

/-- An accumulator: its min, max and avg members and its sample count. -/
abbrev Acc := ℚ × ℚ × ℚ × Nat

/-- One sample x entering an accumulator, by the three update statements and
the increment of the count. -/
def observe (a : Acc) (x : ℚ) : Acc :=
  (updMin a.1 x, updMax a.2.1 x, updAvg a.2.2.1 a.2.2.2 x, a.2.2.2 + 1)

/-- The BSS-wide A-MPDU ratio accumulator of a state. -/
def State.ampduAcc (s : State) : Acc :=
  (s.m_minAmpduRatio, s.m_maxAmpduRatio, s.m_avgAmpduRatio, s.m_nAmpduRatioSamples)

/-- The A-MPDU ratio accumulator of a station. -/
def DlStats.ampduAcc (st : DlStats) : Acc :=
  (st.minAmpduRatio, st.maxAmpduRatio, st.avgAmpduRatio, st.nAmpduRatioSamples)

/-- The BSS-wide head-of-line delay accumulator of a state. -/
def State.holAcc (s : State) : Acc :=
  (s.m_minHolDelay, s.m_maxHolDelay, s.m_avgHolDelay, s.m_nHolDelaySamples)

/-- The head-of-line delay accumulator of a station. -/
def DlStats.holAcc (st : DlStats) : Acc :=
  (st.minHolDelay, st.maxHolDelay, st.avgHolDelay, st.nHolDelaySamples)

/-- The BSS-wide UL length ratio members of a state: min, max and avg. -/
def State.lengthAcc (s : State) : ℚ × ℚ × ℚ :=
  (s.m_minLengthRatio, s.m_maxLenghtRatio, s.m_avgLengthRatio)

/-- The count that line 1233 derives for the BSS-wide UL length ratio. -/
def State.lengthSamples (s : State) : Nat :=
  sub64 (sub64 s.m_nBasicTriggerFramesSent 1) s.m_nFailedTriggerFrames

/-- The sum of all sub-frame sizes of a psduMap, as a natural number. -/
def totalSize (l : List (Nat × WifiPsdu)) : Nat :=
  (l.map (fun p => p.2.GetSize)).sum

/-- The largest sub-frame size of a psduMap, 0 for an empty one. -/
def largestSize (l : List (Nat × WifiPsdu)) : Nat :=
  (l.map (fun p => p.2.GetSize)).foldr max 0

/-- The events that the statistics handlers are connected to, each with the
values that its handler reads. -/
inductive Event
  /-- NotifyTxFailed for a header with GetAddr1 () = addr1. -/
  | txFailed (addr1 : Mac48Address)
  /-- NotifyMsduExpired for an item with GetHeader ().GetAddr1 () = addr1. -/
  | msduExpired (addr1 : Mac48Address)
  /-- NotifyMsduDequeuedFromEdcaQueue at time now. -/
  | msduDequeued (now : Time) (item : WifiMacQueueItem)
  /-- NotifyPsduForwardedDown. -/
  | psduForwardedDown (ev : PsduForwardedDown)
  /-- TxopDuration. -/
  | txopDuration (duration : Time)
  /-- NotifyApplicationTx at time now. -/
  | applicationTx (now : Time) (p : Packet)
  /-- NotifyApplicationRx at time now. -/
  | applicationRx (now : Time) (context : String) (p : Packet)
  deriving DecidableEq

/-- The handler that an event is dispatched to. -/
def handle (env : Env) (e : Event) (s : State) : Option State :=
  match e with
  | Event.txFailed addr1 => NotifyTxFailed addr1 s
  | Event.msduExpired addr1 => NotifyMsduExpired addr1 s
  | Event.msduDequeued now item => NotifyMsduDequeuedFromEdcaQueue env now item s
  | Event.psduForwardedDown ev => NotifyPsduForwardedDown env ev s
  | Event.txopDuration duration => some (TxopDuration duration s)
  | Event.applicationTx now p => some (NotifyApplicationTx env now p s)
  | Event.applicationRx now context p => NotifyApplicationRx env now context p s

/-- The Trigger Frame whose window is open after the event e, when w was the one
before: the header of e when e takes the Basic Trigger Frame branch. -/
def openWindowAfter (env : Env) (w : Option CtrlTriggerHeader) (e : Event) :
    Option CtrlTriggerHeader :=
  match e with
  | Event.psduForwardedDown ev =>
    match classify env ev with
    | Branch.basicTf t => some t
    | _ => w
  | _ => w

/-- The Trigger Frame whose window is open after the events evs, started from w:
the header of the last event that took the Basic Trigger Frame branch. -/
def openWindowFrom (env : Env) (evs : List Event) (w : Option CtrlTriggerHeader) :
    Option CtrlTriggerHeader :=
  evs.foldl (openWindowAfter env) w

/-- The members that the Trigger Frame accounting reads and writes. -/
def State.tfState (s : State) : Nat × Nat × (ℚ × ℚ × ℚ) × Time × Time × Time :=
  (s.m_nBasicTriggerFramesSent, s.m_nFailedTriggerFrames, s.lengthAcc, s.m_tfUlLength,
   s.m_overallTimeGrantedByTf, s.m_responsesToLastTfDuration)

/-- The state agrees with the open window w: no window and a zero m_tfUlLength, or
the granted duration and the overall granted time of the Trigger Frame w. -/
def WindowInv (s : State) (w : Option CtrlTriggerHeader) : Prop :=
  match w with
  | none => s.m_tfUlLength = 0
  | some t =>
    s.m_tfUlLength = t.heTbPpduDuration ∧
    s.m_overallTimeGrantedByTf = t.heTbPpduDuration * (t.aid12s.length : Int) ∧
    0 < t.aid12s.length

instance (s : State) (w : Option CtrlTriggerHeader) : Decidable (WindowInv s w) := by
  unfold WindowInv
  cases w <;> infer_instance

/-- The closing of a window counted a failed Trigger Frame: the failure counter
went up by one and the BSS-wide UL length ratio members stayed as they were. -/
def countedAsFailed (s s' : State) : Prop :=
  s'.m_nFailedTriggerFrames = s.m_nFailedTriggerFrames + 1 ∧ s'.lengthAcc = s.lengthAcc

/-- The closing of a window scored the sample x: the failure counter stayed as it
was and the BSS-wide UL length ratio members were updated with x, the running
mean with the count derived at line 1233. -/
def scoredWith (s s' : State) (x : ℚ) : Prop :=
  s'.m_nFailedTriggerFrames = s.m_nFailedTriggerFrames ∧
  s'.lengthAcc = (updMin s.m_minLengthRatio x, updMax s.m_maxLenghtRatio x,
    updAvg s.m_avgLengthRatio s.lengthSamples x)

/-- The A-MPDU size members of a station: minAmpduSize, maxAmpduSize, nAmpdus. -/
def DlStats.sizeView (st : DlStats) : Nat × Nat × Nat :=
  (st.minAmpduSize, st.maxAmpduSize, st.nAmpdus)

/-- The statements of lines 1141-1149 on the three A-MPDU size members. -/
def obsSize (v : Nat × Nat × Nat) (currSize : Nat) : Nat × Nat × Nat :=
  (if v.1 = 0 ∨ currSize < v.1 then currSize else v.1,
   if currSize > v.2.1 then currSize else v.2.1,
   v.2.2 + 1)

/-- The sizes of the sub-frames of a psduMap that are destined to address a. -/
def sizesTo (a : Mac48Address) (l : List (Nat × WifiPsdu)) : List Nat :=
  (l.filter (fun p => decide (p.2.addr1 = a))).map (fun p => p.2.GetSize)

/-- The sizes of the sub-frames destined to address a in the downlink events of
evs, in the order in which they are processed. -/
def dlSizesSeen (env : Env) (a : Mac48Address) : List PsduForwardedDown → List Nat
  | [] => []
  | ev :: rest =>
    (if classify env ev = Branch.dl then sizesTo a ev.psduMap else []) ++ dlSizesSeen env a rest

/-- What the Trigger Frame exchange has been so far, told from the events alone:
the Trigger Frame whose window is open, the sum of the TX durations of the HE TB
PPDUs sent in that window, and the completeness ratios of the windows that were
closed with a non-zero responded duration, oldest first. -/
structure WindowLog where
  window : Option CtrlTriggerHeader
  responded : Time
  ratios : List ℚ

/-- The log after one more event.  A Basic Trigger Frame closes the open window,
whose ratio is its responded duration over its granted duration times its number
of user info fields, and opens the next; an HE TB PPDU adds its TX duration. -/
def WindowLog.step (env : Env) (g : WindowLog) (ev : PsduForwardedDown) : WindowLog :=
  match classify env ev with
  | Branch.basicTf t =>
    { window := some t,
      responded := 0,
      ratios :=
        match g.window with
        | some w =>
          if 0 < w.heTbPpduDuration ∧ g.responded ≠ 0 then
            g.ratios ++ [(g.responded : ℚ)
              / ((w.heTbPpduDuration : ℚ) * (w.aid12s.length : ℚ))]
          else g.ratios
        | none => g.ratios }
  | Branch.ulHeTb _ => { g with responded := g.responded + ev.txDuration }
  | _ => g

/-- The log of a sequence of events processed from the initial state. -/
def windowLog (env : Env) (evs : List PsduForwardedDown) : WindowLog :=
  evs.foldl (WindowLog.step env) { window := none, responded := 0, ratios := [] }

/-- The state agrees with the log g after at most k events. -/
def LogInv (s : State) (g : WindowLog) (k : Nat) : Prop :=
  WindowInv s g.window ∧
  s.m_responsesToLastTfDuration = g.responded ∧
  (∀ t, g.window = some t → 0 < t.heTbPpduDuration) ∧
  s.m_avgLengthRatio * (g.ratios.length : ℚ) = g.ratios.sum ∧
  s.m_nBasicTriggerFramesSent ≤ k ∧
  (match g.window with
   | none => s.m_nBasicTriggerFramesSent = 0 ∧ s.m_nFailedTriggerFrames = 0 ∧ g.ratios = []
   | some _ =>
     s.m_nBasicTriggerFramesSent = s.m_nFailedTriggerFrames + 1 + g.ratios.length)

instance (s s' : State) : Decidable (countedAsFailed s s') := by
  unfold countedAsFailed
  infer_instance

instance (s s' : State) (x : ℚ) : Decidable (scoredWith s s' x) := by
  unfold scoredWith
  infer_instance

/-! ## The scenario of the specification examples

An AP with address 1 and three stations A, B, C with addresses 10, 20, 30,
AIDs 1, 2, 3 and node ids 0, 1, 2. -/

/-- The environment of the example scenario. -/
def exEnv : Env :=
  { apAddress := 1, staList := [(1, 10), (2, 20), (3, 30)], m_payloadSize := 160,
    maxDelay := 500000000 }

/-- The initial state of the example scenario. -/
def exInit : State := initialState [10, 20, 30] 3

/-- A header that is not a Trigger Frame header. -/
def noTrigger : CtrlTriggerHeader := { isBasic := false, aid12s := [], heTbPpduDuration := 0 }

/-- A QoS data PSDU of the AP for the station with address a, of n bytes. -/
def dataPsdu (a : Mac48Address) (n : Nat) : WifiPsdu :=
  { addr1 := a, addr2 := 1, size := n, kind := FrameKind.qosData, trigger := noTrigger }

/-- A DL MU PPDU with RUs for A and B in which only A is sent 100 bytes. -/
def exOnlyA : PsduForwardedDown :=
  { psduMap := [(1, dataPsdu 10 100)],
    txVector := { preamble := WifiPreamble.HE_MU, heMuUserInfoMap := [1, 2] },
    txDuration := 0 }

/-- A DL MU PPDU with RUs for A and B in which A is sent 100 and B 50 bytes. -/
def exBoth : PsduForwardedDown :=
  { psduMap := [(1, dataPsdu 10 100), (2, dataPsdu 20 50)],
    txVector := { preamble := WifiPreamble.HE_MU, heMuUserInfoMap := [1, 2] },
    txDuration := 0 }

/-- A Basic Trigger Frame granting g nanoseconds to each of the AIDs. -/
def exTrigger (aids : List Nat) (g : Time) : PsduForwardedDown :=
  { psduMap := [(0, { addr1 := 0, addr2 := 1, size := 40, kind := FrameKind.trigger,
                      trigger := { isBasic := true, aid12s := aids, heTbPpduDuration := g } })],
    txVector := { preamble := WifiPreamble.HE_SU, heMuUserInfoMap := [] },
    txDuration := 0 }

/-- An HE TB PPDU of d nanoseconds sent to the AP by the station with address a. -/
def exResponse (a : Mac48Address) (d : Time) : PsduForwardedDown :=
  { psduMap := [(0, { addr1 := 1, addr2 := a, size := 200, kind := FrameKind.qosData,
                      trigger := noTrigger })],
    txVector := { preamble := WifiPreamble.HE_TB, heMuUserInfoMap := [] },
    txDuration := d }

/-- The state that the event exOnlyA leaves when processed from exInit. -/
def exAfterOnlyA : State :=
  { exInit with
    m_minAmpduRatio := 1 / 2, m_maxAmpduRatio := 1 / 2, m_avgAmpduRatio := 1 / 2,
    m_nAmpduRatioSamples := 1,
    m_dlStats :=
      [(10, { DlStats.init with
              minAmpduSize := 100, maxAmpduSize := 100, nAmpdus := 1,
              minAmpduRatio := 1, maxAmpduRatio := 1, avgAmpduRatio := 1,
              nAmpduRatioSamples := 1 }),
       (20, { DlStats.init with nAmpduRatioSamples := 1 }),
       (30, DlStats.init)] }

/-- The state that the events exOnlyA and exBoth leave when processed in this order
from exInit. -/
def exAfterBoth : State :=
  { exInit with
    m_minAmpduRatio := 1 / 2, m_maxAmpduRatio := 3 / 4, m_avgAmpduRatio := 5 / 8,
    m_nAmpduRatioSamples := 2,
    m_dlStats :=
      [(10, { DlStats.init with
              minAmpduSize := 100, maxAmpduSize := 100, nAmpdus := 2,
              minAmpduRatio := 1, maxAmpduRatio := 1, avgAmpduRatio := 1,
              nAmpduRatioSamples := 2 }),
       (20, { DlStats.init with
              minAmpduSize := 50, maxAmpduSize := 50, nAmpdus := 1,
              minAmpduRatio := 1 / 2, maxAmpduRatio := 1 / 2, avgAmpduRatio := 1 / 4,
              nAmpduRatioSamples := 2 }),
       (30, DlStats.init)] }

/-- A state of the example scenario in which station A was dequeued at 1 ms and
at 3 ms: one head-of-line sample of 2 ms, BSS-wide and for A. -/
def exHol : State :=
  { exInit with
    m_lastTxTime := 3000000,
    m_minHolDelay := 2, m_maxHolDelay := 2, m_avgHolDelay := 2, m_nHolDelaySamples := 1,
    m_dlStats :=
      [(10, { DlStats.init with
              lastTxTime := 3000000,
              minHolDelay := 2, maxHolDelay := 2, avgHolDelay := 2, nHolDelaySamples := 1 }),
       (20, DlStats.init),
       (30, DlStats.init)] }

/-- A queue item for station A that was enqueued at time 0. -/
def exItem : WifiMacQueueItem := { timeStamp := 0, addr1 := 10 }

/-- A context string of node 2. -/
def exContext : String := "/NodeList/2/DeviceList/0/$ns3::WifiNetDevice/Mac/MacRx"

/-- An application packet of 160 bytes with uid 7. -/
def exPacket : Packet := { size := 160, uid := 7 }

/-- The state of the example scenario after a Basic Trigger Frame that grants 1 ms
to A and B and an HE TB PPDU of 1 ms from A. -/
def exWindowOpen : State :=
  { exInit with
    m_nBasicTriggerFramesSent := 1,
    m_tfUlLength := 1000000, m_overallTimeGrantedByTf := 2000000,
    m_responsesToLastTfDuration := 1000000,
    m_ulStats :=
      [(10, { minLengthRatio := 1, maxLenghtRatio := 1, avgLengthRatio := 1,
              nLengthRatioSamples := 1, nSolicitingTriggerFrames := 1 }),
       (20, { UlStats.init with nSolicitingTriggerFrames := 1 }),
       (30, UlStats.init)] }

/-- The state exWindowOpen after a further Basic Trigger Frame that grants 2 ms to
A and B. -/
def exWindowClosed : State :=
  { exInit with
    m_nBasicTriggerFramesSent := 2,
    m_minLengthRatio := 1 / 2, m_maxLenghtRatio := 1 / 2, m_avgLengthRatio := 1 / 2,
    m_tfUlLength := 2000000, m_overallTimeGrantedByTf := 4000000,
    m_responsesToLastTfDuration := 0,
    m_ulStats :=
      [(10, { minLengthRatio := 1, maxLenghtRatio := 1, avgLengthRatio := 1,
              nLengthRatioSamples := 1, nSolicitingTriggerFrames := 2 }),
       (20, { UlStats.init with nSolicitingTriggerFrames := 2 }),
       (30, UlStats.init)] }

/-- The state of the example scenario after three Basic Trigger Frames that grant
1 ms to A and B, the first unanswered and the second answered in full by both. -/
def exThreeTriggers : State :=
  { exInit with
    m_nBasicTriggerFramesSent := 3, m_nFailedTriggerFrames := 1,
    m_minLengthRatio := 1, m_maxLenghtRatio := 1, m_avgLengthRatio := 1,
    m_tfUlLength := 1000000, m_overallTimeGrantedByTf := 2000000,
    m_responsesToLastTfDuration := 0,
    m_ulStats :=
      [(10, { minLengthRatio := 1, maxLenghtRatio := 1, avgLengthRatio := 1,
              nLengthRatioSamples := 1, nSolicitingTriggerFrames := 3 }),
       (20, { minLengthRatio := 1, maxLenghtRatio := 1, avgLengthRatio := 1,
              nLengthRatioSamples := 1, nSolicitingTriggerFrames := 3 }),
       (30, UlStats.init)] }

/-- A Trigger Frame of the example scenario that is not a Basic one. -/
def exOtherTrigger : PsduForwardedDown :=
  { psduMap := [(0, { addr1 := 0, addr2 := 1, size := 40, kind := FrameKind.trigger,
                      trigger := { isBasic := false, aid12s := [1, 2],
                                   heTbPpduDuration := 1000000 } })],
    txVector := { preamble := WifiPreamble.HE_SU, heMuUserInfoMap := [] },
    txDuration := 0 }

/-! ## Configuration, onboarding and the statistics window -/

/-- The member functions that are run as scheduled events or as the Assoc trace
sink, and the stop event of Simulator::Stop. -/
inductive Callback
  | StartAssociation | EstablishBaAgreement | StartOnOffClient | StartBulkSendClient
  | StartTraffic | StartStatistics | StopStatistics | Stop
  deriving DecidableEq

/-- The trace sources that StartStatistics connects a handler to. -/
inductive Stream
  /-- TxopTrace of the BE Txop of the AP, sink TxopDuration. -/
  | TxopTrace
  /-- Expired of the BE queue of the AP, sink NotifyMsduExpired. -/
  | Expired
  /-- Dequeue of the BE queue of the AP, sink NotifyMsduDequeuedFromEdcaQueue. -/
  | Dequeue
  /-- ForwardDown of the MacLow of the AP, sink NotifyPsduForwardedDown. -/
  | ForwardDownAp
  /-- TxErrHeader of the MAC of the AP, sink NotifyTxFailed. -/
  | TxErrHeader
  /-- ForwardDown of the MacLow of station device i, sink NotifyPsduForwardedDown. -/
  | ForwardDownSta (i : Nat)
  /-- MacTx of every WifiNetDevice, sink NotifyApplicationTx. -/
  | MacTx
  /-- MacRx of every WifiNetDevice, sink NotifyApplicationRx. -/
  | MacRx
  deriving DecidableEq

/-- The members that drive onboarding and the statistics window, with the trace
sources to which a handler of this class is connected. -/
structure Orchestrator where
  m_currentSta : Nat
  m_nStations : Nat
  /-- The Time Seconds (m_warmup). -/
  m_warmup : Time
  /-- The Time Seconds (m_simulationTime). -/
  m_simulationTime : Time
  connected : List Stream
  deriving DecidableEq

/-- The Time MilliSeconds (ms). -/
def MilliSeconds (ms : Int) : Time := ms * 1000000

/-- StartAssociation, lines 753-764: the index of the station device whose SSID
is set, none when the assertion m_currentSta < m_nStations fails. -/
def StartAssociation (o : Orchestrator) : Option Nat :=
  if o.m_currentSta < o.m_nStations then some o.m_currentSta else none

/-- The delay with which EstablishBaAgreement schedules the client of the
current station, lines 794-841: 47 ms for a BulkSend client (even index), and
for an OnOff client (odd index) the time to the next multiple of 10 ms plus
110 ms.  The quotient and the ceiling of line 815 are taken over exact
rationals, here the integer ceiling of the nanoseconds over 10^7; the double
computation of the code can round the quotient to the multiple of 10 ms below
when Now is beyond about 2^53 ns (104 days), and the delay is then 10 ms
shorter. -/
def clientDelay (now : Time) (m_currentSta : Nat) : Time :=
  if m_currentSta % 2 ≠ 0 then
    MilliSeconds ((now + 9999999) / 10000000 * 10 + 110) - now
  else MilliSeconds 47

/-- The client start function that EstablishBaAgreement schedules for the
current station. -/
def clientCallback (m_currentSta : Nat) : Callback :=
  if m_currentSta % 2 ≠ 0 then Callback.StartOnOffClient else Callback.StartBulkSendClient

/-- EstablishBaAgreement, lines 766-853, at time now: the state with m_currentSta
incremented and the delays and callbacks passed to Simulator::Schedule, in
order.  None when m_staInterfaces.GetAddress (m_currentSta) is out of range. -/
def EstablishBaAgreement (now : Time) (o : Orchestrator) :
    Option (Orchestrator × List (Time × Callback)) :=
  if o.m_currentSta < o.m_nStations then
    let pingDuration := MilliSeconds 125
    let client := (clientDelay now o.m_currentSta, clientCallback o.m_currentSta)
    let o1 := { o with m_currentSta := o.m_currentSta + 1 }
    if o1.m_currentSta < o1.m_nStations then
      some (o1, [client, (pingDuration, Callback.StartAssociation)])
    else
      some (o1, [client, (pingDuration, Callback.StartTraffic)])
  else none

/-- StartTraffic, lines 876-908: the delay and callback passed to
Simulator::Schedule. -/
def StartTraffic (o : Orchestrator) : List (Time × Callback) :=
  [(o.m_warmup, Callback.StartStatistics)]

/-- The trace sources ForwardDown of the station devices 0, ..., n-1. -/
def staStreams (n : Nat) : List Stream :=
  (List.range n).map Stream.ForwardDownSta

/-- The trace sources named in StartStatistics, in the order of lines 920-949,
for n station devices. -/
def statStreams (n : Nat) : List Stream :=
  [Stream.TxopTrace, Stream.Expired, Stream.Dequeue, Stream.ForwardDownAp, Stream.TxErrHeader]
    ++ staStreams n ++ [Stream.MacTx, Stream.MacRx]

/-- The trace sources named in StopStatistics, in the order of lines 965-1010,
for n station devices. -/
def stopStreams (n : Nat) : List Stream :=
  [Stream.TxopTrace, Stream.Expired, Stream.Dequeue, Stream.ForwardDownAp, Stream.TxErrHeader]
    ++ staStreams n ++ [Stream.MacTx, Stream.MacRx]

/-- TraceConnect of the handler to each of the sources l. -/
def connectAll (l : List Stream) (connected : List Stream) : List Stream :=
  connected ++ l

/-- TraceDisconnect of the handler from each of the sources l: every connection
of the handler to such a source is removed. -/
def disconnectAll (l : List Stream) (connected : List Stream) : List Stream :=
  connected.filter (fun x => decide (x ∉ l))

/-- StartStatistics, lines 910-953: the connections made and the delay and
callback passed to Simulator::Schedule. -/
def StartStatistics (o : Orchestrator) : Orchestrator × List (Time × Callback) :=
  ({ o with connected := connectAll (statStreams o.m_nStations) o.connected },
   [(o.m_simulationTime, Callback.StopStatistics)])

/-- StopStatistics, lines 955-1012: the connections removed. -/
def StopStatistics (o : Orchestrator) : Orchestrator :=
  { o with connected := disconnectAll (stopStreams o.m_nStations) o.connected }

/-- An event fired by a trace source, with the values passed to the sink. -/
inductive TraceEvent
  | txopTrace (duration : Time)
  | expired (addr1 : Mac48Address)
  | dequeue (now : Time) (item : WifiMacQueueItem)
  | forwardDownAp (ev : PsduForwardedDown)
  | txErrHeader (addr1 : Mac48Address)
  | forwardDownSta (i : Nat) (ev : PsduForwardedDown)
  | macTx (now : Time) (p : Packet)
  | macRx (now : Time) (context : String) (p : Packet)

/-- The trace source that fires the event. -/
def TraceEvent.stream : TraceEvent → Stream
  | TraceEvent.txopTrace _ => Stream.TxopTrace
  | TraceEvent.expired _ => Stream.Expired
  | TraceEvent.dequeue _ _ => Stream.Dequeue
  | TraceEvent.forwardDownAp _ => Stream.ForwardDownAp
  | TraceEvent.txErrHeader _ => Stream.TxErrHeader
  | TraceEvent.forwardDownSta i _ => Stream.ForwardDownSta i
  | TraceEvent.macTx _ _ => Stream.MacTx
  | TraceEvent.macRx _ _ _ => Stream.MacRx

/-- The handler call that the sink of the trace source makes. -/
def TraceEvent.event : TraceEvent → Event
  | TraceEvent.txopTrace d => Event.txopDuration d
  | TraceEvent.expired a => Event.msduExpired a
  | TraceEvent.dequeue now item => Event.msduDequeued now item
  | TraceEvent.forwardDownAp ev => Event.psduForwardedDown ev
  | TraceEvent.txErrHeader a => Event.txFailed a
  | TraceEvent.forwardDownSta _ ev => Event.psduForwardedDown ev
  | TraceEvent.macTx now p => Event.applicationTx now p
  | TraceEvent.macRx now ctx p => Event.applicationRx now ctx p

/-- The delivery of a trace event: the handler runs once for every connection
to the source that fires it. -/
def deliver (env : Env) (connected : List Stream) (te : TraceEvent) (s : State) :
    Option State :=
  runEvents (handle env) (List.replicate (connected.count te.stream) te.event) s

/-- The call Simulator::Schedule at time now: the event is placed after the
pending events that are not later than it. -/
def scheduleAt (t : Time) (cb : Callback) : List (Time × Callback) → List (Time × Callback)
  | [] => [(t, cb)]
  | (t', cb') :: q =>
    if t < t' then (t, cb) :: (t', cb') :: q else (t', cb') :: scheduleAt t cb q

/-- Simulator::Schedule for each of the delays and callbacks l, in order. -/
def scheduleAll (now : Time) (l : List (Time × Callback)) (q : List (Time × Callback)) :
    List (Time × Callback) :=
  l.foldl (fun q e => scheduleAt (now + e.1) e.2 q) q

/-- One executed event: its time, its callback, m_currentSta when it started and
the connections when it ended. -/
structure LogEntry where
  time : Time
  callback : Callback
  station : Nat
  connected : List Stream
  deriving DecidableEq

/-- The simulator together with the orchestrator: the pending events, whether
the stop event was run, and the log of the events run so far. -/
structure Sim where
  queue : List (Time × Callback)
  stopped : Bool
  o : Orchestrator
  log : List LogEntry

/-- The run of one callback at time now.  The association that StartAssociation
starts for station i ends assocDelay i later with the Assoc trace, whose sink
is EstablishBaAgreement. -/
def runCallback (assocDelay : Nat → Time) (now : Time) (cb : Callback) (sim : Sim) :
    Option Sim :=
  match cb with
  | Callback.StartAssociation =>
    match StartAssociation sim.o with
    | none => none
    | some i =>
      some { sim with
        queue := scheduleAt (now + assocDelay i) Callback.EstablishBaAgreement sim.queue }
  | Callback.EstablishBaAgreement =>
    match EstablishBaAgreement now sim.o with
    | none => none
    | some (o1, l) => some { sim with o := o1, queue := scheduleAll now l sim.queue }
  | Callback.StartOnOffClient => some sim
  | Callback.StartBulkSendClient => some sim
  | Callback.StartTraffic =>
    some { sim with queue := scheduleAll now (StartTraffic sim.o) sim.queue }
  | Callback.StartStatistics =>
    some { sim with o := (StartStatistics sim.o).1,
                    queue := scheduleAll now (StartStatistics sim.o).2 sim.queue }
  | Callback.StopStatistics => some { sim with o := StopStatistics sim.o }
  | Callback.Stop => some { sim with stopped := true }

/-- Simulator::Run for at most fuel events: the first pending event is run until
none is pending or the stop event was run.  None when an assertion fails. -/
def simulate (assocDelay : Nat → Time) : Nat → Sim → Option Sim
  | 0, sim => some sim
  | fuel + 1, sim =>
    if sim.stopped then some sim
    else
      match sim.queue with
      | [] => some sim
      | (t, cb) :: q =>
        match runCallback assocDelay t cb { sim with queue := q } with
        | none => none
        | some sim1 =>
          simulate assocDelay fuel
            { sim1 with log := sim1.log ++ [{ time := t, callback := cb,
                                              station := sim.o.m_currentSta,
                                              connected := sim1.o.connected }] }

/-- The simulator as Run leaves it at line 599, before Simulator::Run: the event
StartAssociation of ScheduleNow and the stop event of Simulator::Stop, 100 s
after the warmup and the simulation time. -/
def Run (o : Orchestrator) : Sim :=
  { queue := scheduleAt (0 + (o.m_warmup + o.m_simulationTime + MilliSeconds 100000))
      Callback.Stop (scheduleAt 0 Callback.StartAssociation []),
    stopped := false,
    o := o,
    log := [] }

/-- The orchestrator when m_currentSta is i, with no connection made. -/
def orchAt (n : Nat) (w sm : Time) (i : Nat) : Orchestrator :=
  { m_currentSta := i, m_nStations := n, m_warmup := w, m_simulationTime := sm,
    connected := [] }

/-- The events expected from the time a at which StartTraffic is due, when no
stop event intervenes: StartTraffic, StartStatistics a warmup later and
StopStatistics a simulation time after that. -/
def statisticsLog (n : Nat) (w sm : Time) (a : Time) : List LogEntry :=
  [{ time := a, callback := Callback.StartTraffic, station := n, connected := [] },
   { time := a + w, callback := Callback.StartStatistics, station := n,
     connected := statStreams n },
   { time := a + w + sm, callback := Callback.StopStatistics, station := n, connected := [] }]

/-- The events expected for the r stations i, i+1, ... when the association of
station i starts at time a and no stop event intervenes: for each station
StartAssociation, EstablishBaAgreement an association delay later and the
start of its client; the next station follows 125 ms after EstablishBaAgreement,
and after the last one StartTraffic does. -/
def onboardLog (d : Nat → Time) (n : Nat) (w sm : Time) : Nat → Nat → Time → List LogEntry
  | 0, _, a => statisticsLog n w sm a
  | r + 1, i, a =>
    { time := a, callback := Callback.StartAssociation, station := i, connected := [] } ::
    { time := a + d i, callback := Callback.EstablishBaAgreement, station := i,
      connected := [] } ::
    { time := a + d i + clientDelay (a + d i) i, callback := clientCallback i,
      station := i + 1, connected := [] } ::
    onboardLog d n w sm r (i + 1) (a + d i + MilliSeconds 125)

/-- The events expected of a whole run with n stations when no stop event
intervenes. -/
def expectedLog (d : Nat → Time) (n : Nat) (w sm : Time) : List LogEntry :=
  onboardLog d n w sm n 0 0

/-- Whether the statistics window is open after callback cb, given whether it
was open before: StartStatistics opens it and StopStatistics closes it. -/
def gateAfter (b : Bool) (cb : Callback) : Bool :=
  if cb = Callback.StartStatistics then true
  else if cb = Callback.StopStatistics then false
  else b

/-- Whether, after every event of the log, the handlers are connected to all
the trace sources of StartStatistics when the statistics window is open and to
none when it is not; b tells whether the window is open before the log. -/
def gateHolds (n : Nat) : Bool → List LogEntry → Bool
  | _, [] => true
  | b, e :: l =>
    decide (e.connected = if gateAfter b e.callback = true then statStreams n else [])
      && gateHolds n (gateAfter b e.callback) l

/-- The outcome of a run that ends with the stop event: the log is the events
already in L, the expected events before the stop time S and the stop event,
and the connections follow the statistics window. -/
def EndsWithStop (n : Nat) (final : Sim) (L expected : List LogEntry) (S : Time) : Prop :=
  final.stopped = true ∧
  ∃ stopEntry : LogEntry,
    stopEntry.callback = Callback.Stop ∧ stopEntry.time = S ∧
    stopEntry.connected = final.o.connected ∧
    final.log = L ++ expected.takeWhile (fun e => decide (e.time < S)) ++ [stopEntry] ∧
    gateHolds n false (expected.takeWhile (fun e => decide (e.time < S)) ++ [stopEntry]) = true

/-- The callback that opens the part of the run in which r stations remain. -/
def phaseCallback (r : Nat) : Callback :=
  if r = 0 then Callback.StartTraffic else Callback.StartAssociation

/-- Whether the statistics window is open after the events l of a log that
starts with the window closed. -/
def windowOpen (l : List LogEntry) : Bool :=
  l.foldl (fun b x => gateAfter b x.callback) false

/-- The time at which StartTraffic is due when the association of station i
starts at time a and r stations remain: every station adds its association
delay and the 125 ms of its verification window. -/
def trafficTime (d : Nat → Time) : Nat → Nat → Time → Time
  | 0, _, a => a
  | r + 1, i, a => trafficTime d r (i + 1) (a + d i + MilliSeconds 125)

/-- An association delay of 3 ms for every station. -/
def exDelay : Nat → Time := fun _ => 3000000

/-- An orchestrator for two stations, a warmup of 1 s and a simulation time of
2 s, before the first association. -/
def exOrch : Orchestrator := orchAt 2 1000000000 2000000000 0

/-- The number of latency samples recorded, over all the vectors of
m_appLatencyMap. -/
def State.latencySamples (s : State) : Nat :=
  (s.m_appLatencyMap.map (fun p => p.2.length)).sum

/-- Whether the event is a NotifyApplicationTx whose insert at line 1275 adds an
entry to m_appPacketTxMap: the packet is not filtered out and its uid is not
pending in the state s. -/
def insertsPending (env : Env) (s : State) : Event → Bool
  | Event.applicationTx _ p =>
    decide (¬ p.size < env.m_payloadSize ∧ find p.uid s.m_appPacketTxMap = none)
  | _ => false

/-- Whether the event is a NotifyApplicationRx that reaches lines 1288-1292: the
packet is not filtered out and its uid is pending in the state s. -/
def consumesPending (env : Env) (s : State) : Event → Bool
  | Event.applicationRx _ _ p =>
    decide (¬ p.size < env.m_payloadSize ∧ find p.uid s.m_appPacketTxMap ≠ none)
  | _ => false

/-- The number of events of a run from s that satisfy c in the state in which
they are handled. -/
def countAlong (env : Env) (c : State → Event → Bool) : List Event → State → Nat
  | [], _ => 0
  | e :: rest, s =>
    (if c s e then 1 else 0) +
      match handle env e s with
      | none => 0
      | some s1 => countAlong env c rest s1

/-- The members that only the application handlers write. -/
def State.appView (s : State) : List (Nat × Time) × List (Nat × List Time) :=
  (s.m_appPacketTxMap, s.m_appLatencyMap)

/-- The state of the example scenario in which the packet with uid 7, sent at
time 10, is pending. -/
def exPending : State := { exInit with m_appPacketTxMap := [(7, 10)] }

/-- The times Simulator::Now () of the dequeue events that are not discarded at
line 1037, in order. -/
def dequeueTimes (env : Env) : List Event → List Time
  | [] => []
  | Event.msduDequeued now item :: rest =>
    if now > item.timeStamp + env.maxDelay then dequeueTimes env rest
    else now :: dequeueTimes env rest
  | _ :: rest => dequeueTimes env rest

/-- The head-of-line gaps, in milliseconds, that dequeues at the given times
count when the last dequeue before them was at time last: the gap to the
previous dequeue time, when that time is strictly positive and the gap is. -/
def holGaps : Time → List Time → List ℚ
  | _, [] => []
  | last, t :: rest =>
    (if 0 < last ∧ last < t then [ToDoubleMS (t - last)] else []) ++ holGaps t rest

/-- The members that only NotifyMsduDequeuedFromEdcaQueue writes, the per-station
ones apart. -/
def State.holView (s : State) : Acc × Time := (s.holAcc, s.m_lastTxTime)

/-- An accumulator holds the strictly positive samples xs: their number, their
mean, and their smallest and largest value. -/
def AccHolds (a : Acc) (xs : List ℚ) : Prop :=
  a.2.2.2 = xs.length ∧
  a.2.2.1 * (xs.length : ℚ) = xs.sum ∧
  (xs = [] → a.1 = 0 ∧ a.2.1 = 0) ∧
  (xs ≠ [] → a.1 ∈ xs ∧ (∀ x ∈ xs, a.1 ≤ x) ∧ a.2.1 ∈ xs ∧ (∀ x ∈ xs, x ≤ a.2.1))

/-- The lastTxTime members of the stations of m_dlStats, in map order. -/
def lastTxTimes (dl : List (Mac48Address × DlStats)) : List Time :=
  dl.map (fun p => p.2.lastTxTime)

/-- The BSS-wide m_lastTxTime bounds the lastTxTime of every station and, unless
it is 0, is the lastTxTime of one of them; no time is negative. -/
def LastTxInv (s : State) : Prop :=
  0 ≤ s.m_lastTxTime ∧
  (∀ t ∈ lastTxTimes s.m_dlStats, 0 ≤ t ∧ t ≤ s.m_lastTxTime) ∧
  (s.m_lastTxTime = 0 ∨ s.m_lastTxTime ∈ lastTxTimes s.m_dlStats)

/-- The event takes the Basic Trigger Frame branch of lines 1211-1255. -/
def isBasicTf (env : Env) (ev : PsduForwardedDown) : Bool :=
  match classify env ev with
  | Branch.basicTf _ => true
  | _ => false

/-- The value unrespondedTfRatio that Run computes for a station of odd index,
lines 708-715: the unsigned 64-bit difference of the two counters, converted
to the nearest double by the static_cast, over the number of soliciting
Trigger Frames, 0 when there was none. -/
def unrespondedTfRatio (st : UlStats) : ℚ :=
  if st.nSolicitingTriggerFrames > 0 then
    roundDouble
      (roundDouble (sub64 st.nSolicitingTriggerFrames st.nLengthRatioSamples : ℚ)
        / roundDouble (st.nSolicitingTriggerFrames : ℚ))
  else 0

/-- The value missingHeTbPpduRatio that Run prints, lines 727-739: the two
counters are summed over m_ulStats in unsigned 64-bit arithmetic, and their
unsigned difference is converted to the nearest double by the static_cast. -/
def missingHeTbPpduRatio (ul : List (Mac48Address × UlStats)) : ℚ :=
  let heTbPPduTotalCount :=
    ul.foldl (fun acc p => (acc + p.2.nLengthRatioSamples) % 18446744073709551616) 0
  let solicitingTriggerFrames :=
    ul.foldl (fun acc p => (acc + p.2.nSolicitingTriggerFrames) % 18446744073709551616) 0
  if solicitingTriggerFrames > 0 then
    roundDouble
      (roundDouble (sub64 solicitingTriggerFrames heTbPPduTotalCount : ℚ)
        / roundDouble (solicitingTriggerFrames : ℚ))
  else 0

/-- The events of the example scenario in which statistics collection starts
between a Basic Trigger Frame and the HE TB PPDU with which station B answers
it: that answer, the next Basic Trigger Frame for B, and the answer of B. -/
def exLateStart : List PsduForwardedDown :=
  [exResponse 20 1000000, exTrigger [2] 1000000, exResponse 20 1000000]

/-- Four dequeues of items for station A of the example scenario, the first at
1 ms and each of the others gap nanoseconds after the one before it. -/
def exEqualGaps (gap : Time) : List Event :=
  [Event.msduDequeued 1000000 exItem, Event.msduDequeued (1000000 + gap) exItem,
   Event.msduDequeued (1000000 + 2 * gap) exItem,
   Event.msduDequeued (1000000 + 3 * gap) exItem]

/-- The callbacks of the events scheduled up to this point of a run: those that
were run and those that are pending.  No event is ever cancelled. -/
def scheduledEvents (sim : Sim) : List Callback :=
  sim.log.map LogEntry.callback ++ sim.queue.map Prod.snd

/-- The number of calls of EstablishBaAgreement in the log that were made for
the last of n stations. -/
def lastEstablished (n : Nat) (log : List LogEntry) : Nat :=
  (log.filter (fun e =>
    decide (e.callback = Callback.EstablishBaAgreement ∧ e.station + 1 = n))).length

/-- An association delay of 60 s for every station. -/
def exSlowDelay : Nat → Time := fun _ => 60000000000

/-- One sample x entering an accumulator, by the three update statements with
the operations of the running mean rounded, and the increment of the count. -/
def observeDouble (a : Acc) (x : ℚ) : Acc :=
  (updMin a.1 x, updMax a.2.1 x, updAvgDouble a.2.2.1 a.2.2.2 x, a.2.2.2 + 1)

/-- The handler that an event is dispatched to, with the dequeue handler in its
reading with rounded double operations; the other handlers do not touch the
head-of-line members. -/
def handleHolDouble (env : Env) (e : Event) (s : State) : Option State :=
  match e with
  | Event.msduDequeued now item => NotifyMsduDequeuedFromEdcaQueueDouble env now item s
  | Event.txFailed addr1 => handle env (Event.txFailed addr1) s
  | Event.msduExpired addr1 => handle env (Event.msduExpired addr1) s
  | Event.psduForwardedDown ev => handle env (Event.psduForwardedDown ev) s
  | Event.txopDuration duration => handle env (Event.txopDuration duration) s
  | Event.applicationTx now p => handle env (Event.applicationTx now p) s
  | Event.applicationRx now context p => handle env (Event.applicationRx now context p) s

/-- The head-of-line gaps of holGaps as the doubles that ToDouble (Time::MS)
returns for them. -/
def holGapsDouble : Time → List Time → List ℚ
  | _, [] => []
  | last, t :: rest =>
    (if 0 < last ∧ last < t then [ToDoubleMSRounded (t - last)] else [])
      ++ holGapsDouble t rest

/-- An accumulator holds the number, the smallest and the largest of the
strictly positive samples xs. -/
def ExtremesHold (a : Acc) (xs : List ℚ) : Prop :=
  a.2.2.2 = xs.length ∧
  (xs = [] → a.1 = 0 ∧ a.2.1 = 0) ∧
  (xs ≠ [] → a.1 ∈ xs ∧ (∀ x ∈ xs, a.1 ≤ x) ∧ a.2.1 ∈ xs ∧ (∀ x ∈ xs, x ≤ a.2.1))

/-! ## Lemmas on the map operations -/

theorem find_assign_same {α : Type} (k : Nat) (v : α) (m : List (Nat × α)) :
    find k (assign k v m) = (find k m).map (fun _ => v) := by
  induction m with
  | nil => rfl
  | cons p rest ih =>
    obtain ⟨k', v'⟩ := p
    by_cases hk : k' = k
    · simp [assign, find, hk]
    · simp [assign, find, hk, ih]

theorem find_assign_other {α : Type} {k j : Nat} (v : α) (m : List (Nat × α)) (h : j ≠ k) :
    find j (assign k v m) = find j m := by
  induction m with
  | nil => rfl
  | cons p rest ih =>
    obtain ⟨k', v'⟩ := p
    by_cases hk : k' = k
    · subst hk
      have hj : ¬ k' = j := fun e => h e.symm
      simp [assign, find, hj]
    · by_cases hj : k' = j
      · subst hj
        simp [assign, find, hk]
      · simp [assign, find, hk, hj, ih]

theorem assign_find_self {α : Type} {k : Nat} {v : α} (m : List (Nat × α))
    (h : find k m = some v) : assign k v m = m := by
  induction m with
  | nil => rfl
  | cons p rest ih =>
    obtain ⟨k', v'⟩ := p
    by_cases hk : k' = k
    · simp [find, hk] at h
      simp [assign, hk, h]
    · simp [find, hk] at h
      simp [assign, hk, ih h]

theorem find_insert_same {α : Type} (k : Nat) (v : α) (m : List (Nat × α))
    (h : find k m = none) : find k (insert k v m) = some v := by
  induction m with
  | nil => simp [insert, find]
  | cons p rest ih =>
    obtain ⟨k', v'⟩ := p
    by_cases hk : k' = k
    · simp [find, hk] at h
    · simp [find, hk] at h
      by_cases hlt : k < k'
      · simp [insert, hlt, find]
      · simp [insert, hlt, hk, find, ih h]

theorem find_insert_other {α : Type} {k j : Nat} (v : α) (m : List (Nat × α)) (h : j ≠ k) :
    find j (insert k v m) = find j m := by
  induction m with
  | nil =>
    have hj : ¬ k = j := fun e => h e.symm
    simp [insert, find, hj]
  | cons p rest ih =>
    obtain ⟨k', v'⟩ := p
    have hj : ¬ k = j := fun e => h e.symm
    by_cases hlt : k < k'
    · simp [insert, hlt, find, hj]
    · by_cases hk : k' = k
      · simp [insert, hlt, hk]
      · by_cases hkj : k' = j
        · subst hkj
          simp [insert, hlt, hk, find]
        · simp [insert, hlt, hk, find, hkj, ih]

theorem insert_present {α : Type} {k : Nat} (v : α) {w : α} (m : List (Nat × α))
    (h : find k m = some w) (hs : (m.map Prod.fst).Sorted (· < ·)) : insert k v m = m := by
  induction m with
  | nil => simp [find] at h
  | cons p rest ih =>
    obtain ⟨k', v'⟩ := p
    simp only [List.map_cons, List.sorted_cons] at hs
    by_cases hk : k' = k
    · subst hk
      simp [insert]
    · simp [find, hk] at h
      have hlt : ¬ k < k' := by
        intro hlt
        have hmem : ∀ (l : List (Nat × α)), find k l = some w → k ∈ l.map Prod.fst := by
          intro l
          induction l with
          | nil => intro h0; simp [find] at h0
          | cons q l ihl =>
            obtain ⟨a, b⟩ := q
            intro h0
            by_cases ha : a = k
            · simp [ha]
            · simp [find, ha] at h0
              simp [ihl h0]
        have := hs.1 k (hmem rest h)
        omega
      simp [insert, hlt, hk, ih h hs.2]

theorem erase_insert {α : Type} (k : Nat) (v : α) (m : List (Nat × α))
    (h : find k m = none) : erase k (insert k v m) = m := by
  induction m with
  | nil => simp [insert, erase]
  | cons p rest ih =>
    obtain ⟨k', v'⟩ := p
    by_cases hk : k' = k
    · simp [find, hk] at h
    · simp [find, hk] at h
      by_cases hlt : k < k'
      · simp [insert, hlt, erase]
      · simp [insert, hlt, hk, erase, ih h]

theorem find_erase_same {α : Type} (k : Nat) (m : List (Nat × α))
    (hs : (m.map Prod.fst).Sorted (· < ·)) : find k (erase k m) = none := by
  induction m with
  | nil => rfl
  | cons p rest ih =>
    obtain ⟨k', v'⟩ := p
    simp only [List.map_cons, List.sorted_cons] at hs
    by_cases hk : k' = k
    · subst hk
      simp only [erase, if_true]
      have hnone : ∀ (l : List (Nat × α)), (∀ b ∈ l.map Prod.fst, k' < b) → find k' l = none := by
        intro l
        induction l with
        | nil => intro _; rfl
        | cons q l ihl =>
          obtain ⟨a, b⟩ := q
          intro hl
          have h1 : k' < a := hl a (by simp)
          have h2 : ¬ a = k' := by omega
          simp only [find, h2, if_false]
          exact ihl (fun b hb => hl b (by simp at hb ⊢; exact Or.inr hb))
      exact hnone rest hs.1
    · simp [erase, hk, find, ih hs.2]

theorem find_erase_other {α : Type} {k j : Nat} (m : List (Nat × α)) (h : j ≠ k) :
    find j (erase k m) = find j m := by
  induction m with
  | nil => rfl
  | cons p rest ih =>
    obtain ⟨k', v'⟩ := p
    by_cases hk : k' = k
    · subst hk
      have hj : ¬ k' = j := fun e => h e.symm
      simp [erase, find, hj]
    · by_cases hj : k' = j
      · subst hj
        simp [erase, find, hk]
      · simp [erase, find, hk, hj, ih]

/-! ## The branches of NotifyPsduForwardedDown, inverted -/

theorem step_eq_classify (env : Env) (ev : PsduForwardedDown) (s : State) :
    NotifyPsduForwardedDown env ev s =
      match classify env ev with
      | Branch.undefined => none
      | Branch.ulHeTb a => ulResponse a ev.txDuration s
      | Branch.ulOther => some s
      | Branch.dl => downlink env ev s
      | Branch.basicTf t => basicTrigger env t s
      | Branch.ignored => some s := by
  unfold NotifyPsduForwardedDown classify
  split
  · rfl
  · split
    · split <;> rfl
    · split
      · rfl
      · split
        · split <;> rfl
        · rfl

theorem dlSizeLoop_values (l : List (Nat × WifiPsdu)) :
    ∀ (mx sm : Nat) (dl : List (Mac48Address × DlStats)) (r : Nat × Nat × List (Mac48Address × DlStats)),
      dlSizeLoop l mx sm dl = some r → r.1 = maxSizeFrom l mx ∧ r.2.1 = sizeSumFrom l sm := by
  induction l with
  | nil =>
    intro mx sm dl r h
    simp [dlSizeLoop] at h
    subst h
    simp [maxSizeFrom, sizeSumFrom]
  | cons p rest ih =>
    intro mx sm dl r h
    obtain ⟨k, psdu⟩ := p
    simp only [dlSizeLoop] at h
    cases hf : find psdu.addr1 dl with
    | none => simp [hf] at h
    | some st =>
      simp only [hf] at h
      have := ih _ _ _ _ h
      simpa [maxSizeFrom, sizeSumFrom] using this

theorem ulResponse_some {a : Mac48Address} {d : Time} {s s' : State}
    (h : ulResponse a d s = some s') :
    ∃ st, find a s.m_ulStats = some st ∧
      s' = { s with
        m_responsesToLastTfDuration := s.m_responsesToLastTfDuration + d,
        m_ulStats := assign a
          { st with
            minLengthRatio := updMin st.minLengthRatio (GetSeconds d / GetSeconds s.m_tfUlLength),
            maxLenghtRatio := updMax st.maxLenghtRatio (GetSeconds d / GetSeconds s.m_tfUlLength),
            avgLengthRatio := updAvg st.avgLengthRatio st.nLengthRatioSamples
              (GetSeconds d / GetSeconds s.m_tfUlLength),
            nLengthRatioSamples := st.nLengthRatioSamples + 1 } s.m_ulStats } := by
  unfold ulResponse at h
  cases hf : find a s.m_ulStats with
  | none => simp [hf] at h
  | some st =>
    simp only [hf, Option.some.injEq] at h
    exact ⟨st, rfl, h.symm⟩

theorem basicTrigger_some {env : Env} {t : CtrlTriggerHeader} {s s' : State}
    (h : basicTrigger env t s = some s') :
    t.aid12s ≠ [] ∧ ∃ ul, solicitLoop env t.aid12s (closeWindow s).m_ulStats = some ul ∧
      s' = { closeWindow s with
        m_nBasicTriggerFramesSent := (closeWindow s).m_nBasicTriggerFramesSent + 1,
        m_responsesToLastTfDuration := 0,
        m_tfUlLength := t.heTbPpduDuration,
        m_overallTimeGrantedByTf := t.heTbPpduDuration * (t.aid12s.length : Int),
        m_ulStats := ul } := by
  unfold basicTrigger at h
  simp only at h
  cases ha : t.aid12s with
  | nil => simp [ha] at h
  | cons a rest =>
    rw [ha] at h
    simp only at h
    cases hl : solicitLoop env (a :: rest) (closeWindow s).m_ulStats with
    | none => simp [hl] at h
    | some ul =>
      simp only [hl, Option.some.injEq] at h
      exact ⟨by simp, ul, rfl, h.symm⟩

theorem downlink_some {env : Env} {ev : PsduForwardedDown} {s s' : State}
    (h : downlink env ev s = some s') :
    ∃ dl1, dlSizeLoop ev.psduMap 0 0 s.m_dlStats
        = some (maxSizeFrom ev.psduMap 0, sizeSumFrom ev.psduMap 0, dl1) ∧
      if ev.txVector.preamble = WifiPreamble.HE_MU then
        0 < maxBytesOf ev ∧
        ∃ dl2, dlRatioLoop env ev.psduMap (maxSizeFrom ev.psduMap 0)
            ev.txVector.heMuUserInfoMap dl1 = some dl2 ∧
          s' = { s with
            m_minAmpduRatio := updMin s.m_minAmpduRatio (dlMuSample ev),
            m_maxAmpduRatio := updMax s.m_maxAmpduRatio (dlMuSample ev),
            m_avgAmpduRatio := updAvg s.m_avgAmpduRatio s.m_nAmpduRatioSamples (dlMuSample ev),
            m_nAmpduRatioSamples := s.m_nAmpduRatioSamples + 1,
            m_dlStats := dl2 }
      else s' = { s with m_dlStats := dl1 } := by
  unfold downlink at h
  cases hl : dlSizeLoop ev.psduMap 0 0 s.m_dlStats with
  | none => simp [hl] at h
  | some r =>
    obtain ⟨mx, sm, dl1⟩ := r
    have hv := dlSizeLoop_values _ _ _ _ _ hl
    simp only at hv
    obtain ⟨h1, h2⟩ := hv
    subst h1 h2
    refine ⟨dl1, rfl, ?_⟩
    simp only [hl] at h
    by_cases hp : ev.txVector.preamble = WifiPreamble.HE_MU
    · simp only [hp, if_true] at h ⊢
      unfold dlMu at h
      simp only at h
      by_cases hb : 0 < maxSizeFrom ev.psduMap 0 * ev.txVector.heMuUserInfoMap.length % 4294967296
      · simp only [gt_iff_lt, hb, if_true] at h
        cases hr : dlRatioLoop env ev.psduMap (maxSizeFrom ev.psduMap 0)
            ev.txVector.heMuUserInfoMap dl1 with
        | none => simp [hr] at h
        | some dl2 =>
          simp only [hr, Option.some.injEq] at h
          exact ⟨hb, dl2, rfl, h.symm⟩
      · simp [hb] at h
    · simp only [hp, if_false, Option.some.injEq] at h ⊢
      exact h.symm

/-! ## The initial state -/

theorem setupStats_eq (l : List Mac48Address) : ∀ s : State,
    setupStats l s = { s with
      m_dlStats := l.foldl (fun m a => setAt a DlStats.init m) s.m_dlStats,
      m_ulStats := l.foldl (fun m a => setAt a UlStats.init m) s.m_ulStats } := by
  induction l with
  | nil => intro s; rfl
  | cons a rest ih => intro s; simp [setupStats, ih]

theorem setupLatency_eq (n : Nat) : ∀ (i : Nat) (s : State),
    ∃ m, setupLatency n i s = { s with m_appLatencyMap := m } := by
  induction n with
  | zero => intro i s; exact ⟨s.m_appLatencyMap, rfl⟩
  | succ n ih =>
    intro i s
    obtain ⟨m, hm⟩ := ih (i + 1) { s with m_appLatencyMap := insert i [] s.m_appLatencyMap }
    exact ⟨m, by simp [setupLatency, hm]⟩

theorem initialState_eq (staAddrs : List Mac48Address) (n : Nat) :
    ∃ m, initialState staAddrs n = { State.ctor with
      m_dlStats := staAddrs.foldl (fun m a => setAt a DlStats.init m) [],
      m_ulStats := staAddrs.foldl (fun m a => setAt a UlStats.init m) [],
      m_appLatencyMap := m } := by
  obtain ⟨m, hm⟩ := setupLatency_eq n 0 (setupStats staAddrs State.ctor)
  refine ⟨m, ?_⟩
  rw [initialState, hm, setupStats_eq]
  rfl

theorem initialState_ampduAcc (staAddrs : List Mac48Address) (n : Nat) :
    (initialState staAddrs n).ampduAcc = (0, 0, 0, 0) := by
  obtain ⟨m, hm⟩ := initialState_eq staAddrs n
  rw [hm]; rfl

theorem step_ampduAcc {env : Env} {ev : PsduForwardedDown} {s s' : State}
    (h : NotifyPsduForwardedDown env ev s = some s') :
    s'.ampduAcc = if isDlMu env ev then observe s.ampduAcc (dlMuSample ev) else s.ampduAcc := by
  rw [step_eq_classify] at h
  unfold isDlMu
  cases hc : classify env ev with
  | undefined => simp [hc] at h
  | ulHeTb a =>
    simp only [hc] at h
    obtain ⟨st, -, hs⟩ := ulResponse_some h
    subst hs
    simp [State.ampduAcc]
  | ulOther =>
    simp only [hc, Option.some.injEq] at h
    subst h
    simp
  | dl =>
    simp only [hc] at h
    obtain ⟨dl1, -, hs⟩ := downlink_some h
    by_cases hp : ev.txVector.preamble = WifiPreamble.HE_MU
    · simp only [hp, if_true] at hs
      obtain ⟨-, dl2, -, hs⟩ := hs
      subst hs
      simp [hp, State.ampduAcc, observe]
    · simp only [hp, if_false] at hs
      subst hs
      simp [hp, State.ampduAcc]
  | basicTf t =>
    simp only [hc] at h
    obtain ⟨-, ul, -, hs⟩ := basicTrigger_some h
    subst hs
    have hcw : (closeWindow s).ampduAcc = s.ampduAcc := by
      unfold closeWindow
      split
      · split <;> rfl
      · rfl
    simpa [State.ampduAcc] using hcw
  | ignored =>
    simp only [hc, Option.some.injEq] at h
    subst h
    simp

theorem updAvg_mul (avg : ℚ) (n : Nat) (x : ℚ) :
    updAvg avg n x * ((n : ℚ) + 1) = avg * (n : ℚ) + x := by
  unfold updAvg
  have : ((n : ℚ) + 1) ≠ 0 := by positivity
  field_simp

theorem run_ampduAcc (env : Env) (evs : List PsduForwardedDown) : ∀ (s s' : State),
    runEvents (NotifyPsduForwardedDown env) evs s = some s' →
    s'.m_nAmpduRatioSamples = s.m_nAmpduRatioSamples + (evs.filter (isDlMu env)).length ∧
    s'.m_avgAmpduRatio * (s'.m_nAmpduRatioSamples : ℚ)
      = s.m_avgAmpduRatio * (s.m_nAmpduRatioSamples : ℚ)
        + ((evs.filter (isDlMu env)).map dlMuSample).sum := by
  induction evs with
  | nil =>
    intro s s' h
    simp [runEvents] at h
    subst h
    simp
  | cons e rest ih =>
    intro s s' h
    simp only [runEvents] at h
    cases hstep : NotifyPsduForwardedDown env e s with
    | none => simp [hstep] at h
    | some s1 =>
      simp only [hstep] at h
      obtain ⟨ihn, iha⟩ := ih s1 s' h
      have hacc := step_ampduAcc hstep
      by_cases hd : isDlMu env e = true
      · simp only [hd, if_true, State.ampduAcc, observe, Prod.mk.injEq] at hacc
        obtain ⟨-, -, hav, hn⟩ := hacc
        have hm := updAvg_mul s.m_avgAmpduRatio s.m_nAmpduRatioSamples (dlMuSample e)
        rw [← hav] at hm
        refine ⟨?_, ?_⟩
        · simp [List.filter_cons, hd]; omega
        · rw [iha, hn]
          simp only [List.filter_cons, hd, if_true, List.map_cons, List.sum_cons]
          push_cast
          rw [hm]; ring
      · simp only [Bool.not_eq_true] at hd
        rw [hd] at hacc
        simp only [Bool.false_eq_true, if_false, State.ampduAcc, Prod.mk.injEq] at hacc
        obtain ⟨-, -, hav, hn⟩ := hacc
        refine ⟨?_, ?_⟩
        · simp [List.filter_cons, hd, ihn, hn]
        · rw [iha, hn, hav]
          simp [List.filter_cons, hd]

/-- C1: after every sequence of forwarded-frame events processed from the
initial state, m_nAmpduRatioSamples is the number of DL MU (HE MU) events among
them, and once there is one, m_avgAmpduRatio is the arithmetic mean over the
rationals of the completeness-ratio samples of those events.  Every prefix of a
processed sequence is itself such a sequence, so this holds after each event. -/
theorem avgAmpduRatio_is_mean (env : Env) (staAddrs : List Mac48Address) (nStations : Nat)
    (evs : List PsduForwardedDown) (s : State)
    (h : runEvents (NotifyPsduForwardedDown env) evs (initialState staAddrs nStations) = some s) :
    s.m_nAmpduRatioSamples = (evs.filter (isDlMu env)).length ∧
    (0 < (evs.filter (isDlMu env)).length →
      s.m_avgAmpduRatio = ((evs.filter (isDlMu env)).map dlMuSample).sum
        / ((evs.filter (isDlMu env)).length : ℚ)) := by
  obtain ⟨hn, ha⟩ := run_ampduAcc env evs _ _ h
  have h0 := initialState_ampduAcc staAddrs nStations
  simp only [State.ampduAcc, Prod.mk.injEq] at h0
  obtain ⟨-, -, hav0, hn0⟩ := h0
  rw [hn0, Nat.zero_add] at hn
  refine ⟨hn, fun hpos => ?_⟩
  rw [hav0, hn0, hn] at ha
  simp only [Nat.cast_zero, mul_zero, zero_add] at ha
  rw [← ha]
  have : ((evs.filter (isDlMu env)).length : ℚ) ≠ 0 := by
    have : (0 : ℚ) < ((evs.filter (isDlMu env)).length : ℚ) := by exact_mod_cast hpos
    exact ne_of_gt this
  field_simp

/-- Witness of C1: the events exOnlyA and exBoth of the example scenario. -/
theorem avgAmpduRatio_is_mean_witness :
    runEvents (NotifyPsduForwardedDown exEnv) [exOnlyA, exBoth] (initialState [10, 20, 30] 3)
      = some exAfterBoth ∧
    (exAfterBoth.m_nAmpduRatioSamples = ([exOnlyA, exBoth].filter (isDlMu exEnv)).length ∧
    (0 < ([exOnlyA, exBoth].filter (isDlMu exEnv)).length →
      exAfterBoth.m_avgAmpduRatio
        = (([exOnlyA, exBoth].filter (isDlMu exEnv)).map dlMuSample).sum
          / (([exOnlyA, exBoth].filter (isDlMu exEnv)).length : ℚ))) :=
  ⟨by with_unfolding_all rfl,
   avgAmpduRatio_is_mean exEnv [10, 20, 30] 3 [exOnlyA, exBoth] exAfterBoth
     (by with_unfolding_all rfl)⟩

/-! ## The DL MU PPDU accounting -/

theorem sizeSumFrom_eq (l : List (Nat × WifiPsdu)) : ∀ sm : Nat, sm < 4294967296 →
    sizeSumFrom l sm = (sm + totalSize l) % 4294967296 := by
  induction l with
  | nil =>
    intro sm h
    simp only [sizeSumFrom, totalSize, List.map_nil, List.sum_nil]
    omega
  | cons p rest ih =>
    intro sm _
    obtain ⟨k, psdu⟩ := p
    have hlt : (sm + psdu.GetSize) % 4294967296 < 4294967296 := by omega
    simp only [sizeSumFrom, ih _ hlt, totalSize, List.map_cons, List.sum_cons]
    omega

theorem maxSizeFrom_eq (l : List (Nat × WifiPsdu)) : ∀ mx : Nat,
    maxSizeFrom l mx = max mx (largestSize l) := by
  induction l with
  | nil => intro mx; simp [maxSizeFrom, largestSize]
  | cons p rest ih =>
    intro mx
    obtain ⟨k, psdu⟩ := p
    simp only [maxSizeFrom, ih, largestSize, List.map_cons, List.foldr_cons]
    split <;> omega

theorem dlMuSample_exact (ev : PsduForwardedDown)
    (hsum : totalSize ev.psduMap < 4294967296)
    (hprod : largestSize ev.psduMap * ev.txVector.heMuUserInfoMap.length < 4294967296) :
    dlMuSample ev = (totalSize ev.psduMap : ℚ)
      / ((largestSize ev.psduMap : ℚ) * (ev.txVector.heMuUserInfoMap.length : ℚ)) := by
  unfold dlMuSample maxBytesOf
  rw [sizeSumFrom_eq _ 0 (by omega), maxSizeFrom_eq]
  simp only [Nat.zero_add, Nat.zero_le, max_eq_right]
  rw [Nat.mod_eq_of_lt hsum, Nat.mod_eq_of_lt hprod]
  push_cast
  rfl

theorem step_dlMu {env : Env} {ev : PsduForwardedDown} {s s' : State}
    (hc : classify env ev = Branch.dl) (hp : ev.txVector.preamble = WifiPreamble.HE_MU)
    (h : NotifyPsduForwardedDown env ev s = some s') :
    0 < maxBytesOf ev ∧
    ∃ dl1 dl2,
      dlSizeLoop ev.psduMap 0 0 s.m_dlStats
        = some (maxSizeFrom ev.psduMap 0, sizeSumFrom ev.psduMap 0, dl1) ∧
      dlRatioLoop env ev.psduMap (maxSizeFrom ev.psduMap 0)
        ev.txVector.heMuUserInfoMap dl1 = some dl2 ∧
      s'.m_dlStats = dl2 := by
  rw [step_eq_classify, hc] at h
  obtain ⟨dl1, h1, hs⟩ := downlink_some h
  simp only [hp, if_true] at hs
  obtain ⟨hb, dl2, h2, hs⟩ := hs
  subst hs
  exact ⟨hb, dl1, dl2, h1, h2, rfl⟩

theorem isDlMu_iff (env : Env) (ev : PsduForwardedDown) :
    isDlMu env ev = true ↔
      classify env ev = Branch.dl ∧ ev.txVector.preamble = WifiPreamble.HE_MU := by
  simp [isDlMu]


theorem dlSizeLoop_ampduAcc (l : List (Nat × WifiPsdu)) :
    ∀ (mx sm : Nat) (dl : List (Mac48Address × DlStats))
      (r : Nat × Nat × List (Mac48Address × DlStats)),
      dlSizeLoop l mx sm dl = some r →
      ∀ a, (find a r.2.2).map DlStats.ampduAcc = (find a dl).map DlStats.ampduAcc := by
  induction l with
  | nil =>
    intro mx sm dl r h a
    simp [dlSizeLoop] at h
    subst h
    rfl
  | cons p rest ih =>
    intro mx sm dl r h a
    obtain ⟨k, psdu⟩ := p
    simp only [dlSizeLoop] at h
    cases hf : find psdu.addr1 dl with
    | none => simp [hf] at h
    | some st =>
      simp only [hf] at h
      rw [ih _ _ _ _ h a]
      by_cases ha : a = psdu.addr1
      · subst ha
        rw [find_assign_same, hf]
        rfl
      · rw [find_assign_other _ _ ha]

theorem dlRatioLoop_spec (env : Env) (pm : List (Nat × WifiPsdu)) (mx : Nat) (us : List Nat) :
    ∀ (dl dl' : List (Mac48Address × DlStats)),
      dlRatioLoop env pm mx us dl = some dl' →
      (us.map (fun k => find k env.staList)).Nodup →
      (∀ k ∈ us, ∃ a st, find k env.staList = some a ∧ find a dl = some st ∧
          find a dl' = some (dlRatioSta (staRatio pm mx k) st)) ∧
      (∀ a, (∀ k ∈ us, find k env.staList ≠ some a) → find a dl' = find a dl) := by
  induction us with
  | nil =>
    intro dl dl' h _
    simp [dlRatioLoop] at h
    subst h
    simp
  | cons k rest ih =>
    intro dl dl' h hnd
    simp only [dlRatioLoop] at h
    cases hk : find k env.staList with
    | none => simp [hk] at h
    | some a =>
      simp only [hk] at h
      cases hf : find a dl with
      | none => simp [hf] at h
      | some st =>
        simp only [hf] at h
        simp only [List.map_cons, List.nodup_cons, hk] at hnd
        obtain ⟨hnot, hnd'⟩ := hnd
        obtain ⟨ih1, ih2⟩ := ih _ _ h hnd'
        have hrest : ∀ j ∈ rest, find j env.staList ≠ some a := by
          intro j hj he
          exact hnot (List.mem_map.mpr ⟨j, hj, he⟩)
        refine ⟨?_, ?_⟩
        · intro j hj
          rcases List.mem_cons.mp hj with hjk | hjr
          · subst hjk
            refine ⟨a, st, hk, hf, ?_⟩
            rw [ih2 a hrest, find_assign_same, hf]
            rfl
          · obtain ⟨b, stb, hb1, hb2, hb3⟩ := ih1 j hjr
            have hba : b ≠ a := by
              intro e
              subst e
              exact hrest j hjr hb1
            rw [find_assign_other _ _ hba] at hb2
            exact ⟨b, stb, hb1, hb2, hb3⟩
        · intro b hb
          have hba : b ≠ a := by
            intro e
            subst e
            exact hb k (List.mem_cons_self _ _) hk
          rw [ih2 b (fun j hj => hb j (List.mem_cons_of_mem _ hj)), find_assign_other _ _ hba]

theorem classify_dl_iff (env : Env) (ev : PsduForwardedDown) :
    classify env ev = Branch.dl ↔
      ∃ k first rest, ev.psduMap = (k, first) :: rest ∧ first.kind = FrameKind.qosData ∧
        ¬ (rest = [] ∧ first.addr1 = env.apAddress) := by
  unfold classify
  constructor
  · intro h
    split at h
    · simp at h
    · rename_i k first rest hm
      refine ⟨k, first, rest, hm, ?_⟩
      split at h
      · split at h <;> simp at h
      · rename_i hneg
        split at h
        · rename_i hq
          refine ⟨hq, ?_⟩
          rintro ⟨hr, ha⟩
          apply hneg
          simp [hm, hr, ha, hq]
        · split at h
          · split at h <;> simp at h
          · simp at h
  · rintro ⟨k, first, rest, hm, hq, hneg⟩
    rw [hm]
    simp only [List.length_cons, hq, and_true]
    have : ¬ (rest.length + 1 = 1 ∧ first.addr1 = env.apAddress) := by
      rintro ⟨h1, h2⟩
      apply hneg
      refine ⟨?_, h2⟩
      have : rest.length = 0 := by omega
      exact List.length_eq_zero.mp this
    simp only [add_left_eq_self, List.length_eq_zero] at this ⊢
    rw [if_neg this]
    simp


/-- C3: for an HE MU downlink event whose 32-bit sum and product do not wrap,
the sample that enters the BSS-wide A-MPDU ratio accumulator is the sum of the
sub-frame sizes over the largest sub-frame size times the number of entries of
the user-info map.  In the example (RUs for A and B, only A is sent 100 bytes)
the sample is 1/2 and the accumulator goes from (0, 0, 0, 0) to (1/2, 1/2, 1/2, 1). -/
theorem dlMu_global_sample (env : Env) (ev : PsduForwardedDown) (s s' : State)
    (hc : classify env ev = Branch.dl) (hp : ev.txVector.preamble = WifiPreamble.HE_MU)
    (hsum : totalSize ev.psduMap < 4294967296)
    (hprod : largestSize ev.psduMap * ev.txVector.heMuUserInfoMap.length < 4294967296)
    (h : NotifyPsduForwardedDown env ev s = some s') :
    s'.ampduAcc = observe s.ampduAcc
      ((totalSize ev.psduMap : ℚ)
        / ((largestSize ev.psduMap : ℚ) * (ev.txVector.heMuUserInfoMap.length : ℚ))) ∧
    ((totalSize exOnlyA.psduMap : ℚ)
        / ((largestSize exOnlyA.psduMap : ℚ) * (exOnlyA.txVector.heMuUserInfoMap.length : ℚ))
      = 1 / 2 ∧
     exInit.ampduAcc = (0, 0, 0, 0) ∧
     (NotifyPsduForwardedDown exEnv exOnlyA exInit).map State.ampduAcc
      = some (1 / 2, 1 / 2, 1 / 2, 1)) := by
  refine ⟨?_, ?_, ?_, ?_⟩
  · have hacc := step_ampduAcc h
    rw [(isDlMu_iff env ev).mpr ⟨hc, hp⟩, if_pos rfl, dlMuSample_exact ev hsum hprod] at hacc
    exact hacc
  · with_unfolding_all rfl
  · with_unfolding_all rfl
  · with_unfolding_all rfl

/-- Witness of C3: the example event, processed from the initial state. -/
theorem dlMu_global_sample_witness :
    (classify exEnv exOnlyA = Branch.dl ∧
     exOnlyA.txVector.preamble = WifiPreamble.HE_MU ∧
     totalSize exOnlyA.psduMap < 4294967296 ∧
     largestSize exOnlyA.psduMap * exOnlyA.txVector.heMuUserInfoMap.length < 4294967296 ∧
     NotifyPsduForwardedDown exEnv exOnlyA exInit = some exAfterOnlyA) ∧
    exAfterOnlyA.ampduAcc = observe exInit.ampduAcc
      ((totalSize exOnlyA.psduMap : ℚ)
        / ((largestSize exOnlyA.psduMap : ℚ) * (exOnlyA.txVector.heMuUserInfoMap.length : ℚ))) :=
  ⟨⟨by decide, by decide, by decide, by decide, by with_unfolding_all rfl⟩,
   (dlMu_global_sample exEnv exOnlyA exInit exAfterOnlyA (by decide) (by decide) (by decide)
     (by decide) (by with_unfolding_all rfl)).1⟩

/-- C4: in an HE MU downlink event whose user-info map addresses distinct
stations, every addressed station gets exactly one sample in its A-MPDU ratio
accumulator (count plus one, running mean updated): its sub-frame size over the
largest sub-frame size when the psduMap has a sub-frame for its STA-ID, and 0
when it has none; the accumulator of every station that is not addressed is
unchanged.  In the example (A is sent 100 bytes, B is silent) the sample of A
is 1 and that of B is 0. -/
theorem dlMu_station_samples (env : Env) (ev : PsduForwardedDown) (s s' : State)
    (hc : classify env ev = Branch.dl) (hp : ev.txVector.preamble = WifiPreamble.HE_MU)
    (hd : (ev.txVector.heMuUserInfoMap.map (fun k => find k env.staList)).Nodup)
    (h : NotifyPsduForwardedDown env ev s = some s') :
    (∀ k ∈ ev.txVector.heMuUserInfoMap, ∃ a st st',
      find k env.staList = some a ∧ find a s.m_dlStats = some st ∧
      find a s'.m_dlStats = some st' ∧
      st'.ampduAcc = observe st.ampduAcc
        (match find k ev.psduMap with
         | some psdu => (psdu.GetSize : ℚ) / (largestSize ev.psduMap : ℚ)
         | none => 0)) ∧
    (∀ a, (∀ k ∈ ev.txVector.heMuUserInfoMap, find k env.staList ≠ some a) →
      (find a s'.m_dlStats).map DlStats.ampduAcc = (find a s.m_dlStats).map DlStats.ampduAcc) ∧
    ((NotifyPsduForwardedDown exEnv exOnlyA exInit).bind
        (fun t => (find 10 t.m_dlStats).map DlStats.ampduAcc)
      = some (observe (0, 0, 0, 0) 1) ∧
     (NotifyPsduForwardedDown exEnv exOnlyA exInit).bind
        (fun t => (find 20 t.m_dlStats).map DlStats.ampduAcc)
      = some (observe (0, 0, 0, 0) 0)) := by
  obtain ⟨-, dl1, dl2, h1, h2, h3⟩ := step_dlMu hc hp h
  have hsize := dlSizeLoop_ampduAcc _ _ _ _ _ h1
  simp only at hsize
  obtain ⟨hr1, hr2⟩ := dlRatioLoop_spec env _ _ _ _ _ h2 hd
  refine ⟨?_, ?_, ?_, ?_⟩
  · intro k hk
    obtain ⟨a, st1, ha, hst1, hst'⟩ := hr1 k hk
    have hsa := hsize a
    rw [hst1] at hsa
    cases hst : find a s.m_dlStats with
    | none => rw [hst] at hsa; simp at hsa
    | some st =>
      rw [hst] at hsa
      simp only [Option.map_some', Option.some.injEq] at hsa
      refine ⟨a, st, _, ha, hst, by rw [h3]; exact hst', ?_⟩
      have hx : staRatio ev.psduMap (maxSizeFrom ev.psduMap 0) k
          = (match find k ev.psduMap with
             | some psdu => (psdu.GetSize : ℚ) / (largestSize ev.psduMap : ℚ)
             | none => 0) := by
        unfold staRatio
        rw [maxSizeFrom_eq]
        simp only [Nat.zero_le, max_eq_right]
        cases find k ev.psduMap <;> rfl
      rw [← hx, ← hsa]
      rfl
  · intro a ha
    rw [h3, hr2 a ha, hsize a]
  · with_unfolding_all rfl
  · with_unfolding_all rfl

/-- Witness of C4: the example event, processed from the initial state. -/
theorem dlMu_station_samples_witness :
    (classify exEnv exOnlyA = Branch.dl ∧
     exOnlyA.txVector.preamble = WifiPreamble.HE_MU ∧
     (exOnlyA.txVector.heMuUserInfoMap.map (fun k => find k exEnv.staList)).Nodup ∧
     NotifyPsduForwardedDown exEnv exOnlyA exInit = some exAfterOnlyA) ∧
    (∀ k ∈ exOnlyA.txVector.heMuUserInfoMap, ∃ a st st',
      find k exEnv.staList = some a ∧ find a exInit.m_dlStats = some st ∧
      find a exAfterOnlyA.m_dlStats = some st' ∧
      st'.ampduAcc = observe st.ampduAcc
        (match find k exOnlyA.psduMap with
         | some psdu => (psdu.GetSize : ℚ) / (largestSize exOnlyA.psduMap : ℚ)
         | none => 0)) :=
  ⟨⟨by decide, by decide, by decide, by with_unfolding_all rfl⟩,
   (dlMu_station_samples exEnv exOnlyA exInit exAfterOnlyA (by decide) (by decide) (by decide)
     (by with_unfolding_all rfl)).1⟩

/-- C2, evaluated on the example scenario: station B is charged the sample 0
by exOnlyA and the sample 1/2 by exBoth.  Its accumulator then reads min 1/2,
max 1/2, avg 1/4 with 2 samples, so its minimum exceeds its average. -/
theorem station_min_exceeds_avg :
    runEvents (NotifyPsduForwardedDown exEnv) [exOnlyA, exBoth] exInit = some exAfterBoth ∧
    (find 20 exAfterBoth.m_dlStats).map DlStats.ampduAcc = some (1 / 2, 1 / 2, 1 / 4, 2) ∧
    ¬ (∀ st, find 20 exAfterBoth.m_dlStats = some st → 0 < st.nAmpduRatioSamples →
        st.minAmpduRatio ≤ st.avgAmpduRatio ∧ st.avgAmpduRatio ≤ st.maxAmpduRatio) := by
  refine ⟨by with_unfolding_all rfl, by with_unfolding_all rfl, ?_⟩
  intro hall
  have hst := hall
    { DlStats.init with
      minAmpduSize := 50, maxAmpduSize := 50, nAmpdus := 1,
      minAmpduRatio := 1 / 2, maxAmpduRatio := 1 / 2, avgAmpduRatio := 1 / 4,
      nAmpduRatioSamples := 2 }
    (by with_unfolding_all rfl) (by decide)
  norm_num at hst

/-! ## Head-of-line delay -/

theorem ToDoubleMS_pos_iff (t : Time) : ToDoubleMS t > 0 ↔ 0 < t := by
  unfold ToDoubleMS
  constructor
  · intro h
    have h1 : (0 : ℚ) < (t : ℚ) := by
      have := (div_pos_iff_of_pos_right (by norm_num : (0 : ℚ) < 1000000)).mp h
      exact this
    exact_mod_cast h1
  · intro h
    have h1 : (0 : ℚ) < (t : ℚ) := by exact_mod_cast h
    positivity

theorem dequeueGlobal_lastTxTime (now : Time) (s : State) :
    (dequeueGlobal now s).m_lastTxTime = now := by
  unfold dequeueGlobal
  rfl

theorem dequeueGlobal_dlStats (now : Time) (s : State) :
    (dequeueGlobal now s).m_dlStats = s.m_dlStats := by
  unfold dequeueGlobal
  simp only
  split
  · split <;> rfl
  · rfl

theorem dequeueGlobal_holAcc_of_gap (now : Time) (s : State) (h : now - s.m_lastTxTime ≤ 0) :
    (dequeueGlobal now s).holAcc = s.holAcc := by
  have hn : ¬ ToDoubleMS (now - s.m_lastTxTime) > 0 := by
    rw [ToDoubleMS_pos_iff]; exact not_lt.mpr h
  unfold dequeueGlobal
  simp only [hn, if_false]
  split <;> rfl

theorem dequeueSta_lastTxTime (now : Time) (st : DlStats) :
    (dequeueSta now st).lastTxTime = now := by
  unfold dequeueSta
  rfl

theorem dequeueSta_holAcc_of_gap (now : Time) (st : DlStats) (h : now - st.lastTxTime ≤ 0) :
    (dequeueSta now st).holAcc = st.holAcc := by
  have hn : ¬ ToDoubleMS (now - st.lastTxTime) > 0 := by
    rw [ToDoubleMS_pos_iff]; exact not_lt.mpr h
  unfold dequeueSta
  simp only [hn, if_false]
  split <;> rfl

theorem dequeue_eq {env : Env} {now : Time} {item : WifiMacQueueItem} {s : State}
    {st : DlStats} (hnd : now ≤ item.timeStamp + env.maxDelay)
    (hreg : find item.addr1 s.m_dlStats = some st) :
    NotifyMsduDequeuedFromEdcaQueue env now item s =
      some { dequeueGlobal now s with
        m_dlStats := assign item.addr1 (dequeueSta now st) s.m_dlStats } := by
  unfold NotifyMsduDequeuedFromEdcaQueue
  have hng : ¬ now > item.timeStamp + env.maxDelay := not_lt.mpr hnd
  simp only [hng, if_false, dequeueGlobal_dlStats, hreg]

/-- C5: a dequeue that is not discarded (now is at most the enqueue time stamp
plus the max delay) for a registered station sets m_lastTxTime and the
lastTxTime of that station to now; when the gap now - m_lastTxTime is not
positive the BSS-wide head-of-line accumulator (min, max, avg, count) is
unchanged, and when the gap now - lastTxTime of the station is not positive the
accumulator of the station is unchanged. -/
theorem dequeue_nonpositive_gap (env : Env) (now : Time) (item : WifiMacQueueItem)
    (s : State) (st : DlStats) (hnd : now ≤ item.timeStamp + env.maxDelay)
    (hreg : find item.addr1 s.m_dlStats = some st) :
    ∃ s' st', NotifyMsduDequeuedFromEdcaQueue env now item s = some s' ∧
      find item.addr1 s'.m_dlStats = some st' ∧
      s'.m_lastTxTime = now ∧ st'.lastTxTime = now ∧
      (now - s.m_lastTxTime ≤ 0 → s'.holAcc = s.holAcc) ∧
      (now - st.lastTxTime ≤ 0 → st'.holAcc = st.holAcc) := by
  refine ⟨_, dequeueSta now st, dequeue_eq hnd hreg, ?_, dequeueGlobal_lastTxTime now s,
    dequeueSta_lastTxTime now st, ?_, dequeueSta_holAcc_of_gap now st⟩
  · simp only [find_assign_same, hreg, Option.map_some']
  · intro hg
    have := dequeueGlobal_holAcc_of_gap now s hg
    simpa [State.holAcc] using this

/-- Witness of C5: station A is dequeued again at 3 ms, the time of its previous
dequeue, in the state exHol. -/
theorem dequeue_nonpositive_gap_witness :
    ((3000000 : Time) ≤ exItem.timeStamp + exEnv.maxDelay ∧
     find exItem.addr1 exHol.m_dlStats
      = some { DlStats.init with
               lastTxTime := 3000000,
               minHolDelay := 2, maxHolDelay := 2, avgHolDelay := 2, nHolDelaySamples := 1 }) ∧
    ∃ s' st', NotifyMsduDequeuedFromEdcaQueue exEnv 3000000 exItem exHol = some s' ∧
      find exItem.addr1 s'.m_dlStats = some st' ∧
      s'.m_lastTxTime = 3000000 ∧ st'.lastTxTime = 3000000 ∧
      ((3000000 : Time) - exHol.m_lastTxTime ≤ 0 → s'.holAcc = exHol.holAcc) ∧
      ((3000000 : Time) - (3000000 : Time) ≤ 0 → st'.holAcc = ((2 : ℚ), (2 : ℚ), (2 : ℚ), 1)) :=
  ⟨⟨by decide, by with_unfolding_all rfl⟩,
   dequeue_nonpositive_gap exEnv 3000000 exItem exHol
     { DlStats.init with
       lastTxTime := 3000000,
       minHolDelay := 2, maxHolDelay := 2, avgHolDelay := 2, nHolDelaySamples := 1 }
     (by decide) (by with_unfolding_all rfl)⟩

theorem dequeue_late {env : Env} {now : Time} {item : WifiMacQueueItem} {s : State}
    (h : now > item.timeStamp + env.maxDelay) :
    NotifyMsduDequeuedFromEdcaQueue env now item s = some s := by
  unfold NotifyMsduDequeuedFromEdcaQueue
  simp only [h, if_true]

/-- C6: a dequeue with now later than the enqueue time stamp plus the max delay
returns the state it was given, whole, and has a result whether or not the
destination address is in m_dlStats. -/
theorem dequeue_discarded (env : Env) (now : Time) (item : WifiMacQueueItem) (s : State)
    (h : now > item.timeStamp + env.maxDelay) :
    NotifyMsduDequeuedFromEdcaQueue env now item s = some s := by
  unfold NotifyMsduDequeuedFromEdcaQueue
  simp only [h, if_true]


/-- Witness of C6: a frame for the unknown address 99, enqueued at time 0 and
dequeued after the max delay of 500 ms. -/
theorem dequeue_discarded_witness :
    (600000000 : Time) > (0 : Time) + exEnv.maxDelay ∧
    NotifyMsduDequeuedFromEdcaQueue exEnv 600000000 { timeStamp := 0, addr1 := 99 } exInit
      = some exInit :=
  ⟨by decide, dequeue_discarded exEnv 600000000 { timeStamp := 0, addr1 := 99 } exInit
    (by decide)⟩

/-! ## Application latency -/

theorem length_insert {α : Type} (k : Nat) (v : α) (m : List (Nat × α))
    (h : find k m = none) : (insert k v m).length = m.length + 1 := by
  induction m with
  | nil => simp [insert]
  | cons p rest ih =>
    obtain ⟨k', v'⟩ := p
    by_cases hk : k' = k
    · simp [find, hk] at h
    · simp [find, hk] at h
      by_cases hlt : k < k'
      · simp [insert, hlt]
      · simp [insert, hlt, hk, ih h]

/-- C7: when no send of packet id u is pending and station sta is registered,
NotifyApplicationTx of u at time t followed by NotifyApplicationRx of u at time
t' with a context of node sta (packets of at least m_payloadSize bytes) gives
the state in which the latency list of sta has the one more sample t' - t at
its end, every other list is as before and the pending map is again the one
without u; a further NotifyApplicationRx of u returns that state unchanged.
In the example, id 7 sent at 10 and received at 15 for station 2 gives the
single sample 5. -/
theorem latency_single_sample (env : Env) (s : State) (u : Nat) (t t' t'' : Time)
    (ctx ctx'' : String) (pTx pRx pRx2 : Packet) (sta : Nat) (l : List Time)
    (hfresh : find u s.m_appPacketTxMap = none)
    (htx : pTx.uid = u) (hrx : pRx.uid = u) (hrx2 : pRx2.uid = u)
    (hsz1 : env.m_payloadSize ≤ pTx.size) (hsz2 : env.m_payloadSize ≤ pRx.size)
    (hctx : ContextToNodeId ctx = some sta) (hreg : find sta s.m_appLatencyMap = some l) :
    NotifyApplicationRx env t' ctx pRx (NotifyApplicationTx env t pTx s)
      = some { s with m_appLatencyMap := assign sta (l ++ [t' - t]) s.m_appLatencyMap } ∧
    find sta (assign sta (l ++ [t' - t]) s.m_appLatencyMap) = some (l ++ [t' - t]) ∧
    (∀ j, j ≠ sta →
      find j (assign sta (l ++ [t' - t]) s.m_appLatencyMap) = find j s.m_appLatencyMap) ∧
    NotifyApplicationRx env t'' ctx'' pRx2
        { s with m_appLatencyMap := assign sta (l ++ [t' - t]) s.m_appLatencyMap }
      = some { s with m_appLatencyMap := assign sta (l ++ [t' - t]) s.m_appLatencyMap } ∧
    NotifyApplicationRx exEnv 15 exContext exPacket (NotifyApplicationTx exEnv 10 exPacket exInit)
      = some { exInit with m_appLatencyMap := [(0, []), (1, []), (2, [5])] } := by
  have h1 : ¬ pTx.size < env.m_payloadSize := by omega
  have h2 : ¬ pRx.size < env.m_payloadSize := by omega
  refine ⟨?_, ?_, ?_, ?_, ?_⟩
  · unfold NotifyApplicationTx NotifyApplicationRx
    simp only [h1, h2, if_false, htx, hrx, find_insert_same u t _ hfresh, hctx, hreg,
      erase_insert u t _ hfresh]
  · rw [find_assign_same, hreg]; rfl
  · intro j hj
    exact find_assign_other _ _ hj
  · unfold NotifyApplicationRx
    split
    · rfl
    · simp only [hrx2, hfresh]
  · with_unfolding_all rfl

/-- Witness of C7: the example of the specification. -/
theorem latency_single_sample_witness :
    (find 7 exInit.m_appPacketTxMap = none ∧ exPacket.uid = 7 ∧
     exEnv.m_payloadSize ≤ exPacket.size ∧ ContextToNodeId exContext = some 2 ∧
     find 2 exInit.m_appLatencyMap = some []) ∧
    NotifyApplicationRx exEnv 15 exContext exPacket (NotifyApplicationTx exEnv 10 exPacket exInit)
      = some { exInit with
               m_appLatencyMap := assign 2 ([] ++ [(15 : Time) - 10]) exInit.m_appLatencyMap } :=
  ⟨⟨by decide, by decide, by decide, by decide, by decide⟩,
   (latency_single_sample exEnv exInit 7 10 15 20 exContext exContext exPacket exPacket exPacket
     2 [] (by decide) (by decide) (by decide) (by decide) (by decide) (by decide) (by decide)
     (by decide)).1⟩

/-- C8: a packet smaller than m_payloadSize leaves the state unchanged in both
NotifyApplicationTx and NotifyApplicationRx; for a packet of at least
m_payloadSize bytes whose uid is not pending, NotifyApplicationTx changes only
m_appPacketTxMap, which gains the one entry uid -> now and keeps all others. -/
theorem payload_filter (env : Env) (now : Time) (ctx : String) (p : Packet) (s : State) :
    (p.size < env.m_payloadSize →
      NotifyApplicationTx env now p s = s ∧ NotifyApplicationRx env now ctx p s = some s) ∧
    (env.m_payloadSize ≤ p.size → find p.uid s.m_appPacketTxMap = none →
      NotifyApplicationTx env now p s
        = { s with m_appPacketTxMap := insert p.uid now s.m_appPacketTxMap } ∧
      find p.uid (insert p.uid now s.m_appPacketTxMap) = some now ∧
      (∀ j, j ≠ p.uid →
        find j (insert p.uid now s.m_appPacketTxMap) = find j s.m_appPacketTxMap) ∧
      (insert p.uid now s.m_appPacketTxMap).length = s.m_appPacketTxMap.length + 1) := by
  refine ⟨fun hlt => ?_, fun hge hfresh => ?_⟩
  · unfold NotifyApplicationTx NotifyApplicationRx
    simp only [hlt, if_true, and_self]
  · have h1 : ¬ p.size < env.m_payloadSize := by omega
    refine ⟨?_, find_insert_same _ _ _ hfresh, fun j hj => find_insert_other _ _ hj,
      length_insert _ _ _ hfresh⟩
    unfold NotifyApplicationTx
    simp only [h1, if_false]


/-- Witness of C8: a packet of 100 bytes against the payload size 160, and the
packet of 160 bytes with uid 7. -/
theorem payload_filter_witness :
    ((100 : Nat) < exEnv.m_payloadSize ∧ exEnv.m_payloadSize ≤ exPacket.size ∧
     find exPacket.uid exInit.m_appPacketTxMap = none) ∧
    (NotifyApplicationTx exEnv 10 { size := 100, uid := 7 } exInit = exInit ∧
     NotifyApplicationRx exEnv 10 exContext { size := 100, uid := 7 } exInit = some exInit) ∧
    NotifyApplicationTx exEnv 10 exPacket exInit
      = { exInit with m_appPacketTxMap := insert exPacket.uid 10 exInit.m_appPacketTxMap } :=
  ⟨⟨by decide, by decide, by decide⟩,
   (payload_filter exEnv 10 exContext { size := 100, uid := 7 } exInit).1 (by decide),
   ((payload_filter exEnv 10 exContext exPacket exInit).2 (by decide) (by decide)).1⟩

/-! ## Trigger Frame windows -/

theorem closeWindow_tfState (s : State) :
    (closeWindow s).tfState =
      if 0 < s.m_tfUlLength then
        if s.m_responsesToLastTfDuration = 0 then
          (s.m_nBasicTriggerFramesSent, s.m_nFailedTriggerFrames + 1, s.lengthAcc,
           s.m_tfUlLength, s.m_overallTimeGrantedByTf, s.m_responsesToLastTfDuration)
        else
          (s.m_nBasicTriggerFramesSent, s.m_nFailedTriggerFrames,
           (updMin s.m_minLengthRatio
              (GetSeconds s.m_responsesToLastTfDuration / GetSeconds s.m_overallTimeGrantedByTf),
            updMax s.m_maxLenghtRatio
              (GetSeconds s.m_responsesToLastTfDuration / GetSeconds s.m_overallTimeGrantedByTf),
            updAvg s.m_avgLengthRatio s.lengthSamples
              (GetSeconds s.m_responsesToLastTfDuration / GetSeconds s.m_overallTimeGrantedByTf)),
           s.m_tfUlLength, s.m_overallTimeGrantedByTf, s.m_responsesToLastTfDuration)
      else s.tfState := by
  unfold closeWindow
  split
  · split <;> rfl
  · rfl

theorem step_tfState {env : Env} {ev : PsduForwardedDown} {s s' : State}
    (h : NotifyPsduForwardedDown env ev s = some s') :
    s'.tfState =
      match classify env ev with
      | Branch.basicTf t =>
        ((closeWindow s).tfState.1 + 1, (closeWindow s).tfState.2.1, (closeWindow s).tfState.2.2.1,
         t.heTbPpduDuration, t.heTbPpduDuration * (t.aid12s.length : Int), 0)
      | Branch.ulHeTb _ =>
        (s.m_nBasicTriggerFramesSent, s.m_nFailedTriggerFrames, s.lengthAcc, s.m_tfUlLength,
         s.m_overallTimeGrantedByTf, s.m_responsesToLastTfDuration + ev.txDuration)
      | _ => s.tfState := by
  rw [step_eq_classify] at h
  cases hc : classify env ev with
  | undefined => simp [hc] at h
  | ulHeTb a =>
    simp only [hc] at h
    obtain ⟨st, -, hs⟩ := ulResponse_some h
    subst hs
    rfl
  | ulOther =>
    simp only [hc, Option.some.injEq] at h
    subst h
    rfl
  | dl =>
    simp only [hc] at h
    obtain ⟨dl1, -, hs⟩ := downlink_some h
    by_cases hp : ev.txVector.preamble = WifiPreamble.HE_MU
    · simp only [hp, if_true] at hs
      obtain ⟨-, dl2, -, hs⟩ := hs
      subst hs
      rfl
    · simp only [hp, if_false] at hs
      subst hs
      rfl
  | basicTf t =>
    simp only [hc] at h
    obtain ⟨-, ul, -, hs⟩ := basicTrigger_some h
    subst hs
    rfl
  | ignored =>
    simp only [hc, Option.some.injEq] at h
    subst h
    rfl

theorem step_basicTf_nonempty {env : Env} {ev : PsduForwardedDown} {s s' : State}
    {t : CtrlTriggerHeader} (hc : classify env ev = Branch.basicTf t)
    (h : NotifyPsduForwardedDown env ev s = some s') : 0 < t.aid12s.length := by
  rw [step_eq_classify, hc] at h
  obtain ⟨hne, -⟩ := basicTrigger_some h
  exact List.length_pos.mpr hne

theorem handle_tfState_of_not_psdu {env : Env} {e : Event} {s s' : State}
    (hk : ∀ ev, e ≠ Event.psduForwardedDown ev) (h : handle env e s = some s') :
    s'.tfState = s.tfState := by
  cases e with
  | txFailed a =>
    simp only [handle, NotifyTxFailed] at h
    split at h
    · simp at h
    · simp only [Option.some.injEq] at h; subst h; rfl
  | msduExpired a =>
    simp only [handle, NotifyMsduExpired] at h
    split at h
    · simp at h
    · simp only [Option.some.injEq] at h; subst h; rfl
  | msduDequeued now item =>
    simp only [handle] at h
    by_cases hd : now > item.timeStamp + env.maxDelay
    · rw [dequeue_late hd, Option.some.injEq] at h
      subst h; rfl
    · cases hf : find item.addr1 s.m_dlStats with
      | none =>
        simp [NotifyMsduDequeuedFromEdcaQueue, hd, dequeueGlobal_dlStats, hf] at h
      | some st =>
        rw [dequeue_eq (not_lt.mp hd) hf, Option.some.injEq] at h
        subst h
        have hg : (dequeueGlobal now s).tfState = s.tfState := by
          unfold dequeueGlobal
          simp only
          split
          · split <;> rfl
          · rfl
        exact hg
  | psduForwardedDown ev => exact absurd rfl (hk ev)
  | txopDuration d =>
    simp only [handle, TxopDuration, Option.some.injEq] at h
    subst h
    split <;> rfl
  | applicationTx now p =>
    simp only [handle, NotifyApplicationTx, Option.some.injEq] at h
    subst h
    split <;> rfl
  | applicationRx now ctx p =>
    simp only [handle, NotifyApplicationRx] at h
    split at h
    · simp only [Option.some.injEq] at h; subst h; rfl
    · split at h
      · simp only [Option.some.injEq] at h; subst h; rfl
      · split at h
        · simp at h
        · split at h
          · simp at h
          · simp only [Option.some.injEq] at h; subst h; rfl

theorem windowInv_of_eq {s s' : State} {w : Option CtrlTriggerHeader}
    (h4 : s'.m_tfUlLength = s.m_tfUlLength)
    (h5 : s'.m_overallTimeGrantedByTf = s.m_overallTimeGrantedByTf) (hw : WindowInv s w) :
    WindowInv s' w := by
  cases w with
  | none => simpa [WindowInv, h4] using hw
  | some t => simpa [WindowInv, h4, h5] using hw

theorem handle_windowInv {env : Env} {e : Event} {s s' : State}
    {w : Option CtrlTriggerHeader}
    (h : handle env e s = some s') (hw : WindowInv s w) :
    WindowInv s' (openWindowAfter env w e) := by
  by_cases hk : ∀ ev, e ≠ Event.psduForwardedDown ev
  · have ht := handle_tfState_of_not_psdu hk h
    simp only [State.tfState, Prod.mk.injEq] at ht
    have hwa : openWindowAfter env w e = w := by
      cases e with
      | psduForwardedDown ev => exact absurd rfl (hk ev)
      | _ => rfl
    rw [hwa]
    exact windowInv_of_eq ht.2.2.2.1 ht.2.2.2.2.1 hw
  · push_neg at hk
    obtain ⟨ev, hev⟩ := hk
    subst hev
    simp only [handle] at h
    have ht := step_tfState h
    simp only [State.tfState] at ht
    cases hc : classify env ev with
    | basicTf t =>
      have hpos := step_basicTf_nonempty hc h
      rw [hc] at ht
      simp only [Prod.mk.injEq] at ht
      obtain ⟨-, -, -, h4, h5, -⟩ := ht
      simp only [openWindowAfter, hc, WindowInv]
      exact ⟨h4, h5, hpos⟩
    | ulHeTb a =>
      rw [hc] at ht
      simp only [Prod.mk.injEq] at ht
      simp only [openWindowAfter, hc]
      exact windowInv_of_eq ht.2.2.2.1 ht.2.2.2.2.1 hw
    | undefined =>
      rw [hc] at ht
      simp only [Prod.mk.injEq] at ht
      simp only [openWindowAfter, hc]
      exact windowInv_of_eq ht.2.2.2.1 ht.2.2.2.2.1 hw
    | ulOther =>
      rw [hc] at ht
      simp only [Prod.mk.injEq] at ht
      simp only [openWindowAfter, hc]
      exact windowInv_of_eq ht.2.2.2.1 ht.2.2.2.2.1 hw
    | dl =>
      rw [hc] at ht
      simp only [Prod.mk.injEq] at ht
      simp only [openWindowAfter, hc]
      exact windowInv_of_eq ht.2.2.2.1 ht.2.2.2.2.1 hw
    | ignored =>
      rw [hc] at ht
      simp only [Prod.mk.injEq] at ht
      simp only [openWindowAfter, hc]
      exact windowInv_of_eq ht.2.2.2.1 ht.2.2.2.2.1 hw

theorem run_windowInv (env : Env) (evs : List Event) :
    ∀ (s s' : State) (w : Option CtrlTriggerHeader),
      runEvents (handle env) evs s = some s' → WindowInv s w →
      WindowInv s' (openWindowFrom env evs w) := by
  induction evs with
  | nil =>
    intro s s' w h hw
    simp [runEvents] at h
    subst h
    exact hw
  | cons e rest ih =>
    intro s s' w h hw
    simp only [runEvents] at h
    cases hstep : handle env e s with
    | none => simp [hstep] at h
    | some s1 =>
      simp only [hstep] at h
      simp only [openWindowFrom, List.foldl_cons]
      exact ih s1 s' _ h (handle_windowInv hstep hw)

theorem initialState_tfState (staAddrs : List Mac48Address) (n : Nat) :
    (initialState staAddrs n).tfState = (0, 0, (0, 0, 0), 0, 0, 0) := by
  obtain ⟨m, hm⟩ := initialState_eq staAddrs n
  rw [hm]; rfl

theorem ratio_seconds (a b : Time) : GetSeconds a / GetSeconds b = (a : ℚ) / (b : ℚ) := by
  unfold GetSeconds
  rw [div_div_div_cancel_right₀ (by norm_num : (1000000000 : ℚ) ≠ 0)]

/-- C9: when a Basic Trigger Frame is processed in a state that the handlers
reached from the initial state and in which a window is open (m_tfUlLength
strictly positive), that window was opened by a Trigger Frame w with at least
one user info field and the granted duration m_tfUlLength, and exactly one of
two things happens: either m_nFailedTriggerFrames goes up by one and the
BSS-wide UL length ratio members are unchanged, which is the case if and only
if m_responsesToLastTfDuration is zero; or m_nFailedTriggerFrames is unchanged
and the members are updated with the sample m_responsesToLastTfDuration /
(granted duration of w times number of user info fields of w).  Never both,
never neither. -/
theorem closing_window_exclusive (env : Env) (staAddrs : List Mac48Address) (nStations : Nat)
    (evs : List Event) (s : State) (ev : PsduForwardedDown)
    (t : CtrlTriggerHeader) (s' : State)
    (hrun : runEvents (handle env) evs (initialState staAddrs nStations) = some s)
    (hopen : 0 < s.m_tfUlLength)
    (hc : classify env ev = Branch.basicTf t)
    (hstep : NotifyPsduForwardedDown env ev s = some s') :
    ∃ w, openWindowFrom env evs none = some w ∧ 0 < w.aid12s.length ∧
      w.heTbPpduDuration = s.m_tfUlLength ∧
      (countedAsFailed s s' ↔ s.m_responsesToLastTfDuration = 0) ∧
      (countedAsFailed s s' ∨
       scoredWith s s' ((s.m_responsesToLastTfDuration : ℚ)
          / ((w.heTbPpduDuration : ℚ) * (w.aid12s.length : ℚ)))) ∧
      ¬ (countedAsFailed s s' ∧
         scoredWith s s' ((s.m_responsesToLastTfDuration : ℚ)
          / ((w.heTbPpduDuration : ℚ) * (w.aid12s.length : ℚ)))) := by
  have hinit : WindowInv (initialState staAddrs nStations) none := by
    have := initialState_tfState staAddrs nStations
    simp only [State.tfState, Prod.mk.injEq] at this
    exact this.2.2.2.1
  have hw := run_windowInv env evs _ _ _ hrun hinit
  cases hwo : openWindowFrom env evs none with
  | none =>
    rw [hwo] at hw
    simp only [WindowInv] at hw
    rw [hw] at hopen
    exact absurd hopen (lt_irrefl _)
  | some w =>
    rw [hwo] at hw
    obtain ⟨hw1, hw2, hw3⟩ := hw
    have ht := step_tfState hstep
    rw [hc, closeWindow_tfState, if_pos hopen] at ht
    refine ⟨w, rfl, hw3, hw1.symm, ?_⟩
    unfold countedAsFailed scoredWith
    have hx : GetSeconds s.m_responsesToLastTfDuration / GetSeconds s.m_overallTimeGrantedByTf
        = (s.m_responsesToLastTfDuration : ℚ)
          / ((w.heTbPpduDuration : ℚ) * (w.aid12s.length : ℚ)) := by
      rw [ratio_seconds, hw2]
      push_cast
      rfl
    by_cases hz : s.m_responsesToLastTfDuration = 0
    · rw [if_pos hz] at ht
      simp only [State.tfState, Prod.mk.injEq] at ht
      obtain ⟨-, hf, hacc, -⟩ := ht
      refine ⟨⟨fun _ => hz, fun _ => ⟨hf, hacc⟩⟩, Or.inl ⟨hf, hacc⟩, ?_⟩
      rintro ⟨-, hf2, -⟩
      omega
    · rw [if_neg hz, hx] at ht
      simp only [State.tfState, Prod.mk.injEq] at ht
      obtain ⟨-, hf, hacc, -⟩ := ht
      refine ⟨⟨fun h => ?_, fun h => absurd h hz⟩, Or.inr ⟨hf, hacc⟩, ?_⟩
      · obtain ⟨hf2, -⟩ := h
        omega
      · rintro ⟨⟨hf2, -⟩, -⟩
        omega


/-- Witness of C9: in the example scenario a Basic Trigger Frame grants 1 ms to A
and B, a frame of A is dequeued after its lifetime, A answers with 1 ms, and a
second Basic Trigger Frame closes the window with the sample 1/2. -/
theorem closing_window_exclusive_witness :
    (runEvents (handle exEnv)
        [Event.psduForwardedDown (exTrigger [1, 2] 1000000),
         Event.msduDequeued 600000000 exItem,
         Event.psduForwardedDown (exResponse 10 1000000)] (initialState [10, 20, 30] 3)
      = some exWindowOpen ∧
     0 < exWindowOpen.m_tfUlLength ∧
     classify exEnv (exTrigger [1, 2] 2000000)
      = Branch.basicTf { isBasic := true, aid12s := [1, 2], heTbPpduDuration := 2000000 } ∧
     NotifyPsduForwardedDown exEnv (exTrigger [1, 2] 2000000) exWindowOpen
      = some exWindowClosed) ∧
    ∃ w, openWindowFrom exEnv
        [Event.psduForwardedDown (exTrigger [1, 2] 1000000),
         Event.msduDequeued 600000000 exItem,
         Event.psduForwardedDown (exResponse 10 1000000)] none = some w ∧
      0 < w.aid12s.length ∧
      w.heTbPpduDuration = exWindowOpen.m_tfUlLength ∧
      (countedAsFailed exWindowOpen exWindowClosed
        ↔ exWindowOpen.m_responsesToLastTfDuration = 0) ∧
      (countedAsFailed exWindowOpen exWindowClosed ∨
       scoredWith exWindowOpen exWindowClosed ((exWindowOpen.m_responsesToLastTfDuration : ℚ)
          / ((w.heTbPpduDuration : ℚ) * (w.aid12s.length : ℚ)))) ∧
      ¬ (countedAsFailed exWindowOpen exWindowClosed ∧
         scoredWith exWindowOpen exWindowClosed ((exWindowOpen.m_responsesToLastTfDuration : ℚ)
          / ((w.heTbPpduDuration : ℚ) * (w.aid12s.length : ℚ)))) :=
  ⟨⟨by with_unfolding_all rfl, by decide, by decide, by with_unfolding_all rfl⟩,
   closing_window_exclusive exEnv [10, 20, 30] 3
     [Event.psduForwardedDown (exTrigger [1, 2] 1000000),
      Event.msduDequeued 600000000 exItem,
      Event.psduForwardedDown (exResponse 10 1000000)]
     exWindowOpen (exTrigger [1, 2] 2000000)
     { isBasic := true, aid12s := [1, 2], heTbPpduDuration := 2000000 } exWindowClosed
     (by with_unfolding_all rfl) (by decide) (by decide) (by with_unfolding_all rfl)⟩

theorem runEvents_cons_some {ε : Type} {h : ε → State → Option State} {e : ε} {rest : List ε}
    {s s' : State} (hr : runEvents h (e :: rest) s = some s') :
    ∃ s1, h e s = some s1 ∧ runEvents h rest s1 = some s' := by
  simp only [runEvents] at hr
  cases hs : h e s with
  | none => simp [hs] at hr
  | some s1 =>
    simp only [hs] at hr
    exact ⟨s1, rfl, hr⟩

theorem runEvents_append_some {ε : Type} {h : ε → State → Option State} (l1 : List ε) :
    ∀ {l2 : List ε} {s s' : State}, runEvents h (l1 ++ l2) s = some s' →
      ∃ s1, runEvents h l1 s = some s1 ∧ runEvents h l2 s1 = some s' := by
  induction l1 with
  | nil =>
    intro l2 s s' hr
    exact ⟨s, rfl, hr⟩
  | cons e rest ih =>
    intro l2 s s' hr
    obtain ⟨s1, h1, h2⟩ := runEvents_cons_some hr
    obtain ⟨s2, h3, h4⟩ := ih h2
    refine ⟨s2, ?_, h4⟩
    simp only [runEvents, h1, h3]

theorem run_responses_tfState (env : Env) (d : Time) (rs : List PsduForwardedDown) :
    ∀ (s s' : State), runEvents (NotifyPsduForwardedDown env) rs s = some s' →
      (∀ r ∈ rs, (∃ a, classify env r = Branch.ulHeTb a) ∧ r.txDuration = d) →
      s'.tfState = (s.m_nBasicTriggerFramesSent, s.m_nFailedTriggerFrames, s.lengthAcc,
        s.m_tfUlLength, s.m_overallTimeGrantedByTf,
        s.m_responsesToLastTfDuration + (rs.length : Int) * d) := by
  induction rs with
  | nil =>
    intro s s' hr _
    simp only [runEvents, Option.some.injEq] at hr
    subst hr
    simp [State.tfState]
  | cons r rest ih =>
    intro s s' hr hall
    obtain ⟨s1, h1, h2⟩ := runEvents_cons_some hr
    obtain ⟨⟨a, ha⟩, hd⟩ := hall r (List.mem_cons_self _ _)
    have ht := step_tfState h1
    rw [ha] at ht
    simp only [State.tfState, Prod.mk.injEq] at ht
    obtain ⟨e1, e2, e3, e4, e5, e6⟩ := ht
    rw [ih s1 s' h2 (fun r' hr' => hall r' (List.mem_cons_of_mem _ hr'))]
    rw [e1, e2, e3, e4, e5, e6, hd]
    simp only [List.length_cons, Nat.cast_add, Nat.cast_one, Prod.mk.injEq, true_and]
    ring

/-- C10: from the initial state, a Basic Trigger Frame with a positive granted
duration, no uplink response, a second Basic Trigger Frame with a positive
granted duration and n user info fields, n HE TB PPDUs each of exactly that
granted duration, and a third Basic Trigger Frame leave
m_nFailedTriggerFrames = 1, m_nBasicTriggerFramesSent = 3 and the BSS-wide UL
length ratio with its min, max and avg all 1, the single sample of the second
window (the derived sample count is 1). -/
theorem three_trigger_windows (env : Env) (staAddrs : List Mac48Address) (nStations : Nat)
    (e1 e2 e3 : PsduForwardedDown) (t1 t2 t3 : CtrlTriggerHeader)
    (rs : List PsduForwardedDown) (s : State)
    (h1 : classify env e1 = Branch.basicTf t1) (h2 : classify env e2 = Branch.basicTf t2)
    (h3 : classify env e3 = Branch.basicTf t3)
    (hg1 : 0 < t1.heTbPpduDuration) (hg2 : 0 < t2.heTbPpduDuration)
    (hlen : rs.length = t2.aid12s.length)
    (hrs : ∀ r ∈ rs, (∃ a, classify env r = Branch.ulHeTb a) ∧
      r.txDuration = t2.heTbPpduDuration)
    (hrun : runEvents (NotifyPsduForwardedDown env) (e1 :: e2 :: (rs ++ [e3]))
      (initialState staAddrs nStations) = some s) :
    s.m_nFailedTriggerFrames = 1 ∧ s.m_nBasicTriggerFramesSent = 3 ∧
    s.m_minLengthRatio = 1 ∧ s.m_maxLenghtRatio = 1 ∧ s.m_avgLengthRatio = 1 ∧
    s.lengthSamples = 1 := by
  obtain ⟨s1, hs1, hr1⟩ := runEvents_cons_some hrun
  obtain ⟨s2, hs2, hr2⟩ := runEvents_cons_some hr1
  obtain ⟨s3, hs3, hr3⟩ := runEvents_append_some rs hr2
  obtain ⟨s4, hs4, hr4⟩ := runEvents_cons_some hr3
  simp only [runEvents, Option.some.injEq] at hr4
  subst hr4
  have hn := step_basicTf_nonempty h2 hs2
  -- first Trigger Frame
  have k0 := initialState_tfState staAddrs nStations
  have k1 := step_tfState hs1
  rw [h1, closeWindow_tfState] at k1
  simp only [State.tfState, Prod.mk.injEq] at k0
  obtain ⟨a1, a2, a3, a4, a5, a6⟩ := k0
  rw [a4] at k1
  simp only [lt_irrefl, if_false, State.tfState, Prod.mk.injEq, a1, a2, a3] at k1
  obtain ⟨b1, b2, b3, b4, b5, b6⟩ := k1
  -- second Trigger Frame
  have k2 := step_tfState hs2
  rw [h2, closeWindow_tfState, b4, if_pos hg1, b6, if_pos rfl] at k2
  simp only [State.tfState, Prod.mk.injEq, b1, b2, b3] at k2
  obtain ⟨c1, c2, c3, c4, c5, c6⟩ := k2
  -- the responses
  have k3 := run_responses_tfState env _ rs _ _ hs3 hrs
  simp only [State.tfState, Prod.mk.injEq, c1, c2, c3, c4, c5, c6, hlen] at k3
  obtain ⟨d1, d2, d3, d4, d5, d6⟩ := k3
  -- third Trigger Frame
  have hpos : (0 : Int) < (t2.aid12s.length : Int) * t2.heTbPpduDuration :=
    mul_pos (by exact_mod_cast hn) hg2
  have hne : ¬ s3.m_responsesToLastTfDuration = 0 := by
    rw [d6, zero_add]
    exact ne_of_gt hpos
  have hx : GetSeconds s3.m_responsesToLastTfDuration / GetSeconds s3.m_overallTimeGrantedByTf
      = 1 := by
    rw [ratio_seconds, d6, d5, zero_add, mul_comm]
    have : ((t2.heTbPpduDuration * (t2.aid12s.length : Int) : Int) : ℚ) ≠ 0 := by
      have h0 : (t2.heTbPpduDuration * (t2.aid12s.length : Int) : Int) ≠ 0 := by
        rw [mul_comm]; exact ne_of_gt hpos
      exact_mod_cast h0
    exact div_self this
  have hsamples : s3.lengthSamples = 0 := by
    simp only [State.lengthSamples, d1, d2, sub64]
  have k4 := step_tfState hs4
  rw [h3, closeWindow_tfState, d4, if_pos hg2, if_neg hne, hx, hsamples] at k4
  simp only [State.lengthAcc, Prod.mk.injEq] at d3
  obtain ⟨m1, m2, m3⟩ := d3
  simp only [State.tfState, Prod.mk.injEq, d1, d2, State.lengthAcc, m1, m2, m3] at k4
  obtain ⟨f1, f2, ⟨f3, f4, f5⟩, -⟩ := k4
  refine ⟨f2, f1, ?_, ?_, ?_, ?_⟩
  · rw [f3]; simp [updMin]
  · rw [f4]; simp [updMax]
  · rw [f5]; simp [updAvg]
  · simp only [State.lengthSamples, f1, f2, sub64]


/-- Witness of C10: three Basic Trigger Frames granting 1 ms to A and B, the
second answered by A and by B with 1 ms each. -/
theorem three_trigger_windows_witness :
    (classify exEnv (exTrigger [1, 2] 1000000)
      = Branch.basicTf { isBasic := true, aid12s := [1, 2], heTbPpduDuration := 1000000 } ∧
     (0 : Time) < 1000000 ∧
     [exResponse 10 1000000, exResponse 20 1000000].length = [1, 2].length ∧
     (∀ r ∈ [exResponse 10 1000000, exResponse 20 1000000],
        (∃ a, classify exEnv r = Branch.ulHeTb a) ∧ r.txDuration = 1000000) ∧
     runEvents (NotifyPsduForwardedDown exEnv)
        (exTrigger [1, 2] 1000000 :: exTrigger [1, 2] 1000000
          :: ([exResponse 10 1000000, exResponse 20 1000000] ++ [exTrigger [1, 2] 1000000]))
        (initialState [10, 20, 30] 3)
      = some exThreeTriggers) ∧
    (exThreeTriggers.m_nFailedTriggerFrames = 1 ∧
     exThreeTriggers.m_nBasicTriggerFramesSent = 3 ∧
     exThreeTriggers.m_minLengthRatio = 1 ∧ exThreeTriggers.m_maxLenghtRatio = 1 ∧
     exThreeTriggers.m_avgLengthRatio = 1 ∧ exThreeTriggers.lengthSamples = 1) :=
  have hrs : ∀ r ∈ [exResponse 10 1000000, exResponse 20 1000000],
      (∃ a, classify exEnv r = Branch.ulHeTb a) ∧ r.txDuration = 1000000 := by
    intro r hr
    simp only [List.mem_cons, List.mem_singleton, List.not_mem_nil, or_false] at hr
    rcases hr with h | h
    · subst h; exact ⟨⟨10, by decide⟩, by decide⟩
    · subst h; exact ⟨⟨20, by decide⟩, by decide⟩
  ⟨⟨by decide, by decide, by decide, hrs, by with_unfolding_all rfl⟩,
   three_trigger_windows exEnv [10, 20, 30] 3
     (exTrigger [1, 2] 1000000) (exTrigger [1, 2] 1000000) (exTrigger [1, 2] 1000000)
     { isBasic := true, aid12s := [1, 2], heTbPpduDuration := 1000000 }
     { isBasic := true, aid12s := [1, 2], heTbPpduDuration := 1000000 }
     { isBasic := true, aid12s := [1, 2], heTbPpduDuration := 1000000 }
     [exResponse 10 1000000, exResponse 20 1000000] exThreeTriggers
     (by decide) (by decide) (by decide) (by decide) (by decide) (by decide) hrs
     (by with_unfolding_all rfl)⟩
/-! ## Missing stations and ignored frames -/

theorem find_assign {α : Type} (k j : Nat) (v : α) (m : List (Nat × α)) :
    find j (assign k v m) = if j = k then (find k m).map (fun _ => v) else find j m := by
  by_cases h : j = k
  · subst h; simp [find_assign_same]
  · simp [h, find_assign_other v m h]

/-- C12: NotifyTxFailed, NotifyMsduExpired and a NotifyMsduDequeuedFromEdcaQueue
that is not discarded end on the failed assertion (no result) if and only if
the address carried by the event is not in m_dlStats; for an address that is in
m_dlStats each of them returns the state with the counter or the head-of-line
members of that station updated. -/
theorem missing_station_is_fatal (env : Env) (addr1 : Mac48Address) (now : Time)
    (item : WifiMacQueueItem) (s : State) :
    (NotifyTxFailed addr1 s = none ↔ find addr1 s.m_dlStats = none) ∧
    (∀ st, find addr1 s.m_dlStats = some st →
      NotifyTxFailed addr1 s
        = some { s with m_dlStats := assign addr1 { st with failed := st.failed + 1 } s.m_dlStats }) ∧
    (NotifyMsduExpired addr1 s = none ↔ find addr1 s.m_dlStats = none) ∧
    (∀ st, find addr1 s.m_dlStats = some st →
      NotifyMsduExpired addr1 s
        = some { s with m_dlStats := assign addr1 { st with expired := st.expired + 1 } s.m_dlStats }) ∧
    (now ≤ item.timeStamp + env.maxDelay →
      (NotifyMsduDequeuedFromEdcaQueue env now item s = none
        ↔ find item.addr1 s.m_dlStats = none) ∧
      (∀ st, find item.addr1 s.m_dlStats = some st →
        NotifyMsduDequeuedFromEdcaQueue env now item s
          = some { dequeueGlobal now s with
              m_dlStats := assign item.addr1 (dequeueSta now st) s.m_dlStats })) := by
  refine ⟨?_, ?_, ?_, ?_, ?_⟩
  · unfold NotifyTxFailed
    cases find addr1 s.m_dlStats <;> simp
  · intro st hst
    unfold NotifyTxFailed
    simp only [hst]
  · unfold NotifyMsduExpired
    cases find addr1 s.m_dlStats <;> simp
  · intro st hst
    unfold NotifyMsduExpired
    simp only [hst]
  · intro hnd
    refine ⟨?_, fun st hst => dequeue_eq hnd hst⟩
    cases hf : find item.addr1 s.m_dlStats with
    | none =>
      unfold NotifyMsduDequeuedFromEdcaQueue
      simp [not_lt.mpr hnd, dequeueGlobal_dlStats, hf]
    | some st => simp [dequeue_eq hnd hf]

/-- Witness of C12: the unknown address 99 and station A of the example scenario. -/
theorem missing_station_is_fatal_witness :
    (3000000 : Time) ≤ exItem.timeStamp + exEnv.maxDelay ∧
    (NotifyTxFailed 99 exInit = none ↔ find 99 exInit.m_dlStats = none) ∧
    (NotifyMsduDequeuedFromEdcaQueue exEnv 3000000 exItem exInit = none
      ↔ find exItem.addr1 exInit.m_dlStats = none) :=
  ⟨by decide, (missing_station_is_fatal exEnv 99 3000000 exItem exInit).1,
   ((missing_station_is_fatal exEnv 99 3000000 exItem exInit).2.2.2.2 (by decide)).1⟩

/-- C17: a forwarded-frame event with a non-empty psduMap that is none of (1) a
single QoS data sub-frame addressed to the AP with the HE TB preamble, (2) a
first sub-frame that is QoS data and is not a single sub-frame addressed to the
AP, (3) a single sub-frame that is a Basic Trigger Frame, leaves the whole
state unchanged.  This covers a single QoS data frame to the AP with another
preamble, a Trigger Frame that is not Basic, a Trigger Frame in a psduMap of
several sub-frames and every other control or management frame. -/
theorem other_frames_ignored (env : Env) (ev : PsduForwardedDown) (s : State)
    (k : Nat) (first : WifiPsdu) (rest : List (Nat × WifiPsdu))
    (hne : ev.psduMap = (k, first) :: rest)
    (h1 : ¬ (rest = [] ∧ first.addr1 = env.apAddress ∧ first.kind = FrameKind.qosData ∧
      ev.txVector.preamble = WifiPreamble.HE_TB))
    (h2 : ¬ (first.kind = FrameKind.qosData ∧ ¬ (rest = [] ∧ first.addr1 = env.apAddress)))
    (h3 : ¬ (rest = [] ∧ first.kind = FrameKind.trigger ∧ first.trigger.isBasic = true)) :
    NotifyPsduForwardedDown env ev s = some s := by
  unfold NotifyPsduForwardedDown
  rw [hne]
  simp only [List.length_cons, add_left_eq_self, List.length_eq_zero]
  by_cases hq : first.kind = FrameKind.qosData
  · have hsingle : rest = [] ∧ first.addr1 = env.apAddress := by
      by_contra hc
      exact h2 ⟨hq, hc⟩
    have hpre : ¬ ev.txVector.preamble = WifiPreamble.HE_TB := by
      intro hp
      exact h1 ⟨hsingle.1, hsingle.2, hq, hp⟩
    simp [hsingle.1, hsingle.2, hq, hpre]
  · simp only [hq, and_false, if_false]
    by_cases ht : rest = [] ∧ first.kind = FrameKind.trigger
    · have hb : ¬ first.trigger.isBasic = true := fun hb => h3 ⟨ht.1, ht.2, hb⟩
      simp [ht.1, ht.2, hb]
    · simp only [ht, if_false]


/-- Witness of C17: a Trigger Frame that is not a Basic Trigger Frame. -/
theorem other_frames_ignored_witness :
    (exOtherTrigger.psduMap
      = [(0, { addr1 := 0, addr2 := 1, size := 40, kind := FrameKind.trigger,
               trigger := { isBasic := false, aid12s := [1, 2],
                            heTbPpduDuration := 1000000 } })]) ∧
    NotifyPsduForwardedDown exEnv exOtherTrigger exWindowOpen = some exWindowOpen :=
  ⟨rfl, other_frames_ignored exEnv exOtherTrigger exWindowOpen 0
    { addr1 := 0, addr2 := 1, size := 40, kind := FrameKind.trigger,
      trigger := { isBasic := false, aid12s := [1, 2], heTbPpduDuration := 1000000 } }
    [] rfl (by decide) (by decide) (by decide)⟩

/-! ## Uplink responses and Trigger Frames -/

theorem ulResponse_eq {a : Mac48Address} {d : Time} {s : State} {st : UlStats}
    (hreg : find a s.m_ulStats = some st) :
    ulResponse a d s = some { s with
        m_responsesToLastTfDuration := s.m_responsesToLastTfDuration + d,
        m_ulStats := assign a
          { st with
            minLengthRatio := updMin st.minLengthRatio (GetSeconds d / GetSeconds s.m_tfUlLength),
            maxLenghtRatio := updMax st.maxLenghtRatio (GetSeconds d / GetSeconds s.m_tfUlLength),
            avgLengthRatio := updAvg st.avgLengthRatio st.nLengthRatioSamples
              (GetSeconds d / GetSeconds s.m_tfUlLength),
            nLengthRatioSamples := st.nLengthRatioSamples + 1 } s.m_ulStats } := by
  unfold ulResponse
  simp only [hreg]

theorem step_ulHeTb {env : Env} {ev : PsduForwardedDown} {a : Mac48Address} (s : State)
    (hc : classify env ev = Branch.ulHeTb a) :
    NotifyPsduForwardedDown env ev s = ulResponse a ev.txDuration s := by
  rw [step_eq_classify, hc]

theorem step_basicTf {env : Env} {ev : PsduForwardedDown} {t : CtrlTriggerHeader} (s : State)
    (hc : classify env ev = Branch.basicTf t) :
    NotifyPsduForwardedDown env ev s = basicTrigger env t s := by
  rw [step_eq_classify, hc]

/-- C18: an HE TB PPDU of TX duration d from a station registered in m_ulStats,
handled while m_tfUlLength is g > 0, has a result in which
m_responsesToLastTfDuration has grown by exactly d and the UL members of that
station have taken the sample d / g (min, max and running mean updated, count
plus one, nSolicitingTriggerFrames as before); the UL members of every other
station and every other member of the state (DL statistics, Trigger Frame
counters) are unchanged.  A second HE TB PPDU adds its own TX duration. -/
theorem ul_response_accounting (env : Env) (ev : PsduForwardedDown) (s : State)
    (a : Mac48Address) (st : UlStats)
    (hc : classify env ev = Branch.ulHeTb a)
    (hreg : find a s.m_ulStats = some st)
    (_hg : 0 < s.m_tfUlLength) :
    ∃ s', NotifyPsduForwardedDown env ev s = some s' ∧
      s'.m_responsesToLastTfDuration = s.m_responsesToLastTfDuration + ev.txDuration ∧
      find a s'.m_ulStats = some { st with
        minLengthRatio := updMin st.minLengthRatio ((ev.txDuration : ℚ) / (s.m_tfUlLength : ℚ)),
        maxLenghtRatio := updMax st.maxLenghtRatio ((ev.txDuration : ℚ) / (s.m_tfUlLength : ℚ)),
        avgLengthRatio := updAvg st.avgLengthRatio st.nLengthRatioSamples
          ((ev.txDuration : ℚ) / (s.m_tfUlLength : ℚ)),
        nLengthRatioSamples := st.nLengthRatioSamples + 1 } ∧
      (∀ b, b ≠ a → find b s'.m_ulStats = find b s.m_ulStats) ∧
      { s' with m_responsesToLastTfDuration := s.m_responsesToLastTfDuration,
                m_ulStats := s.m_ulStats } = s ∧
      (∀ ev2 a2 st2, classify env ev2 = Branch.ulHeTb a2 → find a2 s'.m_ulStats = some st2 →
        ∃ s'', NotifyPsduForwardedDown env ev2 s' = some s'' ∧
          s''.m_responsesToLastTfDuration
            = s.m_responsesToLastTfDuration + ev.txDuration + ev2.txDuration) := by
  rw [step_ulHeTb s hc, ulResponse_eq hreg]
  refine ⟨_, rfl, rfl, ?_, ?_, rfl, ?_⟩
  · simp only [find_assign_same, hreg, Option.map_some', ratio_seconds]
  · intro b hb
    exact find_assign_other _ _ hb
  · intro ev2 a2 st2 hc2 hreg2
    rw [step_ulHeTb _ hc2, ulResponse_eq hreg2]
    exact ⟨_, rfl, rfl⟩

/-- Witness of C18: in the state exWindowOpen (1 ms granted to A and B) station B
sends an HE TB PPDU of 0.5 ms. -/
theorem ul_response_accounting_witness :
    (classify exEnv (exResponse 20 500000) = Branch.ulHeTb 20 ∧
     find 20 exWindowOpen.m_ulStats = some { UlStats.init with nSolicitingTriggerFrames := 1 } ∧
     0 < exWindowOpen.m_tfUlLength) ∧
    ∃ s', NotifyPsduForwardedDown exEnv (exResponse 20 500000) exWindowOpen = some s' ∧
      s'.m_responsesToLastTfDuration
        = exWindowOpen.m_responsesToLastTfDuration + (exResponse 20 500000).txDuration :=
  ⟨⟨by decide, by with_unfolding_all rfl, by decide⟩,
   match ul_response_accounting exEnv (exResponse 20 500000) exWindowOpen 20
      { UlStats.init with nSolicitingTriggerFrames := 1 }
      (by decide) (by with_unfolding_all rfl) (by decide) with
   | ⟨s', h1, h2, _⟩ => ⟨s', h1, h2⟩⟩

theorem closeWindow_ulStats (s : State) : (closeWindow s).m_ulStats = s.m_ulStats := by
  unfold closeWindow
  split
  · split <;> rfl
  · rfl

theorem solicitLoop_spec (env : Env) (l : List Nat) :
    ∀ ul : List (Mac48Address × UlStats),
      (∀ aid ∈ l, ∃ a, find aid env.staList = some a ∧ find a ul ≠ none) →
      ∃ ul', solicitLoop env l ul = some ul' ∧
        ∀ a, find a ul' = (find a ul).map (fun st =>
          { st with nSolicitingTriggerFrames := st.nSolicitingTriggerFrames
              + (l.map (fun aid => find aid env.staList)).count (some a) }) := by
  induction l with
  | nil =>
    intro ul _
    refine ⟨ul, rfl, fun a => ?_⟩
    cases find a ul <;> simp
  | cons aid rest ih =>
    intro ul hreg
    obtain ⟨b, hb, hbul⟩ := hreg aid (List.mem_cons_self _ _)
    cases hf : find b ul with
    | none => exact absurd hf hbul
    | some stb =>
      have hreg1 : ∀ aid' ∈ rest, ∃ a, find aid' env.staList = some a ∧
          find a (assign b { stb with nSolicitingTriggerFrames :=
            stb.nSolicitingTriggerFrames + 1 } ul) ≠ none := by
        intro aid' h'
        obtain ⟨a, ha, haul⟩ := hreg aid' (List.mem_cons_of_mem _ h')
        refine ⟨a, ha, ?_⟩
        rw [find_assign]
        split
        · rename_i hab
          subst hab
          simp [hf]
        · exact haul
      obtain ⟨ul', hrun, hspec⟩ := ih _ hreg1
      refine ⟨ul', ?_, fun a => ?_⟩
      · simp only [solicitLoop, hb, hf, hrun]
      · rw [hspec a, find_assign]
        by_cases hab : a = b
        · subst hab
          simp only [if_true, hf, Option.map_some', List.map_cons, hb, List.count_cons_self,
            Option.some.injEq]
          congr 1
          omega
        · have hne : ¬ (some b = some a) := fun h => hab (Option.some.inj h).symm
          simp only [hab, if_false, List.map_cons, hb, List.count_cons, beq_iff_eq, hne,
            add_zero]

theorem basicTrigger_eq {env : Env} {t : CtrlTriggerHeader} {s : State}
    {ul : List (Mac48Address × UlStats)} (hne : t.aid12s ≠ [])
    (hl : solicitLoop env t.aid12s (closeWindow s).m_ulStats = some ul) :
    basicTrigger env t s = some { closeWindow s with
        m_nBasicTriggerFramesSent := (closeWindow s).m_nBasicTriggerFramesSent + 1,
        m_responsesToLastTfDuration := 0,
        m_tfUlLength := t.heTbPpduDuration,
        m_overallTimeGrantedByTf := t.heTbPpduDuration * (t.aid12s.length : Int),
        m_ulStats := ul } := by
  unfold basicTrigger
  cases ha : t.aid12s with
  | nil => exact absurd ha hne
  | cons a rest =>
    rw [ha] at hl
    simp only [hl]

/-- C19: a Basic Trigger Frame with granted duration g and a non-empty list of
user info fields whose AIDs all belong to stations registered in m_ulStats has
a result in which m_nBasicTriggerFramesSent has grown by one,
m_responsesToLastTfDuration is 0, m_tfUlLength is g, m_overallTimeGrantedByTf
is g times the number of user info fields, nSolicitingTriggerFrames of every
station has grown by the number of user info fields that address it (all other
UL members as before), and the UL members of a station that no user info field
addresses are unchanged.  (With no user info field line 1240 dereferences the
end of the list.) -/
theorem basic_trigger_opens_window (env : Env) (ev : PsduForwardedDown) (s : State)
    (t : CtrlTriggerHeader)
    (hc : classify env ev = Branch.basicTf t)
    (hne : t.aid12s ≠ [])
    (hreg : ∀ aid ∈ t.aid12s, ∃ a, find aid env.staList = some a ∧ find a s.m_ulStats ≠ none) :
    ∃ s', NotifyPsduForwardedDown env ev s = some s' ∧
      s'.m_nBasicTriggerFramesSent = s.m_nBasicTriggerFramesSent + 1 ∧
      s'.m_responsesToLastTfDuration = 0 ∧
      s'.m_tfUlLength = t.heTbPpduDuration ∧
      s'.m_overallTimeGrantedByTf = t.heTbPpduDuration * (t.aid12s.length : Int) ∧
      (∀ a, find a s'.m_ulStats = (find a s.m_ulStats).map (fun st =>
        { st with nSolicitingTriggerFrames := st.nSolicitingTriggerFrames
            + (t.aid12s.map (fun aid => find aid env.staList)).count (some a) })) ∧
      (∀ a, (∀ aid ∈ t.aid12s, find aid env.staList ≠ some a) →
        find a s'.m_ulStats = find a s.m_ulStats) := by
  have hreg' : ∀ aid ∈ t.aid12s, ∃ a, find aid env.staList = some a ∧
      find a (closeWindow s).m_ulStats ≠ none := by
    rw [closeWindow_ulStats]; exact hreg
  obtain ⟨ul, hl, hspec⟩ := solicitLoop_spec env t.aid12s _ hreg'
  rw [closeWindow_ulStats] at hspec
  have hnb : (closeWindow s).m_nBasicTriggerFramesSent = s.m_nBasicTriggerFramesSent := by
    have := closeWindow_tfState s
    split at this <;> [split at this; skip] <;>
      simp only [State.tfState, Prod.mk.injEq] at this <;> exact this.1
  rw [step_basicTf s hc, basicTrigger_eq hne hl]
  refine ⟨_, rfl, ?_, rfl, rfl, rfl, hspec, ?_⟩
  · simp only [hnb]
  · intro a ha
    have hcount : (t.aid12s.map (fun aid => find aid env.staList)).count (some a) = 0 := by
      rw [List.count_eq_zero]
      intro hmem
      obtain ⟨aid, haid, he⟩ := List.mem_map.mp hmem
      exact ha aid haid he
    simp only
    rw [hspec a, hcount]
    cases find a s.m_ulStats <;> simp


/-- Witness of C19: a Basic Trigger Frame granting 1 ms to A and B, processed from
the initial state of the example scenario. -/
theorem basic_trigger_opens_window_witness :
    (classify exEnv (exTrigger [1, 2] 1000000)
      = Branch.basicTf { isBasic := true, aid12s := [1, 2], heTbPpduDuration := 1000000 } ∧
     ([1, 2] : List Nat) ≠ []) ∧
    ∃ s', NotifyPsduForwardedDown exEnv (exTrigger [1, 2] 1000000) exInit = some s' ∧
      s'.m_nBasicTriggerFramesSent = exInit.m_nBasicTriggerFramesSent + 1 ∧
      s'.m_responsesToLastTfDuration = 0 ∧
      s'.m_tfUlLength = 1000000 ∧
      s'.m_overallTimeGrantedByTf = 1000000 * (([1, 2] : List Nat).length : Int) :=
  ⟨⟨by decide, by decide⟩,
   match basic_trigger_opens_window exEnv (exTrigger [1, 2] 1000000) exInit
      { isBasic := true, aid12s := [1, 2], heTbPpduDuration := 1000000 }
      (by decide) (by decide)
      (by
        intro aid haid
        simp only [List.mem_cons, List.mem_singleton, List.not_mem_nil, or_false] at haid
        rcases haid with h | h
        · subst h; exact ⟨10, by decide, by with_unfolding_all decide⟩
        · subst h; exact ⟨20, by decide, by with_unfolding_all decide⟩) with
   | ⟨s', h1, h2, h3, h4, h5, _⟩ => ⟨s', h1, h2, h3, h4, h5⟩⟩

/-! ## A-MPDU sizes -/

theorem dlSizeSta_sizeView (c : Nat) (st : DlStats) :
    (dlSizeSta c st).sizeView = obsSize st.sizeView c := rfl

theorem dlSizeLoop_sizeView (l : List (Nat × WifiPsdu)) :
    ∀ (mx sm : Nat) (dl : List (Mac48Address × DlStats))
      (r : Nat × Nat × List (Mac48Address × DlStats)),
      dlSizeLoop l mx sm dl = some r →
      ∀ a, (find a r.2.2).map DlStats.sizeView
        = (find a dl).map (fun st => (sizesTo a l).foldl obsSize st.sizeView) := by
  induction l with
  | nil =>
    intro mx sm dl r h a
    simp [dlSizeLoop] at h
    subst h
    cases find a dl <;> simp [sizesTo]
  | cons p rest ih =>
    intro mx sm dl r h a
    obtain ⟨k, psdu⟩ := p
    simp only [dlSizeLoop] at h
    cases hf : find psdu.addr1 dl with
    | none => simp [hf] at h
    | some st =>
      simp only [hf] at h
      rw [ih _ _ _ _ h a, find_assign]
      by_cases ha : a = psdu.addr1
      · subst ha
        simp [hf, sizesTo, dlSizeSta_sizeView]
      · have ha' : ¬ psdu.addr1 = a := fun e => ha e.symm
        simp [ha, sizesTo, ha']

theorem dlRatioLoop_sizeView (env : Env) (pm : List (Nat × WifiPsdu)) (mx : Nat)
    (us : List Nat) :
    ∀ (dl dl' : List (Mac48Address × DlStats)),
      dlRatioLoop env pm mx us dl = some dl' →
      ∀ a, (find a dl').map DlStats.sizeView = (find a dl).map DlStats.sizeView := by
  induction us with
  | nil =>
    intro dl dl' h a
    simp [dlRatioLoop] at h
    subst h
    rfl
  | cons k rest ih =>
    intro dl dl' h a
    simp only [dlRatioLoop] at h
    cases hk : find k env.staList with
    | none => simp [hk] at h
    | some b =>
      simp only [hk] at h
      cases hf : find b dl with
      | none => simp [hf] at h
      | some st =>
        simp only [hf] at h
        rw [ih _ _ h a, find_assign]
        by_cases ha : a = b
        · subst ha
          simp [hf]
          rfl
        · simp [ha]

theorem step_sizeView {env : Env} {ev : PsduForwardedDown} {s s' : State}
    (h : NotifyPsduForwardedDown env ev s = some s') (a : Mac48Address) :
    (find a s'.m_dlStats).map DlStats.sizeView
      = (find a s.m_dlStats).map (fun st =>
          (if classify env ev = Branch.dl then sizesTo a ev.psduMap else []).foldl
            obsSize st.sizeView) := by
  rw [step_eq_classify] at h
  cases hc : classify env ev with
  | undefined => simp [hc] at h
  | ulHeTb b =>
    simp only [hc] at h
    obtain ⟨st, -, hs⟩ := ulResponse_some h
    subst hs
    simp
  | ulOther =>
    simp only [hc, Option.some.injEq] at h
    subst h
    simp
  | dl =>
    simp only [hc] at h
    obtain ⟨dl1, h1, hs⟩ := downlink_some h
    have hsz := dlSizeLoop_sizeView _ _ _ _ _ h1 a
    simp only at hsz
    simp only [if_true]
    by_cases hp : ev.txVector.preamble = WifiPreamble.HE_MU
    · simp only [hp, if_true] at hs
      obtain ⟨-, dl2, h2, hs⟩ := hs
      subst hs
      simp only
      rw [dlRatioLoop_sizeView _ _ _ _ _ _ h2 a, hsz]
    · simp only [hp, if_false] at hs
      subst hs
      exact hsz
  | basicTf t =>
    simp only [hc] at h
    obtain ⟨-, ul, -, hs⟩ := basicTrigger_some h
    subst hs
    have hcw : (closeWindow s).m_dlStats = s.m_dlStats := by
      unfold closeWindow
      split
      · split <;> rfl
      · rfl
    simp only [hcw]
    simp
  | ignored =>
    simp only [hc, Option.some.injEq] at h
    subst h
    simp

theorem run_sizeView (env : Env) (a : Mac48Address) (evs : List PsduForwardedDown) :
    ∀ (s s' : State), runEvents (NotifyPsduForwardedDown env) evs s = some s' →
      (find a s'.m_dlStats).map DlStats.sizeView
        = (find a s.m_dlStats).map (fun st =>
            (dlSizesSeen env a evs).foldl obsSize st.sizeView) := by
  induction evs with
  | nil =>
    intro s s' h
    simp only [runEvents, Option.some.injEq] at h
    subst h
    cases find a s.m_dlStats <;> rfl
  | cons e rest ih =>
    intro s s' h
    obtain ⟨s1, h1, h2⟩ := runEvents_cons_some h
    rw [ih s1 s' h2]
    have hs := step_sizeView h1 a
    cases hf1 : find a s1.m_dlStats with
    | none =>
      rw [hf1] at hs
      cases hf : find a s.m_dlStats with
      | none => rfl
      | some st => rw [hf] at hs; simp at hs
    | some st1 =>
      rw [hf1] at hs
      cases hf : find a s.m_dlStats with
      | none => rw [hf] at hs; simp at hs
      | some st =>
        rw [hf] at hs
        simp only [Option.map_some', Option.some.injEq] at hs ⊢
        rw [hs, dlSizesSeen, List.foldl_append]

theorem obsSize_fold (xs : List Nat) : ∀ (ys : List Nat) (v : Nat × Nat × Nat),
    (∀ x ∈ xs, 0 < x) → (∀ y ∈ ys, 0 < y) →
    v.2.2 = ys.length →
    (ys = [] → v.1 = 0 ∧ v.2.1 = 0) →
    (ys ≠ [] → v.1 ∈ ys ∧ v.2.1 ∈ ys ∧ ∀ y ∈ ys, v.1 ≤ y ∧ y ≤ v.2.1) →
    (xs.foldl obsSize v).2.2 = (ys ++ xs).length ∧
    (ys ++ xs ≠ [] → (xs.foldl obsSize v).1 ∈ ys ++ xs ∧ (xs.foldl obsSize v).2.1 ∈ ys ++ xs ∧
      ∀ y ∈ ys ++ xs, (xs.foldl obsSize v).1 ≤ y ∧ y ≤ (xs.foldl obsSize v).2.1) := by
  induction xs with
  | nil =>
    intro ys v _ _ hn _ hne
    simp only [List.foldl_nil, List.append_nil]
    exact ⟨hn, hne⟩
  | cons x rest ih =>
    intro ys v hx hy hn he hne
    have hxpos : 0 < x := hx x (List.mem_cons_self _ _)
    have key := ih (ys ++ [x]) (obsSize v x)
      (fun z hz => hx z (List.mem_cons_of_mem _ hz))
      (by
        intro y hy'
        rcases List.mem_append.mp hy' with h | h
        · exact hy y h
        · simp only [List.mem_singleton] at h; subst h; exact hxpos)
      (by simp [obsSize, hn])
      (by simp)
      (by
        intro _
        by_cases hys : ys = []
        · obtain ⟨h1, h2⟩ := he hys
          subst hys
          simp only [obsSize, h1, h2, true_or, if_true, gt_iff_lt, hxpos, List.nil_append,
            List.mem_singleton, forall_eq, le_refl, and_self]
        · obtain ⟨h1, h2, h3⟩ := hne hys
          have hv1pos : 0 < v.1 := hy _ h1
          refine ⟨?_, ?_, ?_⟩
          · simp only [obsSize]
            split
            · simp
            · exact List.mem_append_left _ h1
          · simp only [obsSize]
            split
            · simp
            · exact List.mem_append_left _ h2
          · intro y hy'
            simp only [obsSize]
            rcases List.mem_append.mp hy' with h | h
            · obtain ⟨h4, h5⟩ := h3 y h
              constructor
              · split <;> omega
              · split <;> omega
            · simp only [List.mem_singleton] at h
              subst h
              constructor
              · split <;> omega
              · split <;> omega)
    simpa [List.append_assoc] using key


theorem find_setAt {α : Type} (k j : Nat) (v : α) (m : List (Nat × α)) :
    find j (setAt k v m) = if j = k then some v else find j m := by
  unfold setAt
  cases hf : find k m with
  | none =>
    simp only
    by_cases h : j = k
    · subst h; simp [find_insert_same _ _ _ hf]
    · simp [h, find_insert_other v m h]
  | some w =>
    simp only
    rw [find_assign]
    by_cases h : j = k
    · subst h; simp [hf]
    · simp [h]

theorem find_foldl_setAt {α : Type} (v : α) (l : List Nat) :
    ∀ (m : List (Nat × α)) (j : Nat) (w : α),
      (∀ w0, find j m = some w0 → w0 = v) →
      find j (l.foldl (fun m a => setAt a v m) m) = some w → w = v := by
  induction l with
  | nil =>
    intro m j w hm h
    exact hm w h
  | cons a rest ih =>
    intro m j w hm h
    simp only [List.foldl_cons] at h
    refine ih (setAt a v m) j w ?_ h
    intro w0 hw0
    rw [find_setAt] at hw0
    split at hw0
    · exact (Option.some.inj hw0).symm
    · exact hm w0 hw0

theorem initialState_dlStats (staAddrs : List Mac48Address) (n : Nat) (a : Mac48Address)
    (st : DlStats) (h : find a (initialState staAddrs n).m_dlStats = some st) :
    st = DlStats.init := by
  obtain ⟨m, hm⟩ := initialState_eq staAddrs n
  rw [hm] at h
  exact find_foldl_setAt DlStats.init staAddrs [] a st (fun w0 hw0 => by simp [find] at hw0) h

/-- C20: after every sequence of forwarded-frame events processed from the
initial state in which all sub-frames of the downlink events have a strictly
positive size, nAmpdus of every station is the number of sub-frames destined to
it in the downlink events so far, and when that number is positive minAmpduSize
and maxAmpduSize are the smallest and the largest of their sizes.  The
downlink events are those of the branch of line 1125, whatever the preamble. -/
theorem ampdu_size_extremes (env : Env) (staAddrs : List Mac48Address) (nStations : Nat)
    (evs : List PsduForwardedDown) (s : State) (a : Mac48Address) (st : DlStats)
    (hrun : runEvents (NotifyPsduForwardedDown env) evs (initialState staAddrs nStations)
      = some s)
    (hpos : ∀ ev ∈ evs, classify env ev = Branch.dl → ∀ p ∈ ev.psduMap, 0 < p.2.GetSize)
    (hst : find a s.m_dlStats = some st) :
    st.nAmpdus = (dlSizesSeen env a evs).length ∧
    (0 < st.nAmpdus →
      st.minAmpduSize ∈ dlSizesSeen env a evs ∧ st.maxAmpduSize ∈ dlSizesSeen env a evs ∧
      ∀ x ∈ dlSizesSeen env a evs, st.minAmpduSize ≤ x ∧ x ≤ st.maxAmpduSize) := by
  have hv := run_sizeView env a evs _ _ hrun
  rw [hst] at hv
  cases h0 : find a (initialState staAddrs nStations).m_dlStats with
  | none => rw [h0] at hv; simp at hv
  | some st0 =>
    rw [h0] at hv
    have hinit := initialState_dlStats staAddrs nStations a st0 h0
    subst hinit
    simp only [Option.map_some', Option.some.injEq] at hv
    have hseen : ∀ x ∈ dlSizesSeen env a evs, 0 < x := by
      clear hv hrun hst h0
      induction evs with
      | nil => intro x hx; simp [dlSizesSeen] at hx
      | cons e rest ih =>
        intro x hx
        simp only [dlSizesSeen, List.mem_append] at hx
        rcases hx with h | h
        · split at h
          · rename_i hc
            simp only [sizesTo, List.mem_map, List.mem_filter] at h
            obtain ⟨p, ⟨hp, -⟩, rfl⟩ := h
            exact hpos e (List.mem_cons_self _ _) hc p hp
          · simp at h
        · exact ih (fun ev hev => hpos ev (List.mem_cons_of_mem _ hev)) x h
    have key := obsSize_fold (dlSizesSeen env a evs) [] DlStats.init.sizeView hseen
      (by simp) rfl (fun _ => ⟨rfl, rfl⟩) (fun h => absurd rfl h)
    rw [← hv] at key
    simp only [List.nil_append, DlStats.sizeView] at key
    refine ⟨key.1, fun hn => key.2 ?_⟩
    intro he
    rw [key.1, he] at hn
    simp at hn


/-- Witness of C20: station B after the events exOnlyA and exBoth of the example
scenario, with its one sub-frame of 50 bytes. -/
theorem ampdu_size_extremes_witness :
    (runEvents (NotifyPsduForwardedDown exEnv) [exOnlyA, exBoth] (initialState [10, 20, 30] 3)
      = some exAfterBoth ∧
     (∀ ev ∈ [exOnlyA, exBoth], classify exEnv ev = Branch.dl →
        ∀ p ∈ ev.psduMap, 0 < p.2.GetSize) ∧
     find 20 exAfterBoth.m_dlStats
      = some { DlStats.init with
               minAmpduSize := 50, maxAmpduSize := 50, nAmpdus := 1,
               minAmpduRatio := 1 / 2, maxAmpduRatio := 1 / 2, avgAmpduRatio := 1 / 4,
               nAmpduRatioSamples := 2 }) ∧
    ((1 : Nat) = (dlSizesSeen exEnv 20 [exOnlyA, exBoth]).length ∧
     ((0 : Nat) < 1 →
      (50 : Nat) ∈ dlSizesSeen exEnv 20 [exOnlyA, exBoth] ∧
      (50 : Nat) ∈ dlSizesSeen exEnv 20 [exOnlyA, exBoth] ∧
      ∀ x ∈ dlSizesSeen exEnv 20 [exOnlyA, exBoth], 50 ≤ x ∧ x ≤ 50)) :=
  ⟨⟨by with_unfolding_all rfl, by decide, by with_unfolding_all rfl⟩,
   ampdu_size_extremes exEnv [10, 20, 30] 3 [exOnlyA, exBoth] exAfterBoth 20
     { DlStats.init with
       minAmpduSize := 50, maxAmpduSize := 50, nAmpdus := 1,
       minAmpduRatio := 1 / 2, maxAmpduRatio := 1 / 2, avgAmpduRatio := 1 / 4,
       nAmpduRatioSamples := 2 }
     (by with_unfolding_all rfl) (by decide) (by with_unfolding_all rfl)⟩

/-! ## The mean of the UL completeness ratios -/

theorem lengthSamples_eq {s : State} {n : Nat}
    (h : s.m_nBasicTriggerFramesSent = s.m_nFailedTriggerFrames + 1 + n)
    (hb : s.m_nBasicTriggerFramesSent < 18446744073709551616) : s.lengthSamples = n := by
  unfold State.lengthSamples sub64
  omega

theorem step_logInv {env : Env} {ev : PsduForwardedDown} {s s' : State} {g : WindowLog}
    {k : Nat} (hk : k < 18446744073709551616)
    (hpos : ∀ t, classify env ev = Branch.basicTf t → 0 < t.heTbPpduDuration)
    (h : NotifyPsduForwardedDown env ev s = some s') (hinv : LogInv s g k) :
    LogInv s' (g.step env ev) (k + 1) := by
  obtain ⟨hw, hr, hwpos, havg, hle, hcnt⟩ := hinv
  have ht := step_tfState h
  cases hc : classify env ev with
  | basicTf t =>
    have hn := step_basicTf_nonempty hc h
    rw [hc, closeWindow_tfState] at ht
    cases hgw : g.window with
    | none =>
      rw [hgw] at hw hcnt
      simp only [WindowInv] at hw
      obtain ⟨c1, c2, c3⟩ := hcnt
      rw [hw] at ht
      simp only [lt_irrefl, if_false, State.tfState, Prod.mk.injEq] at ht
      obtain ⟨e1, e2, -, e4, e5, e6⟩ := ht
      refine ⟨?_, ?_, ?_, ?_, ?_, ?_⟩
      · simp only [WindowLog.step, hc, WindowInv]
        exact ⟨e4, e5, hn⟩
      · simp only [WindowLog.step, hc]; exact e6
      · intro t' ht'
        simp only [WindowLog.step, hc, Option.some.injEq] at ht'
        subst ht'
        exact hpos t hc
      · simp only [WindowLog.step, hc, hgw, c3]
        simp
      · omega
      · simp only [WindowLog.step, hc, hgw, c3, List.length_nil]
        omega
    | some w =>
      rw [hgw] at hw hcnt
      obtain ⟨w1, w2, w3⟩ := hw
      have hwp : 0 < w.heTbPpduDuration := hwpos w hgw
      have hopen : 0 < s.m_tfUlLength := by rw [w1]; exact hwp
      rw [if_pos hopen] at ht
      by_cases hz : s.m_responsesToLastTfDuration = 0
      · rw [if_pos hz] at ht
        simp only [State.tfState, Prod.mk.injEq, State.lengthAcc] at ht
        obtain ⟨e1, e2, ⟨-, -, e3⟩, e4, e5, e6⟩ := ht
        have hgz : g.responded = 0 := by rw [← hr]; exact hz
        refine ⟨?_, ?_, ?_, ?_, ?_, ?_⟩
        · simp only [WindowLog.step, hc, WindowInv]
          exact ⟨e4, e5, hn⟩
        · simp only [WindowLog.step, hc]; exact e6
        · intro t' ht'
          simp only [WindowLog.step, hc, Option.some.injEq] at ht'
          subst ht'
          exact hpos t hc
        · simp only [WindowLog.step, hc, hgw, hgz, ne_eq, not_true_eq_false, and_false,
            if_false]
          rw [e3]; exact havg
        · omega
        · simp only [WindowLog.step, hc, hgw, hgz, ne_eq, not_true_eq_false, and_false,
            if_false]
          omega
      · rw [if_neg hz] at ht
        have hsam : s.lengthSamples = g.ratios.length :=
          lengthSamples_eq hcnt (by omega)
        have hx : GetSeconds s.m_responsesToLastTfDuration
              / GetSeconds s.m_overallTimeGrantedByTf
            = (g.responded : ℚ) / ((w.heTbPpduDuration : ℚ) * (w.aid12s.length : ℚ)) := by
          rw [ratio_seconds, w2, hr]
          push_cast
          rfl
        rw [hx, hsam] at ht
        simp only [State.tfState, Prod.mk.injEq, State.lengthAcc] at ht
        obtain ⟨e1, e2, ⟨-, -, e3⟩, e4, e5, e6⟩ := ht
        have hgz : g.responded ≠ 0 := by rw [← hr]; exact hz
        refine ⟨?_, ?_, ?_, ?_, ?_, ?_⟩
        · simp only [WindowLog.step, hc, WindowInv]
          exact ⟨e4, e5, hn⟩
        · simp only [WindowLog.step, hc]; exact e6
        · intro t' ht'
          simp only [WindowLog.step, hc, Option.some.injEq] at ht'
          subst ht'
          exact hpos t hc
        · simp only [WindowLog.step, hc, hgw, hwp, hgz, ne_eq, not_false_eq_true, and_self,
            if_true, List.length_append, List.length_singleton, List.sum_append,
            List.sum_singleton]
          rw [e3]
          push_cast
          rw [updAvg_mul, havg]
        · omega
        · simp only [WindowLog.step, hc, hgw, hwp, hgz, ne_eq, not_false_eq_true, and_self,
            if_true, List.length_append, List.length_singleton]
          omega
  | ulHeTb a =>
    rw [hc] at ht
    simp only [State.tfState, Prod.mk.injEq, State.lengthAcc] at ht
    obtain ⟨e1, e2, ⟨-, -, e3⟩, e4, e5, e6⟩ := ht
    refine ⟨?_, ?_, ?_, ?_, ?_, ?_⟩
    · simp only [WindowLog.step, hc]
      exact windowInv_of_eq e4 e5 hw
    · simp only [WindowLog.step, hc]; rw [e6, hr]
    · simpa only [WindowLog.step, hc] using hwpos
    · simp only [WindowLog.step, hc]; rw [e3]; exact havg
    · omega
    · simp only [WindowLog.step, hc]
      rw [e1, e2]; exact hcnt
  | undefined =>
    rw [step_eq_classify, hc] at h
    simp at h
  | ulOther =>
    rw [hc] at ht
    simp only [State.tfState, Prod.mk.injEq, State.lengthAcc] at ht
    obtain ⟨e1, e2, ⟨-, -, e3⟩, e4, e5, e6⟩ := ht
    refine ⟨?_, ?_, ?_, ?_, ?_, ?_⟩
    · simp only [WindowLog.step, hc]
      exact windowInv_of_eq e4 e5 hw
    · simp only [WindowLog.step, hc]; rw [e6, hr]
    · simpa only [WindowLog.step, hc] using hwpos
    · simp only [WindowLog.step, hc]; rw [e3]; exact havg
    · omega
    · simp only [WindowLog.step, hc]
      rw [e1, e2]; exact hcnt
  | dl =>
    rw [hc] at ht
    simp only [State.tfState, Prod.mk.injEq, State.lengthAcc] at ht
    obtain ⟨e1, e2, ⟨-, -, e3⟩, e4, e5, e6⟩ := ht
    refine ⟨?_, ?_, ?_, ?_, ?_, ?_⟩
    · simp only [WindowLog.step, hc]
      exact windowInv_of_eq e4 e5 hw
    · simp only [WindowLog.step, hc]; rw [e6, hr]
    · simpa only [WindowLog.step, hc] using hwpos
    · simp only [WindowLog.step, hc]; rw [e3]; exact havg
    · omega
    · simp only [WindowLog.step, hc]
      rw [e1, e2]; exact hcnt
  | ignored =>
    rw [hc] at ht
    simp only [State.tfState, Prod.mk.injEq, State.lengthAcc] at ht
    obtain ⟨e1, e2, ⟨-, -, e3⟩, e4, e5, e6⟩ := ht
    refine ⟨?_, ?_, ?_, ?_, ?_, ?_⟩
    · simp only [WindowLog.step, hc]
      exact windowInv_of_eq e4 e5 hw
    · simp only [WindowLog.step, hc]; rw [e6, hr]
    · simpa only [WindowLog.step, hc] using hwpos
    · simp only [WindowLog.step, hc]; rw [e3]; exact havg
    · omega
    · simp only [WindowLog.step, hc]
      rw [e1, e2]; exact hcnt

theorem run_logInv (env : Env) (evs : List PsduForwardedDown) :
    ∀ (s s' : State) (g : WindowLog) (k : Nat),
      k + evs.length < 18446744073709551616 →
      (∀ ev ∈ evs, ∀ t, classify env ev = Branch.basicTf t → 0 < t.heTbPpduDuration) →
      runEvents (NotifyPsduForwardedDown env) evs s = some s' → LogInv s g k →
      LogInv s' (evs.foldl (WindowLog.step env) g) (k + evs.length) := by
  induction evs with
  | nil =>
    intro s s' g k _ _ h hinv
    simp only [runEvents, Option.some.injEq] at h
    subst h
    exact hinv
  | cons e rest ih =>
    intro s s' g k hk hpos h hinv
    obtain ⟨s1, h1, h2⟩ := runEvents_cons_some h
    simp only [List.length_cons] at hk
    have hstep := step_logInv (by omega) (hpos e (List.mem_cons_self _ _)) h1 hinv
    have := ih s1 s' (g.step env e) (k + 1) (by omega)
      (fun ev hev => hpos ev (List.mem_cons_of_mem _ hev)) h2 hstep
    simp only [List.foldl_cons, List.length_cons]
    rw [show k + (rest.length + 1) = k + 1 + rest.length by omega]
    exact this

/-- C11: after every sequence of fewer than 2^64 forwarded-frame events
processed from the initial state in which every Basic Trigger Frame carries a
strictly positive granted duration, m_avgLengthRatio is the arithmetic mean over
the rationals of the completeness ratios of the windows closed so far with a
non-zero responded duration, and once a Basic Trigger Frame was sent the count
m_nBasicTriggerFramesSent - 1 - m_nFailedTriggerFrames that the next update
would use is the number of those windows.  Every prefix of a processed sequence
is itself such a sequence, so this holds at each update. -/
theorem avgLengthRatio_is_mean (env : Env) (staAddrs : List Mac48Address) (nStations : Nat)
    (evs : List PsduForwardedDown) (s : State)
    (hlen : evs.length < 18446744073709551616)
    (hpos : ∀ ev ∈ evs, ∀ t, classify env ev = Branch.basicTf t → 0 < t.heTbPpduDuration)
    (hrun : runEvents (NotifyPsduForwardedDown env) evs (initialState staAddrs nStations)
      = some s) :
    (0 < (windowLog env evs).ratios.length →
      s.m_avgLengthRatio
        = (windowLog env evs).ratios.sum / ((windowLog env evs).ratios.length : ℚ)) ∧
    (1 ≤ s.m_nBasicTriggerFramesSent →
      s.lengthSamples = (windowLog env evs).ratios.length) := by
  have h0 := initialState_tfState staAddrs nStations
  simp only [State.tfState, Prod.mk.injEq, State.lengthAcc] at h0
  obtain ⟨a1, a2, ⟨-, -, a3⟩, a4, -, a6⟩ := h0
  have hinit : LogInv (initialState staAddrs nStations)
      { window := none, responded := 0, ratios := [] } 0 := by
    refine ⟨a4, a6, ?_, ?_, ?_, ?_⟩
    · intro t ht; simp at ht
    · simp
    · omega
    · exact ⟨a1, a2, rfl⟩
  have hfin : LogInv s (windowLog env evs) (0 + evs.length) :=
    run_logInv env evs _ _ _ 0 (by omega) hpos hrun hinit
  obtain ⟨-, -, -, havg, hle, hcnt⟩ := hfin
  refine ⟨fun hpos' => ?_, fun hb => ?_⟩
  · have hne : ((windowLog env evs).ratios.length : ℚ) ≠ 0 := by
      have : (0 : ℚ) < ((windowLog env evs).ratios.length : ℚ) := by exact_mod_cast hpos'
      exact ne_of_gt this
    rw [← havg]
    field_simp
  · cases hgw : (windowLog env evs).window with
    | none =>
      rw [hgw] at hcnt
      obtain ⟨c1, -, -⟩ := hcnt
      omega
    | some w =>
      rw [hgw] at hcnt
      exact lengthSamples_eq hcnt (by omega)


/-- Witness of C11: 1 ms granted to A and B, A answers with 1 ms, and a second
Basic Trigger Frame closes the window with the ratio 1/2. -/
theorem avgLengthRatio_is_mean_witness :
    (([exTrigger [1, 2] 1000000, exResponse 10 1000000, exTrigger [1, 2] 2000000].length
        < 18446744073709551616) ∧
     runEvents (NotifyPsduForwardedDown exEnv)
        [exTrigger [1, 2] 1000000, exResponse 10 1000000, exTrigger [1, 2] 2000000]
        (initialState [10, 20, 30] 3) = some exWindowClosed) ∧
    ((0 < (windowLog exEnv
          [exTrigger [1, 2] 1000000, exResponse 10 1000000, exTrigger [1, 2] 2000000]
        ).ratios.length →
      exWindowClosed.m_avgLengthRatio
        = (windowLog exEnv
            [exTrigger [1, 2] 1000000, exResponse 10 1000000, exTrigger [1, 2] 2000000]
          ).ratios.sum
          / ((windowLog exEnv
            [exTrigger [1, 2] 1000000, exResponse 10 1000000, exTrigger [1, 2] 2000000]
          ).ratios.length : ℚ)) ∧
     (1 ≤ exWindowClosed.m_nBasicTriggerFramesSent →
      exWindowClosed.lengthSamples
        = (windowLog exEnv
            [exTrigger [1, 2] 1000000, exResponse 10 1000000, exTrigger [1, 2] 2000000]
          ).ratios.length)) :=
  ⟨⟨by decide, by with_unfolding_all rfl⟩,
   avgLengthRatio_is_mean exEnv [10, 20, 30] 3
     [exTrigger [1, 2] 1000000, exResponse 10 1000000, exTrigger [1, 2] 2000000]
     exWindowClosed (by decide)
     (by
       intro ev hev t hc
       simp only [List.mem_cons, List.mem_singleton, List.not_mem_nil, or_false] at hev
       rcases hev with h | h | h
       · subst h
         rw [show classify exEnv (exTrigger [1, 2] 1000000)
           = Branch.basicTf { isBasic := true, aid12s := [1, 2], heTbPpduDuration := 1000000 }
           from by decide] at hc
         injection hc with hc
         subst hc
         decide
       · subst h
         rw [show classify exEnv (exResponse 10 1000000) = Branch.ulHeTb 10 from by decide] at hc
         exact Branch.noConfusion hc
       · subst h
         rw [show classify exEnv (exTrigger [1, 2] 2000000)
           = Branch.basicTf { isBasic := true, aid12s := [1, 2], heTbPpduDuration := 2000000 }
           from by decide] at hc
         injection hc with hc
         subst hc
         decide)
     (by with_unfolding_all rfl)⟩

/-! ## ContextToNodeId -/

theorem digitChar_spec (k : Nat) (hk : k < 10) :
    (Nat.digitChar k).isDigit = true ∧ (Nat.digitChar k).toNat - 48 = k := by
  interval_cases k <;> exact ⟨by decide, by decide⟩

theorem digitsValue_cons_digit (c : Char) (cs : List Char) (acc : Nat)
    (hc : c.isDigit = true) :
    digitsValue (c :: cs) acc = digitsValue cs (acc * 10 + (c.toNat - 48)) := by
  simp only [digitsValue, hc, if_true]

theorem toDigitsCore_spec (f : Nat) : ∀ (n : Nat) (ds : List Char), n < f →
    ∃ pre, Nat.toDigitsCore 10 f n ds = pre ++ ds ∧ pre ≠ [] ∧
      (∀ c ∈ pre, c.isDigit = true) ∧ pre.length ≤ n + 1 ∧
      (∀ (acc : Nat) (rest : List Char),
        digitsValue (pre ++ rest) acc = digitsValue rest (acc * 10 ^ pre.length + n)) := by
  induction f with
  | zero => intro n ds h; omega
  | succ f ih =>
    intro n ds hn
    obtain ⟨hd1, hd2⟩ := digitChar_spec (n % 10) (Nat.mod_lt _ (by decide))
    simp only [Nat.toDigitsCore]
    by_cases h0 : n / 10 = 0
    · simp only [h0, if_true]
      refine ⟨[Nat.digitChar (n % 10)], rfl, by simp, ?_, by simp, ?_⟩
      · intro c hc
        simp only [List.mem_singleton] at hc
        subst hc
        exact hd1
      · intro acc rest
        simp only [List.singleton_append, List.length_singleton, pow_one]
        rw [digitsValue_cons_digit _ _ _ hd1, hd2]
        have : n % 10 = n := by omega
        rw [this]
    · simp only [h0, if_false]
      have hlt : n / 10 < f := by omega
      obtain ⟨pre, hpre, hne, hdig, hlen, hval⟩ := ih (n / 10) (Nat.digitChar (n % 10) :: ds) hlt
      refine ⟨pre ++ [Nat.digitChar (n % 10)], ?_, by simp, ?_, ?_, ?_⟩
      · rw [hpre]; simp
      · intro c hc
        rcases List.mem_append.mp hc with h | h
        · exact hdig c h
        · simp only [List.mem_singleton] at h
          subst h
          exact hd1
      · simp only [List.length_append, List.length_singleton]
        omega
      · intro acc rest
        rw [List.append_assoc, hval, List.singleton_append,
          digitsValue_cons_digit _ _ _ hd1, hd2]
        congr 1
        simp only [List.length_append, List.length_singleton, pow_succ]
        have : n = 10 * (n / 10) + n % 10 := (Nat.div_add_mod n 10).symm
        nlinarith [this]

theorem isDigit_ne {c d : Char} (hc : c.isDigit = true) (hd : d.isDigit = false) : c ≠ d := by
  intro h
  rw [h, hd] at hc
  exact Bool.false_ne_true hc

theorem isSpaceChar_of_isDigit {c : Char} (hc : c.isDigit = true) : isSpaceChar c = false := by
  have h1 := isDigit_ne hc (by decide : ' '.isDigit = false)
  have h2 := isDigit_ne hc (by decide : '\t'.isDigit = false)
  have h3 := isDigit_ne hc (by decide : '\n'.isDigit = false)
  have h4 := isDigit_ne hc (by decide : '\x0b'.isDigit = false)
  have h5 := isDigit_ne hc (by decide : '\x0c'.isDigit = false)
  have h6 := isDigit_ne hc (by decide : '\r'.isDigit = false)
  simp [isSpaceChar, h1, h2, h3, h4, h5, h6]

theorem atoi_digits (pre : List Char) (hne : pre ≠ []) (hdig : ∀ c ∈ pre, c.isDigit = true)
    (hr : digitsValue pre 0 ≤ 2147483647) :
    atoi pre = some (digitsValue pre 0 : Int) := by
  cases pre with
  | nil => exact absurd rfl hne
  | cons c cs =>
    have hc := hdig c (List.mem_cons_self _ _)
    have hsp := isSpaceChar_of_isDigit hc
    have hm := isDigit_ne hc (by decide : '-'.isDigit = false)
    have hp := isDigit_ne hc (by decide : '+'.isDigit = false)
    unfold atoi
    simp only [List.dropWhile_cons, hsp, Bool.false_eq_true, if_false]
    have h1 : (-2147483648 : Int) ≤ (digitsValue (c :: cs) 0 : Int) := by
      have : (0 : Int) ≤ (digitsValue (c :: cs) 0 : Int) := Int.natCast_nonneg _
      omega
    have h2 : (digitsValue (c :: cs) 0 : Int) ≤ 2147483647 := by exact_mod_cast hr
    have hmatch : atoi.match_1 (fun _ => Int) (c :: cs)
        (fun rest => - (digitsValue rest 0 : Int)) (fun rest => (digitsValue rest 0 : Int))
        (fun rest => (digitsValue rest 0 : Int)) = (digitsValue (c :: cs) 0 : Int) := by
      split
      · rename_i heq
        simp only [List.cons.injEq] at heq
        exact absurd heq.1 hm
      · rename_i heq
        simp only [List.cons.injEq] at heq
        exact absurd heq.1 hp
      · rfl
    simp only [hmatch, h1, h2, and_self, if_true]

theorem findFrom_after_digits (pat : List Char) (p : Char) (ps : List Char)
    (hpat : pat = p :: ps) (hp : p.isDigit = false) (pre : List Char) :
    ∀ (rest : List Char) (i : Nat), (∀ c ∈ pre, c.isDigit = true) →
      rest ≠ [] → startsWith pat rest = true →
      findFrom pat (pre ++ rest) i = some (i + pre.length) := by
  induction pre with
  | nil =>
    intro rest i _ hne hs
    cases rest with
    | nil => exact absurd rfl hne
    | cons c cs => simp [findFrom, hs]
  | cons c cs ih =>
    intro rest i hdig hne hs
    have hc := hdig c (List.mem_cons_self _ _)
    have hcp : ¬ p = c := fun h => (isDigit_ne hc hp) h.symm
    have hns : startsWith pat ((c :: cs) ++ rest) = false := by
      rw [hpat]
      simp [startsWith, hcp]
    simp only [List.cons_append] at hns ⊢
    simp only [findFrom, hns, Bool.false_eq_true, if_false]
    rw [ih rest (i + 1) (fun d hd => hdig d (List.mem_cons_of_mem _ hd)) hne hs]
    simp only [List.length_cons]
    congr 1
    omega

/-- C16: for every node id x below 2^31, every device index y and every suffix,
ContextToNodeId returns x for the context string made of /NodeList/, the
decimal digits of x, /DeviceList/, the decimal digits of y, a slash and the
suffix. -/
theorem contextToNodeId_of_path (x y : Nat) (suffix : String) (hx : x < 2147483648) :
    ContextToNodeId ("/NodeList/" ++ Nat.repr x ++ "/DeviceList/" ++ Nat.repr y ++ "/" ++ suffix)
      = some x := by
  obtain ⟨pre, hpre, hne, hdig, hlen, hval⟩ := toDigitsCore_spec (x + 1) x [] (by omega)
  rw [List.append_nil] at hpre
  have hdata : ("/NodeList/" ++ Nat.repr x ++ "/DeviceList/" ++ Nat.repr y ++ "/" ++ suffix).data
      = "/NodeList/".data ++ (pre ++ ("/DeviceList/".data ++ (Nat.repr y).data
          ++ "/".data ++ suffix.data)) := by
    simp only [String.data_append, List.append_assoc]
    congr 1
    have : (Nat.repr x).data = pre := by
      rw [← hpre]; rfl
    rw [this]
  have hv : digitsValue pre 0 = x := by
    have := hval 0 []
    simpa [digitsValue] using this
  unfold ContextToNodeId
  rw [hdata]
  have hlen10 : ¬ ("/NodeList/".data ++ (pre ++ ("/DeviceList/".data ++ (Nat.repr y).data
      ++ "/".data ++ suffix.data))).length < 10 := by
    have h10 : "/NodeList/".data.length = 10 := rfl
    rw [List.length_append, h10]
    omega
  simp only [hlen10, if_false]
  have hdrop : List.drop 10 ("/NodeList/".data ++ (pre ++ ("/DeviceList/".data
      ++ (Nat.repr y).data ++ "/".data ++ suffix.data)))
      = pre ++ ("/DeviceList/".data ++ (Nat.repr y).data ++ "/".data ++ suffix.data) := by
    have : "/NodeList/".data.length = 10 := by decide
    rw [← this, List.drop_left]
  rw [hdrop]
  have hfind := findFrom_after_digits "/Device".data '/' "Device".data (by decide) (by decide)
    pre ("/DeviceList/".data ++ (Nat.repr y).data ++ "/".data ++ suffix.data) 0 hdig
    (by simp) (by rfl)
  rw [hfind]
  have hmod : (0 + pre.length) % 4294967296 = pre.length := by omega
  simp only [hmod, List.take_left']
  rw [atoi_digits pre hne hdig (by omega), hv]
  simp only
  congr 1
  omega


/-- Witness of C16: node 2, device 0 and the MacRx path. -/
theorem contextToNodeId_of_path_witness :
    (2 : Nat) < 2147483648 ∧
    ContextToNodeId ("/NodeList/" ++ Nat.repr 2 ++ "/DeviceList/" ++ Nat.repr 0 ++ "/"
      ++ "$ns3::WifiNetDevice/Mac/MacRx") = some 2 :=
  ⟨by decide, contextToNodeId_of_path 2 0 "$ns3::WifiNetDevice/Mac/MacRx" (by decide)⟩

/-! ## The event loop of the orchestrator -/

theorem simulate_stopped (d : Nat → Time) (f : Nat) (sim : Sim) (h : sim.stopped = true) :
    simulate d f sim = some sim := by
  cases f with
  | zero => rfl
  | succ f => simp [simulate, h]

theorem simulate_stop_head (d : Nat → Time) (f : Nat) (S : Time) (q : List (Time × Callback))
    (o : Orchestrator) (L : List LogEntry) :
    simulate d (f + 1) { queue := (S, Callback.Stop) :: q, stopped := false, o := o, log := L }
      = some { queue := q, stopped := true, o := o,
               log := L ++ [{ time := S, callback := Callback.Stop, station := o.m_currentSta,
                              connected := o.connected }] } := by
  simp only [simulate, runCallback, Bool.false_eq_true, if_false]
  exact simulate_stopped d f _ rfl

theorem scheduleAt_stop (a S : Time) (cb : Callback) :
    scheduleAt a cb [(S, Callback.Stop)]
      = if a < S then [(a, cb), (S, Callback.Stop)] else [(S, Callback.Stop), (a, cb)] := by
  simp only [scheduleAt]

theorem disconnect_connect (n : Nat) :
    disconnectAll (stopStreams n) (statStreams n) = [] := by
  simp only [disconnectAll, List.filter_eq_nil_iff]
  intro x hx
  simp only [stopStreams, decide_not, Bool.not_eq_true', decide_eq_false_iff_not, not_not]
  exact hx

theorem simulate_startTraffic (d : Nat → Time) (f : Nat) (t : Time)
    (q : List (Time × Callback)) (o : Orchestrator) (L : List LogEntry) :
    simulate d (f + 1)
        { queue := (t, Callback.StartTraffic) :: q, stopped := false, o := o, log := L }
      = simulate d f
        { queue := scheduleAt (t + o.m_warmup) Callback.StartStatistics q, stopped := false,
          o := o,
          log := L ++ [{ time := t, callback := Callback.StartTraffic,
                         station := o.m_currentSta, connected := o.connected }] } := by
  simp only [simulate, runCallback, StartTraffic, scheduleAll, List.foldl_cons,
    List.foldl_nil, Bool.false_eq_true, if_false]

theorem simulate_startStatistics (d : Nat → Time) (f : Nat) (t : Time)
    (q : List (Time × Callback)) (o : Orchestrator) (L : List LogEntry) :
    simulate d (f + 1)
        { queue := (t, Callback.StartStatistics) :: q, stopped := false, o := o, log := L }
      = simulate d f
        { queue := scheduleAt (t + o.m_simulationTime) Callback.StopStatistics q,
          stopped := false, o := (StartStatistics o).1,
          log := L ++ [{ time := t, callback := Callback.StartStatistics,
                         station := o.m_currentSta,
                         connected := (StartStatistics o).1.connected }] } := by
  simp only [simulate, runCallback, StartStatistics, scheduleAll, List.foldl_cons,
    List.foldl_nil, Bool.false_eq_true, if_false]

theorem simulate_stopStatistics (d : Nat → Time) (f : Nat) (t : Time)
    (q : List (Time × Callback)) (o : Orchestrator) (L : List LogEntry) :
    simulate d (f + 1)
        { queue := (t, Callback.StopStatistics) :: q, stopped := false, o := o, log := L }
      = simulate d f
        { queue := q, stopped := false, o := StopStatistics o,
          log := L ++ [{ time := t, callback := Callback.StopStatistics,
                         station := o.m_currentSta,
                         connected := (StopStatistics o).connected }] } := by
  simp only [simulate, runCallback, Bool.false_eq_true, if_false]

theorem simulate_statistics (d : Nat → Time) (n : Nat) (w sm S : Time) (k : Nat)
    (L : List LogEntry) (a : Time) :
    ∃ final, simulate d (4 + k)
        { queue := scheduleAt a Callback.StartTraffic [(S, Callback.Stop)], stopped := false,
          o := orchAt n w sm n, log := L } = some final ∧
      EndsWithStop n final L (statisticsLog n w sm a) S := by
  rw [scheduleAt_stop, show 4 + k = (k + 3) + 1 by omega, orchAt]
  by_cases h1 : a < S
  · rw [if_pos h1, simulate_startTraffic, scheduleAt_stop]
    by_cases h2 : a + w < S
    · rw [if_pos h2, simulate_startStatistics, scheduleAt_stop]
      by_cases h3 : a + w + sm < S
      · rw [if_pos h3, simulate_stopStatistics, simulate_stop_head]
        refine ⟨_, rfl, rfl, ⟨S, Callback.Stop, n, []⟩, rfl, rfl, ?_, ?_, ?_⟩
        · simp [StopStatistics, StartStatistics, disconnect_connect, connectAll]
        · simp [statisticsLog, List.takeWhile, h1, h2, h3, StopStatistics, StartStatistics,
            disconnect_connect, connectAll]
        · simp [statisticsLog, List.takeWhile, h1, h2, h3, gateHolds, gateAfter]
      · rw [if_neg h3, simulate_stop_head]
        refine ⟨_, rfl, rfl, ⟨S, Callback.Stop, n, statStreams n⟩, rfl, rfl, ?_, ?_, ?_⟩
        · simp [StartStatistics, connectAll]
        · simp [statisticsLog, List.takeWhile, h1, h2, h3, StartStatistics, connectAll]
        · simp [statisticsLog, List.takeWhile, h1, h2, h3, gateHolds, gateAfter]
    · rw [if_neg h2, simulate_stop_head]
      refine ⟨_, rfl, rfl, ⟨S, Callback.Stop, n, []⟩, rfl, rfl, rfl, ?_, ?_⟩
      · simp [statisticsLog, List.takeWhile, h1, h2, orchAt]
      · simp [statisticsLog, List.takeWhile, h1, h2, gateHolds, gateAfter]
  · rw [if_neg h1, simulate_stop_head]
    refine ⟨_, rfl, rfl, ⟨S, Callback.Stop, n, []⟩, rfl, rfl, rfl, ?_, ?_⟩
    · simp [statisticsLog, List.takeWhile, h1, orchAt]
    · simp [statisticsLog, List.takeWhile, h1, gateHolds, gateAfter]

theorem simulate_startAssociation (d : Nat → Time) (f : Nat) (t : Time)
    (q : List (Time × Callback)) (o : Orchestrator) (L : List LogEntry)
    (h : o.m_currentSta < o.m_nStations) :
    simulate d (f + 1)
        { queue := (t, Callback.StartAssociation) :: q, stopped := false, o := o, log := L }
      = simulate d f
        { queue := scheduleAt (t + d o.m_currentSta) Callback.EstablishBaAgreement q,
          stopped := false, o := o,
          log := L ++ [{ time := t, callback := Callback.StartAssociation,
                         station := o.m_currentSta, connected := o.connected }] } := by
  simp only [simulate, runCallback, StartAssociation, h, if_true, Bool.false_eq_true, if_false]

theorem simulate_establish (d : Nat → Time) (f : Nat) (t : Time)
    (q : List (Time × Callback)) (o : Orchestrator) (L : List LogEntry)
    (h : o.m_currentSta < o.m_nStations) :
    simulate d (f + 1)
        { queue := (t, Callback.EstablishBaAgreement) :: q, stopped := false, o := o, log := L }
      = simulate d f
        { queue := scheduleAt (t + MilliSeconds 125)
            (if o.m_currentSta + 1 < o.m_nStations then Callback.StartAssociation
             else Callback.StartTraffic)
            (scheduleAt (t + clientDelay t o.m_currentSta) (clientCallback o.m_currentSta) q),
          stopped := false, o := { o with m_currentSta := o.m_currentSta + 1 },
          log := L ++ [{ time := t, callback := Callback.EstablishBaAgreement,
                         station := o.m_currentSta, connected := o.connected }] } := by
  by_cases h1 : o.m_currentSta + 1 < o.m_nStations <;>
  simp only [simulate, runCallback, EstablishBaAgreement, h, h1, if_true, Bool.false_eq_true,
    if_false, scheduleAll, List.foldl_cons, List.foldl_nil]

theorem simulate_client (d : Nat → Time) (f : Nat) (t : Time) (i : Nat)
    (q : List (Time × Callback)) (o : Orchestrator) (L : List LogEntry) :
    simulate d (f + 1)
        { queue := (t, clientCallback i) :: q, stopped := false, o := o, log := L }
      = simulate d f
        { queue := q, stopped := false, o := o,
          log := L ++ [{ time := t, callback := clientCallback i,
                         station := o.m_currentSta, connected := o.connected }] } := by
  unfold clientCallback
  split <;> simp only [simulate, runCallback, Bool.false_eq_true, if_false]

theorem clientCallback_cases (i : Nat) :
    clientCallback i = Callback.StartOnOffClient ∨
    clientCallback i = Callback.StartBulkSendClient := by
  unfold clientCallback
  split
  · exact Or.inl rfl
  · exact Or.inr rfl

theorem clientDelay_pos (t : Time) (i : Nat) : 0 < clientDelay t i := by
  unfold clientDelay MilliSeconds
  simp only [Time] at *
  split <;> omega

theorem clientDelay_lt (t : Time) (i : Nat) : clientDelay t i < MilliSeconds 125 := by
  unfold clientDelay MilliSeconds
  simp only [Time] at *
  split <;> omega

theorem simulate_onboard (d : Nat → Time) (n : Nat) (w sm S : Time) (k : Nat) :
    ∀ (r i : Nat) (a : Time) (L : List LogEntry), i + r = n →
    ∃ final, simulate d (3 * r + 4 + k)
        { queue := scheduleAt a (phaseCallback r) [(S, Callback.Stop)], stopped := false,
          o := orchAt n w sm i, log := L } = some final ∧
      EndsWithStop n final L (onboardLog d n w sm r i a) S := by
  intro r
  induction r with
  | zero =>
    intro i a L hi
    have hin : i = n := by omega
    subst hin
    exact simulate_statistics d i w sm S k L a
  | succ r ih =>
    intro i a L hi
    have hlt : i < n := by omega
    rw [phaseCallback, if_neg (Nat.succ_ne_zero r), scheduleAt_stop,
      show 3 * (r + 1) + 4 + k = (3 * r + 4 + k + 2) + 1 by omega]
    by_cases h1 : a < S
    · rw [if_pos h1, simulate_startAssociation _ _ _ _ _ _ (by simpa [orchAt] using hlt),
        scheduleAt_stop]
      by_cases h2 : a + d i < S
      · have h2' : a + d (orchAt n w sm i).m_currentSta < S := h2
        rw [if_pos h2', simulate_establish _ _ _ _ _ _ (by simpa [orchAt] using hlt),
          scheduleAt_stop]
        have hcb : (if (orchAt n w sm i).m_currentSta + 1 < (orchAt n w sm i).m_nStations
            then Callback.StartAssociation else Callback.StartTraffic) = phaseCallback r := by
          unfold phaseCallback orchAt
          by_cases hr : r = 0
          · rw [if_pos hr, if_neg (by simp only []; omega)]
          · rw [if_neg hr, if_pos (by simp only []; omega)]
        have hc1 := clientDelay_pos (a + d i) i
        have hc2 := clientDelay_lt (a + d i) i
        rw [hcb]
        by_cases h3 : a + d i + clientDelay (a + d i) i < S
        · have h3' : a + d (orchAt n w sm i).m_currentSta
              + clientDelay (a + d (orchAt n w sm i).m_currentSta) (orchAt n w sm i).m_currentSta
              < S := h3
          have hq : scheduleAt (a + d i + MilliSeconds 125) (phaseCallback r)
              [(a + d i + clientDelay (a + d i) i, clientCallback i), (S, Callback.Stop)]
              = (a + d i + clientDelay (a + d i) i, clientCallback i) ::
                scheduleAt (a + d i + MilliSeconds 125) (phaseCallback r)
                  [(S, Callback.Stop)] := by
            have : ¬ a + d i + MilliSeconds 125 < a + d i + clientDelay (a + d i) i := by
              simp only [Time] at *
              omega
            simp only [scheduleAt, this, if_false]
          rw [if_pos h3']
          simp only [orchAt]
          rw [hq, simulate_client]
          obtain ⟨final, hf, hs, e, he1, he2, he3, he4, he5⟩ :=
            ih (i + 1) (a + d i + MilliSeconds 125)
              (L ++ [{ time := a, callback := Callback.StartAssociation, station := i,
                       connected := [] }]
                 ++ [{ time := a + d i, callback := Callback.EstablishBaAgreement, station := i,
                       connected := [] }]
                 ++ [{ time := a + d i + clientDelay (a + d i) i, callback := clientCallback i,
                       station := i + 1, connected := [] }]) (by omega)
          refine ⟨final, hf, hs, e, he1, he2, he3, ?_, ?_⟩
          · rw [he4]
            simp [onboardLog, List.takeWhile, h1, h2, h3]
          · rcases clientCallback_cases i with hc | hc <;>
            simpa [onboardLog, List.takeWhile, h1, h2, h3, gateHolds, gateAfter, hc] using he5
        · have h3' : ¬ a + d (orchAt n w sm i).m_currentSta
              + clientDelay (a + d (orchAt n w sm i).m_currentSta) (orchAt n w sm i).m_currentSta
              < S := h3
          have hq : scheduleAt (a + d i + MilliSeconds 125) (phaseCallback r)
              [(S, Callback.Stop), (a + d i + clientDelay (a + d i) i, clientCallback i)]
              = [(S, Callback.Stop), (a + d i + clientDelay (a + d i) i, clientCallback i),
                 (a + d i + MilliSeconds 125, phaseCallback r)] := by
            have h4 : ¬ a + d i + MilliSeconds 125 < a + d i + clientDelay (a + d i) i := by
              simp only [Time] at *
              omega
            have h5 : ¬ a + d i + MilliSeconds 125 < S := by
              simp only [Time] at *
              omega
            simp only [scheduleAt, h4, h5, if_false]
          rw [if_neg h3']
          simp only [orchAt]
          rw [hq, simulate_stop_head]
          refine ⟨_, rfl, rfl, ⟨S, Callback.Stop, i + 1, []⟩, rfl, rfl, rfl, ?_, ?_⟩
          · simp [onboardLog, List.takeWhile, h1, h2, h3]
          · simp [onboardLog, List.takeWhile, h1, h2, h3, gateHolds, gateAfter]
      · have h2' : ¬ a + d (orchAt n w sm i).m_currentSta < S := h2
        rw [if_neg h2', simulate_stop_head]
        refine ⟨_, rfl, rfl, ⟨S, Callback.Stop, i, []⟩, rfl, rfl, rfl, ?_, ?_⟩
        · simp [onboardLog, List.takeWhile, h1, h2, orchAt]
        · simp [onboardLog, List.takeWhile, h1, h2, gateHolds, gateAfter]
    · rw [if_neg h1, simulate_stop_head]
      refine ⟨_, rfl, rfl, ⟨S, Callback.Stop, i, []⟩, rfl, rfl, rfl, ?_, ?_⟩
      · simp [onboardLog, List.takeWhile, h1, orchAt]
      · simp [onboardLog, List.takeWhile, h1, gateHolds, gateAfter]

theorem Run_queue (o : Orchestrator) (h : 0 ≤ o.m_warmup + o.m_simulationTime) :
    (Run o).queue = scheduleAt 0 Callback.StartAssociation
      [(o.m_warmup + o.m_simulationTime + MilliSeconds 100000, Callback.Stop)] := by
  have h1 : ¬ (o.m_warmup + o.m_simulationTime + MilliSeconds 100000 < (0 : Time)) := by
    simp only [Time, MilliSeconds] at *
    omega
  have h2 : (0 : Time) < o.m_warmup + o.m_simulationTime + MilliSeconds 100000 := by
    simp only [Time, MilliSeconds] at *
    omega
  simp only [Run, scheduleAt, h1, h2, if_false, if_true, zero_add]

theorem simulate_Run (d : Nat → Time) (n : Nat) (w sm : Time) (k : Nat)
    (hn : 1 ≤ n) (hw : 0 ≤ w) (hsm : 0 ≤ sm) :
    ∃ final, simulate d (3 * n + 4 + k) (Run (orchAt n w sm 0)) = some final ∧
      EndsWithStop n final [] (expectedLog d n w sm) (w + sm + MilliSeconds 100000) := by
  have hq := Run_queue (orchAt n w sm 0) (by
    simp only [orchAt, Time] at *
    omega)
  have hrun : Run (orchAt n w sm 0)
      = { queue := scheduleAt 0 (phaseCallback n)
            [(w + sm + MilliSeconds 100000, Callback.Stop)],
          stopped := false, o := orchAt n w sm 0, log := [] } := by
    have hp : phaseCallback n = Callback.StartAssociation := by
      unfold phaseCallback
      rw [if_neg (by omega)]
    rw [hp]
    show ({ queue := (Run (orchAt n w sm 0)).queue, stopped := false, o := orchAt n w sm 0,
            log := [] } : Sim) = _
    rw [hq]
    rfl
  rw [hrun]
  exact simulate_onboard d n w sm (w + sm + MilliSeconds 100000) k n 0 0 [] (by omega)

/-! ## Validation, onboarding order and the statistics gate -/

theorem mem_onboardLog_assoc (d : Nat → Time) (n : Nat) (w sm : Time) :
    ∀ (r i : Nat) (a : Time) (e : LogEntry), e ∈ onboardLog d n w sm r i a →
      e.callback = Callback.StartAssociation → i + r = n → e.station < n := by
  intro r
  induction r with
  | zero =>
    intro i a e he hc _
    simp only [onboardLog, statisticsLog, List.mem_cons, List.mem_singleton,
      List.not_mem_nil, or_false] at he
    rcases he with h | h | h <;> subst h <;> simp at hc
  | succ r ih =>
    intro i a e he hc hi
    simp only [onboardLog, List.mem_cons] at he
    rcases he with h | h | h | h
    · subst h; simp only []; omega
    · subst h; simp at hc
    · subst h
      rcases clientCallback_cases i with h' | h' <;> simp [h'] at hc
    · exact ih (i + 1) _ e h hc (by omega)

theorem mem_onboardLog_times (d : Nat → Time) (n : Nat) (w sm : Time) :
    ∀ (r i : Nat) (a : Time) (e : LogEntry), e ∈ onboardLog d n w sm r i a →
      (e.callback = Callback.StartTraffic → e.time = trafficTime d r i a) ∧
      (e.callback = Callback.StartStatistics → e.time = trafficTime d r i a + w) ∧
      (e.callback = Callback.StopStatistics → e.time = trafficTime d r i a + w + sm) := by
  intro r
  induction r with
  | zero =>
    intro i a e he
    simp only [onboardLog, statisticsLog, List.mem_cons, List.mem_singleton,
      List.not_mem_nil, or_false] at he
    rcases he with h | h | h <;> subst h <;> simp [trafficTime]
  | succ r ih =>
    intro i a e he
    simp only [onboardLog, List.mem_cons] at he
    rcases he with h | h | h | h
    · subst h; simp
    · subst h; simp
    · subst h
      rcases clientCallback_cases i with h' | h' <;> simp [h']
    · exact ih (i + 1) _ e h

theorem onboardLog_established (d : Nat → Time) (n : Nat) (w sm : Time)
    (p : LogEntry → Bool) :
    ∀ (r i : Nat) (a : Time), ∃ m, m ≤ r ∧
      (((onboardLog d n w sm r i a).takeWhile p).filter
          (fun e => decide (e.callback = Callback.EstablishBaAgreement))).map LogEntry.station
        = List.range' i m ∧
      ((∃ e ∈ (onboardLog d n w sm r i a).takeWhile p, e.callback = Callback.StartTraffic) →
        m = r) ∧
      (((onboardLog d n w sm r i a).takeWhile p).filter
          (fun e => decide (e.callback = Callback.StartTraffic))).length ≤ 1 := by
  intro r
  induction r with
  | zero =>
    intro i a
    refine ⟨0, le_refl _, ?_, fun _ => rfl, ?_⟩
    · simp only [onboardLog, statisticsLog, List.takeWhile]
      split
      · split
        · split <;> simp
        · simp
      · simp
    · simp only [onboardLog, statisticsLog, List.takeWhile]
      split
      · split
        · split <;> simp
        · simp
      · simp
  | succ r ih =>
    intro i a
    obtain ⟨m, hm, h1, h2, h3⟩ := ih (i + 1) (a + d i + MilliSeconds 125)
    have hcl : clientCallback i ≠ Callback.EstablishBaAgreement ∧
        clientCallback i ≠ Callback.StartTraffic := by
      rcases clientCallback_cases i with h' | h' <;> simp [h']
    by_cases hp1 : p { time := a, callback := Callback.StartAssociation, station := i,
                       connected := [] } = true
    · by_cases hp2 : p { time := a + d i, callback := Callback.EstablishBaAgreement,
                         station := i, connected := [] } = true
      · by_cases hp3 : p { time := a + d i + clientDelay (a + d i) i,
                           callback := clientCallback i, station := i + 1,
                           connected := [] } = true
        · refine ⟨m + 1, by omega, ?_, ?_, ?_⟩
          · simp only [onboardLog, List.takeWhile, hp1, hp2, hp3]
            simp only [List.filter_cons, hcl.1, decide_True, decide_False, if_true,
              Bool.false_eq_true, if_false, List.map_cons, reduceCtorEq, List.range'_succ]
            rw [h1]
          · rintro ⟨e, he, hc⟩
            simp only [onboardLog, List.takeWhile, hp1, hp2, hp3, List.mem_cons] at he
            rcases he with h | h | h | h
            · subst h; simp at hc
            · subst h; simp at hc
            · subst h; exact absurd hc hcl.2
            · rw [h2 ⟨e, h, hc⟩]
          · simp only [onboardLog, List.takeWhile, hp1, hp2, hp3]
            simp only [List.filter_cons, hcl.2, decide_True, decide_False, if_true,
              Bool.false_eq_true, if_false, reduceCtorEq]
            exact h3
        · refine ⟨1, by omega, ?_, ?_, ?_⟩
          · simp [onboardLog, List.takeWhile, hp1, hp2, hp3]
          · rintro ⟨e, he, hc⟩
            simp only [onboardLog, List.takeWhile, hp1, hp2, hp3, List.mem_cons,
              List.not_mem_nil, or_false] at he
            rcases he with h | h <;> subst h <;> simp at hc
          · simp [onboardLog, List.takeWhile, hp1, hp2, hp3]
      · refine ⟨0, by omega, ?_, ?_, ?_⟩
        · simp [onboardLog, List.takeWhile, hp1, hp2]
        · rintro ⟨e, he, hc⟩
          simp only [onboardLog, List.takeWhile, hp1, hp2, List.mem_cons,
            List.not_mem_nil, or_false] at he
          subst he
          simp at hc
        · simp [onboardLog, List.takeWhile, hp1, hp2]
    · refine ⟨0, by omega, ?_, ?_, ?_⟩
      · simp [onboardLog, List.takeWhile, hp1]
      · rintro ⟨e, he, hc⟩
        simp [onboardLog, List.takeWhile, hp1] at he
      · simp [onboardLog, List.takeWhile, hp1]

theorem trafficTime_ge (d : Nat → Time) (hd : ∀ j, 0 ≤ d j) :
    ∀ (r i : Nat) (a : Time), a ≤ trafficTime d r i a := by
  intro r
  induction r with
  | zero => intro i a; exact le_refl _
  | succ r ih =>
    intro i a
    have h1 := ih (i + 1) (a + d i + MilliSeconds 125)
    have h2 := hd i
    simp only [trafficTime]
    simp only [Time, MilliSeconds] at *
    omega

theorem mem_onboardLog_le (d : Nat → Time) (n : Nat) (w sm : Time)
    (hd : ∀ j, 0 ≤ d j) (hw : 0 ≤ w) (hsm : 0 ≤ sm) :
    ∀ (r i : Nat) (a : Time) (e : LogEntry), e ∈ onboardLog d n w sm r i a →
      e.time ≤ trafficTime d r i a + w + sm := by
  intro r
  induction r with
  | zero =>
    intro i a e he
    simp only [onboardLog, statisticsLog, List.mem_cons, List.mem_singleton,
      List.not_mem_nil, or_false] at he
    rcases he with h | h | h <;> subst h <;> simp only [trafficTime] <;>
      simp only [Time] at * <;> omega
  | succ r ih =>
    intro i a e he
    have h1 := trafficTime_ge d hd r (i + 1) (a + d i + MilliSeconds 125)
    have h2 := hd i
    have h3 := clientDelay_lt (a + d i) i
    simp only [onboardLog, List.mem_cons] at he
    rcases he with h | h | h | h
    · subst h
      simp only [trafficTime]
      simp only [Time, MilliSeconds] at *
      omega
    · subst h
      simp only [trafficTime]
      simp only [Time, MilliSeconds] at *
      omega
    · subst h
      simp only [trafficTime]
      generalize clientDelay (a + d i) i = c at *
      simp only [Time, MilliSeconds] at *
      omega
    · exact ih (i + 1) _ e h

theorem statisticsLog_subset (d : Nat → Time) (n : Nat) (w sm : Time) :
    ∀ (r i : Nat) (a : Time) (e : LogEntry),
      e ∈ statisticsLog n w sm (trafficTime d r i a) → e ∈ onboardLog d n w sm r i a := by
  intro r
  induction r with
  | zero => intro i a e he; exact he
  | succ r ih =>
    intro i a e he
    simp only [onboardLog, List.mem_cons]
    exact Or.inr (Or.inr (Or.inr (ih (i + 1) _ e he)))

theorem gateHolds_split (n : Nat) :
    ∀ (pre : List LogEntry) (b : Bool) (e : LogEntry) (post : List LogEntry),
      gateHolds n b (pre ++ e :: post) = true →
      e.connected = if (pre ++ [e]).foldl (fun b x => gateAfter b x.callback) b = true
        then statStreams n else [] := by
  intro pre
  induction pre with
  | nil =>
    intro b e post h
    simp only [List.nil_append, gateHolds, Bool.and_eq_true, decide_eq_true_eq] at h
    simpa using h.1
  | cons x pre ih =>
    intro b e post h
    simp only [List.cons_append, gateHolds, Bool.and_eq_true, decide_eq_true_eq] at h
    simpa using ih _ e post h.2

theorem deliver_not_connected (env : Env) (connected : List Stream) (te : TraceEvent)
    (s : State) (h : te.stream ∉ connected) : deliver env connected te s = some s := by
  unfold deliver
  rw [List.count_eq_zero_of_not_mem h]
  rfl

theorem statStreams_nodup (n : Nat) : (statStreams n).Nodup := by
  unfold statStreams staStreams
  have h : ((List.range n).map Stream.ForwardDownSta).Nodup :=
    (List.nodup_range n).map (fun i j hij => by injection hij)
  simp [List.nodup_append, List.nodup_cons, h]

theorem deliver_connected (env : Env) (n : Nat) (te : TraceEvent) (s : State)
    (h : te.stream ∈ statStreams n) :
    deliver env (statStreams n) te s = handle env te.event s := by
  unfold deliver
  rw [List.count_eq_one_of_mem (statStreams_nodup n) h]
  simp only [List.replicate, runEvents]
  cases handle env te.event s <;> rfl

theorem startTraffic_mem (d : Nat → Time) (n : Nat) (w sm S : Time)
    (hd : ∀ j, 0 ≤ d j) :
    ∀ (r i : Nat) (a : Time), trafficTime d r i a < S →
      ({ time := trafficTime d r i a, callback := Callback.StartTraffic, station := n,
         connected := [] } : LogEntry)
        ∈ (onboardLog d n w sm r i a).takeWhile (fun e => decide (e.time < S)) := by
  intro r
  induction r with
  | zero =>
    intro i a h
    simp only [trafficTime] at h
    simp [onboardLog, statisticsLog, List.takeWhile, h, trafficTime]
  | succ r ih =>
    intro i a h
    simp only [trafficTime] at h
    have h0 := trafficTime_ge d hd r (i + 1) (a + d i + MilliSeconds 125)
    have h2 := hd i
    have h3 := clientDelay_lt (a + d i) i
    have h4 := clientDelay_pos (a + d i) i
    have p1 : a < S := by
      simp only [Time, MilliSeconds] at *
      omega
    have p2 : a + d i < S := by
      simp only [Time, MilliSeconds] at *
      omega
    have p3 : a + d i + clientDelay (a + d i) i < S := by
      generalize clientDelay (a + d i) i = c at *
      simp only [Time, MilliSeconds] at *
      omega
    simp only [onboardLog, List.takeWhile, p1, p2, p3, decide_True, trafficTime,
      List.mem_cons]
    exact Or.inr (Or.inr (Or.inr (ih (i + 1) _ h)))

theorem windowOpen_onboardLog (d : Nat → Time) (n : Nat) (w sm : Time) :
    ∀ (r i : Nat) (a : Time) (b : Bool),
      (onboardLog d n w sm r i a).foldl (fun b x => gateAfter b x.callback) b = false := by
  intro r
  induction r with
  | zero =>
    intro i a b
    simp [onboardLog, statisticsLog, gateAfter]
  | succ r ih =>
    intro i a b
    simp only [onboardLog, List.foldl_cons]
    rcases clientCallback_cases i with h | h <;> simp only [h, gateAfter] <;> exact ih _ _ _

theorem scheduleAt_perm (t : Time) (cb : Callback) :
    ∀ q : List (Time × Callback), (scheduleAt t cb q).Perm ((t, cb) :: q) := by
  intro q
  induction q with
  | nil => exact List.Perm.refl _
  | cons x q ih =>
    obtain ⟨t1, cb1⟩ := x
    simp only [scheduleAt]
    split
    · exact List.Perm.refl _
    · exact (List.Perm.cons _ ih).trans (List.Perm.swap _ _ _)

theorem count_scheduleAt (t : Time) (cb c : Callback) (q : List (Time × Callback)) :
    ((scheduleAt t cb q).map Prod.snd).count c
      = (q.map Prod.snd).count c + if cb = c then 1 else 0 := by
  rw [((scheduleAt_perm t cb q).map Prod.snd).count_eq]
  simp only [List.map_cons, List.count_cons]
  by_cases h : cb = c <;> simp [h]

theorem establish_some (now : Time) (o : Orchestrator)
    (r : Orchestrator × List (Time × Callback)) (h : EstablishBaAgreement now o = some r) :
    o.m_currentSta < o.m_nStations ∧
    r = ({ o with m_currentSta := o.m_currentSta + 1 },
         [(clientDelay now o.m_currentSta, clientCallback o.m_currentSta),
          (MilliSeconds 125,
           if o.m_currentSta + 1 < o.m_nStations then Callback.StartAssociation
           else Callback.StartTraffic)]) := by
  unfold EstablishBaAgreement at h
  by_cases h0 : o.m_currentSta < o.m_nStations
  · refine ⟨h0, ?_⟩
    by_cases h1 : o.m_currentSta + 1 < o.m_nStations <;> simp [h0, h1] at h <;> simp [h1, ← h]
  · simp [h0] at h

theorem simulate_scheduled (d : Nat → Time) (n : Nat) :
    ∀ (fuel : Nat) (sim final : Sim), sim.o.m_nStations = n →
      simulate d fuel sim = some final →
      (scheduledEvents sim).count Callback.StartTraffic = lastEstablished n sim.log →
      (scheduledEvents final).count Callback.StartTraffic = lastEstablished n final.log := by
  intro fuel
  induction fuel with
  | zero =>
    intro sim final _ h hinv
    simp only [simulate, Option.some.injEq] at h
    subst h
    exact hinv
  | succ fuel ih =>
    intro sim final hn h hinv
    rw [simulate] at h
    by_cases hs : sim.stopped = true
    · rw [if_pos hs, Option.some.injEq] at h
      subst h
      exact hinv
    · rw [if_neg hs] at h
      cases hq : sim.queue with
      | nil =>
        rw [hq] at h
        simp only [Option.some.injEq] at h
        subst h
        exact hinv
      | cons x q =>
        obtain ⟨t, cb⟩ := x
        rw [hq] at h
        simp only [] at h
        cases hr : runCallback d t cb { sim with queue := q } with
        | none => rw [hr] at h; cases h
        | some sim1 =>
          rw [hr] at h
          simp only [] at h
          simp only [scheduledEvents, hq, List.map_cons, List.count_append,
            List.count_cons] at hinv
          refine ih _ final ?_ h ?_
          · cases cb <;> simp only [runCallback] at hr
            · cases ha : StartAssociation sim.o with
              | none => rw [ha] at hr; cases hr
              | some i =>
                rw [ha] at hr
                simp only [Option.some.injEq] at hr
                subst hr
                exact hn
            · cases he : EstablishBaAgreement t sim.o with
              | none => rw [he] at hr; cases hr
              | some r =>
                rw [he] at hr
                simp only [Option.some.injEq] at hr
                subst hr
                rw [(establish_some _ _ _ he).2]
                exact hn
            all_goals
              simp only [Option.some.injEq] at hr
              subst hr
              exact hn
          · cases cb <;> simp only [runCallback] at hr
            · cases ha : StartAssociation sim.o with
              | none => rw [ha] at hr; cases hr
              | some i =>
                rw [ha] at hr
                simp only [Option.some.injEq] at hr
                subst hr
                simp only [scheduledEvents, lastEstablished, List.map_append, List.map_cons,
                  List.map_nil, List.count_append, List.count_cons, List.count_nil,
                  count_scheduleAt, List.filter_append, List.length_append] at hinv ⊢
                simp at hinv ⊢
                omega
            · cases he : EstablishBaAgreement t sim.o with
              | none => rw [he] at hr; cases hr
              | some r =>
                rw [he] at hr
                simp only [Option.some.injEq] at hr
                subst hr
                obtain ⟨hlt, hre⟩ := establish_some _ _ _ he
                rw [hre]
                simp only [scheduledEvents, lastEstablished, List.map_append, List.map_cons,
                  List.map_nil, List.count_append, List.count_cons, List.count_nil,
                  scheduleAll, List.foldl_cons, List.foldl_nil,
                  count_scheduleAt, List.filter_append, List.length_append] at hinv ⊢
                by_cases hlt2 : sim.o.m_currentSta + 1 < sim.o.m_nStations
                · have hne : sim.o.m_currentSta + 1 ≠ n := by omega
                  rcases clientCallback_cases sim.o.m_currentSta with hc | hc <;>
                    simp [hc, hne, hlt2] at hinv ⊢ <;> omega
                · have hne : sim.o.m_currentSta + 1 = n := by omega
                  rcases clientCallback_cases sim.o.m_currentSta with hc | hc <;>
                    simp [hc, hne, hlt2] at hinv ⊢ <;> split <;> omega
            all_goals
              simp only [Option.some.injEq] at hr
              subst hr
              simp only [scheduledEvents, lastEstablished, List.map_append, List.map_cons,
                List.map_nil, List.count_append, List.count_cons, List.count_nil,
                scheduleAll, StartTraffic, StartStatistics, StopStatistics,
                List.foldl_cons, List.foldl_nil,
                count_scheduleAt, List.filter_append, List.length_append] at hinv ⊢
              simp at hinv ⊢
              omega

theorem scheduled_Run (n : Nat) (o : Orchestrator) :
    (scheduledEvents (Run o)).count Callback.StartTraffic = lastEstablished n (Run o).log := by
  simp only [scheduledEvents, Run, lastEstablished, List.map_nil, List.nil_append,
    count_scheduleAt, List.filter_nil, List.length_nil]
  simp [scheduleAt]

theorem countP_range_last (n : Nat) (hn : 1 ≤ n) :
    ∀ m : Nat, m ≤ n →
      ((List.range m).filter (fun x => decide (x + 1 = n))).length = if m = n then 1 else 0 := by
  intro m
  induction m with
  | zero =>
    intro _
    rw [if_neg (by omega)]
    rfl
  | succ m ih =>
    intro hm
    rw [List.range_succ, List.filter_append, List.length_append, ih (by omega),
      if_neg (by omega)]
    by_cases h : m + 1 = n
    · simp [h]
    · simp [h]

theorem lastEstablished_eq (n m : Nat) (hn : 1 ≤ n) (hm : m ≤ n) (log : List LogEntry)
    (h : (log.filter (fun e => decide (e.callback = Callback.EstablishBaAgreement))).map
      LogEntry.station = List.range m) :
    lastEstablished n log = if m = n then 1 else 0 := by
  rw [← countP_range_last n hn m hm, ← h]
  unfold lastEstablished
  rw [List.filter_map, List.length_map, List.filter_filter]
  congr 1
  apply List.filter_congr
  intro x _
  simp only [Function.comp, Bool.decide_and, Bool.and_comm]

theorem mem_onboardLog_establish (d : Nat → Time) (n : Nat) (w sm : Time) :
    ∀ (r i : Nat) (a : Time) (e : LogEntry), e ∈ onboardLog d n w sm r i a →
      e.callback = Callback.EstablishBaAgreement →
      i ≤ e.station ∧ e.station < i + r ∧
      e.time + MilliSeconds 125 = trafficTime d (e.station + 1 - i) i a := by
  intro r
  induction r with
  | zero =>
    intro i a e he hc
    simp only [onboardLog, statisticsLog, List.mem_cons, List.mem_singleton,
      List.not_mem_nil, or_false] at he
    rcases he with h | h | h <;> subst h <;> simp at hc
  | succ r ih =>
    intro i a e he hc
    simp only [onboardLog, List.mem_cons] at he
    rcases he with h | h | h | h
    · subst h; simp at hc
    · subst h
      refine ⟨le_refl _, by simp only []; omega, ?_⟩
      simp only [show i + 1 - i = 1 by omega, trafficTime]
    · subst h
      rcases clientCallback_cases i with h' | h' <;> simp [h'] at hc
    · obtain ⟨h1, h2, h3⟩ := ih (i + 1) _ e h hc
      refine ⟨by omega, by omega, ?_⟩
      rw [h3, show e.station + 1 - i = (e.station + 1 - (i + 1)) + 1 by omega, trafficTime]

theorem establish_mem (d : Nat → Time) (n : Nat) (w sm S : Time) (hd : ∀ j, 0 ≤ d j) :
    ∀ (r i : Nat) (a : Time), trafficTime d (r + 1) i a - MilliSeconds 125 < S →
      ({ time := trafficTime d (r + 1) i a - MilliSeconds 125,
         callback := Callback.EstablishBaAgreement, station := i + r,
         connected := [] } : LogEntry)
        ∈ (onboardLog d n w sm (r + 1) i a).takeWhile (fun e => decide (e.time < S)) := by
  intro r
  induction r with
  | zero =>
    intro i a h
    simp only [trafficTime] at h
    have h2 := hd i
    have p1 : a < S := by
      simp only [Time, MilliSeconds] at *
      omega
    have p2 : a + d i < S := by
      simp only [Time, MilliSeconds] at *
      omega
    have e1 : a + d i + MilliSeconds 125 - MilliSeconds 125 = a + d i := by
      simp only [Time, MilliSeconds] at *
      omega
    simp only [onboardLog, List.takeWhile, p1, p2, decide_True, trafficTime, List.mem_cons, e1,
      Nat.add_zero]
    exact Or.inr (Or.inl trivial)
  | succ r ih =>
    intro i a h
    rw [trafficTime] at h
    have h0 := trafficTime_ge d hd (r + 1) (i + 1) (a + d i + MilliSeconds 125)
    have h5 : a + d i + MilliSeconds 125 + d (i + 1) + MilliSeconds 125
        ≤ trafficTime d (r + 1) (i + 1) (a + d i + MilliSeconds 125) := by
      rw [trafficTime]
      exact trafficTime_ge d hd r (i + 1 + 1) _
    have h2 := hd i
    have h6 := hd (i + 1)
    have h3 := clientDelay_lt (a + d i) i
    have h4 := clientDelay_pos (a + d i) i
    have p1 : a < S := by
      simp only [Time, MilliSeconds] at *
      omega
    have p2 : a + d i < S := by
      simp only [Time, MilliSeconds] at *
      omega
    have p3 : a + d i + clientDelay (a + d i) i < S := by
      generalize clientDelay (a + d i) i = c at *
      simp only [Time, MilliSeconds] at *
      omega
    have := ih (i + 1) _ h
    rw [onboardLog]
    simp only [List.takeWhile, p1, p2, p3, decide_True, List.mem_cons]
    rw [trafficTime, show i + (r + 1) = i + 1 + r by omega]
    exact Or.inr (Or.inr (Or.inr this))

/-- Claim C14.  With n >= 1 stations, EstablishBaAgreement for station i < n
increments m_currentSta and schedules, 125 ms later, StartAssociation when
another station remains and StartTraffic when none does.  The run from Run
ends with the stop event and never fails the assertion of StartAssociation;
its log is the expected sequence (per station StartAssociation,
EstablishBaAgreement and the client start, the next station 125 ms after
EstablishBaAgreement, StartTraffic after the last) up to the stop time.  In
the log every StartAssociation is for a station below n and the calls of
EstablishBaAgreement are for the stations 0, 1, ..., m-1 in this order, with
m <= n.  StartTraffic is scheduled once when m = n and never when m < n;
m = n holds only if the last EstablishBaAgreement is due before the stop
event, and for association delays that are not negative it holds whenever it
is.  StartTraffic runs at most once, only when m = n and it is due before the
stop event; for association delays that are not negative it runs whenever it
is due before the stop event. -/
theorem onboarding_sequential (d : Nat → Time) (n : Nat) (w sm : Time) (k : Nat)
    (hn : 1 ≤ n) (hw : 0 ≤ w) (hsm : 0 ≤ sm) :
    (∀ (now : Time) (o : Orchestrator), o.m_currentSta < o.m_nStations →
      EstablishBaAgreement now o
        = some ({ o with m_currentSta := o.m_currentSta + 1 },
                [(clientDelay now o.m_currentSta, clientCallback o.m_currentSta),
                 (MilliSeconds 125,
                  if o.m_currentSta + 1 < o.m_nStations then Callback.StartAssociation
                  else Callback.StartTraffic)])) ∧
    (∀ o : Orchestrator, StartAssociation o = none ↔ o.m_nStations ≤ o.m_currentSta) ∧
    ∃ (final : Sim) (stopEntry : LogEntry) (m : Nat),
      simulate d (3 * n + 4 + k) (Run (orchAt n w sm 0)) = some final ∧
      final.stopped = true ∧
      stopEntry.callback = Callback.Stop ∧
      final.log = (expectedLog d n w sm).takeWhile
          (fun e => decide (e.time < w + sm + MilliSeconds 100000)) ++ [stopEntry] ∧
      (∀ e ∈ final.log, e.callback = Callback.StartAssociation → e.station < n) ∧
      (final.log.filter
          (fun e => decide (e.callback = Callback.EstablishBaAgreement))).map
          LogEntry.station = List.range m ∧
      m ≤ n ∧
      (scheduledEvents final).count Callback.StartTraffic = (if m = n then 1 else 0) ∧
      (m = n → trafficTime d n 0 0 - MilliSeconds 125 < w + sm + MilliSeconds 100000) ∧
      ((∀ j, 0 ≤ d j) →
        trafficTime d n 0 0 - MilliSeconds 125 < w + sm + MilliSeconds 100000 → m = n) ∧
      (final.log.filter (fun e => decide (e.callback = Callback.StartTraffic))).length ≤ 1 ∧
      ((∃ e ∈ final.log, e.callback = Callback.StartTraffic) →
        m = n ∧ trafficTime d n 0 0 < w + sm + MilliSeconds 100000) ∧
      ((∀ j, 0 ≤ d j) → trafficTime d n 0 0 < w + sm + MilliSeconds 100000 →
        ∃ e ∈ final.log, e.callback = Callback.StartTraffic ∧
          e.time = trafficTime d n 0 0) := by
  refine ⟨?_, ?_, ?_⟩
  · intro now o h
    unfold EstablishBaAgreement
    by_cases h1 : o.m_currentSta + 1 < o.m_nStations <;> simp [h, h1]
  · intro o
    unfold StartAssociation
    by_cases h : o.m_currentSta < o.m_nStations
    · simp [h]
    · simp only [h, if_false, true_iff]
      omega
  · obtain ⟨final, hf, hs, e, he1, _, _, he4, _⟩ := simulate_Run d n w sm k hn hw hsm
    obtain ⟨m, hm, h1, h2, h3⟩ := onboardLog_established d n w sm
      (fun e => decide (e.time < w + sm + MilliSeconds 100000)) n 0 0
    rw [List.nil_append] at he4
    have hmap : (final.log.filter
        (fun e => decide (e.callback = Callback.EstablishBaAgreement))).map
        LogEntry.station = List.range m := by
      rw [he4, List.filter_append, List.map_append, List.range_eq_range', ← h1]
      simp [expectedLog, he1]
    have hmem : ∀ x ∈ final.log, x.callback ≠ Callback.Stop →
        x ∈ onboardLog d n w sm n 0 0 ∧ x.time < w + sm + MilliSeconds 100000 := by
      intro x hx hc
      rw [he4, List.mem_append, List.mem_singleton] at hx
      rcases hx with hx | hx
      · refine ⟨(List.takeWhile_sublist _).subset hx, ?_⟩
        simpa using List.mem_takeWhile_imp hx
      · subst hx
        exact absurd he1 hc
    refine ⟨final, e, m, hf, hs, he1, he4, ?_, hmap, hm, ?_, ?_, ?_, ?_, ?_, ?_⟩
    · intro x hx hc
      exact mem_onboardLog_assoc d n w sm n 0 0 x (hmem x hx (by rw [hc]; nofun)).1 hc
        (by omega)
    · rw [simulate_scheduled d n _ _ final rfl hf (scheduled_Run n _)]
      exact lastEstablished_eq n m hn hm final.log hmap
    · intro hmn
      have h0 : n - 1 ∈ List.range m := by
        rw [List.mem_range]
        omega
      rw [← hmap, List.mem_map] at h0
      obtain ⟨x, hx, hst⟩ := h0
      rw [List.mem_filter, decide_eq_true_eq] at hx
      obtain ⟨hx1, hx2⟩ := hmem x hx.1 (by rw [hx.2]; nofun)
      obtain ⟨-, -, ht⟩ := mem_onboardLog_establish d n w sm n 0 0 x hx1 hx.2
      rw [hst, show n - 1 + 1 - 0 = n by omega] at ht
      rw [← ht]
      simp only [Time, MilliSeconds] at *
      omega
    · intro hd hT
      have hmem2 := establish_mem d n w sm (w + sm + MilliSeconds 100000) hd (n - 1) 0 0
        (by rw [show n - 1 + 1 = n by omega]; exact hT)
      rw [show n - 1 + 1 = n by omega] at hmem2
      have h0 : n - 1 ∈ List.range m := by
        rw [← hmap, List.mem_map]
        exact ⟨_, List.mem_filter.mpr
          ⟨by rw [he4, List.mem_append]; exact Or.inl hmem2, by simp⟩, by simp⟩
      rw [List.mem_range] at h0
      omega
    · rw [he4, List.filter_append, List.length_append]
      simpa [expectedLog, he1] using h3
    · rintro ⟨x, hx, hc⟩
      obtain ⟨hx1, hx2⟩ := hmem x hx (by rw [hc]; nofun)
      have hx3 : x ∈ (expectedLog d n w sm).takeWhile
          (fun e => decide (e.time < w + sm + MilliSeconds 100000)) := by
        rw [he4, List.mem_append, List.mem_singleton] at hx
        rcases hx with hx | hx
        · exact hx
        · subst hx
          rw [he1] at hc
          cases hc
      refine ⟨h2 ⟨x, hx3, hc⟩, ?_⟩
      rw [← (mem_onboardLog_times d n w sm n 0 0 x hx1).1 hc]
      exact hx2
    · intro hd hT
      refine ⟨{ time := trafficTime d n 0 0, callback := Callback.StartTraffic, station := n,
                connected := [] }, ?_, rfl, rfl⟩
      rw [he4, List.mem_append]
      exact Or.inl (startTraffic_mem d n w sm _ hd n 0 0 hT)

theorem onboarding_sequential_witness :
    (1 ≤ 2 ∧ (0 : Time) ≤ 1000000000 ∧ (0 : Time) ≤ 2000000000) ∧
    ∃ final : Sim,
      simulate exDelay (3 * 2 + 4 + 0) (Run (orchAt 2 1000000000 2000000000 0)) = some final ∧
      final.stopped = true ∧
      (∀ e ∈ final.log, e.callback = Callback.StartAssociation → e.station < 2) ∧
      (scheduledEvents final).count Callback.StartTraffic = 1 ∧
      (final.log.filter (fun e => decide (e.callback = Callback.StartTraffic))).length ≤ 1 :=
  ⟨⟨by decide, by decide, by decide⟩,
   match (onboarding_sequential exDelay 2 1000000000 2000000000 0
      (by decide) (by decide) (by decide)).2.2 with
   | ⟨final, _, _, h1, h2, _, _, h3, _, _, hs, _, hm, h4, _, _⟩ =>
     ⟨final, h1, h2, h3,
      by rw [hs, if_pos (hm (fun _ => by simp [exDelay]) (by simp [trafficTime, exDelay, MilliSeconds]))],
      h4⟩⟩

/-- Claim C14, the single scheduling of StartTraffic refuted on a run of the
example orchestrator (two stations, warmup 1 s, simulation time 2 s) in which
every association takes 60 s.  The stop event of Run is due at 103 s.  Station
0 is established at 60 s and station 1 starts to associate 125 ms later; the
stop event runs before EstablishBaAgreement for station 1, which is still
pending at 120.125 s when the run ends.  StartTraffic is neither run nor
pending: it was never scheduled. -/
theorem onboarding_stopped_before_traffic :
    (simulate exSlowDelay (3 * 2 + 4 + 0) (Run exOrch)).map
        (fun final => (final.stopped, final.log.map (fun e => (e.time, e.callback, e.station)),
          final.queue))
      = some (true,
          [(0, Callback.StartAssociation, 0),
           (60000000000, Callback.EstablishBaAgreement, 0),
           (60047000000, Callback.StartBulkSendClient, 1),
           (60125000000, Callback.StartAssociation, 1),
           (103000000000, Callback.Stop, 1)],
          [(120125000000, Callback.EstablishBaAgreement)]) ∧
    (simulate exSlowDelay (3 * 2 + 4 + 0) (Run exOrch)).map
        (fun final => (scheduledEvents final).count Callback.StartTraffic) = some 0 ∧
    ¬ (∃ final, simulate exSlowDelay (3 * 2 + 4 + 0) (Run exOrch) = some final ∧
        (scheduledEvents final).count Callback.StartTraffic = 1) := by
  have h2 : (simulate exSlowDelay (3 * 2 + 4 + 0) (Run exOrch)).map
      (fun final => (scheduledEvents final).count Callback.StartTraffic) = some 0 := by
    with_unfolding_all rfl
  refine ⟨by with_unfolding_all rfl, h2, ?_⟩
  rintro ⟨final, hf, hc⟩
  rw [hf, Option.map_some', hc] at h2
  cases h2

/-- Claim C15.  StartTraffic schedules StartStatistics with delay m_warmup and
StartStatistics schedules StopStatistics with delay m_simulationTime; the trace
sources that StartStatistics connects (TxopTrace, Expired, Dequeue, ForwardDown
of the AP, TxErrHeader, ForwardDown of every station, MacTx and MacRx) are the
ones that StopStatistics disconnects, and none of them stays connected after
StopStatistics.  An event of a source that is not connected leaves the
statistics unchanged, and an event of a connected source runs its handler
once.  In the run from Run, StartStatistics runs m_warmup after StartTraffic
and StopStatistics m_simulationTime after StartStatistics; after every event
of the log all the sources are connected if StartStatistics has run and
StopStatistics has not, and none is otherwise, so that no trace event
delivered then changes the statistics.  When StartTraffic is due less than
100 s after the start the whole expected sequence runs before the stop event
and no source is connected at the end. -/
theorem statistics_gate (env : Env) (d : Nat → Time) (n : Nat) (w sm : Time) (k : Nat)
    (hn : 1 ≤ n) (hw : 0 ≤ w) (hsm : 0 ≤ sm) :
    (∀ o : Orchestrator, StartTraffic o = [(o.m_warmup, Callback.StartStatistics)]) ∧
    (∀ o : Orchestrator, StartStatistics o
      = ({ o with connected := o.connected ++ statStreams o.m_nStations },
         [(o.m_simulationTime, Callback.StopStatistics)])) ∧
    (statStreams n
      = [Stream.TxopTrace, Stream.Expired, Stream.Dequeue, Stream.ForwardDownAp,
          Stream.TxErrHeader] ++ (List.range n).map Stream.ForwardDownSta
          ++ [Stream.MacTx, Stream.MacRx] ∧
      stopStreams n = statStreams n) ∧
    (∀ (o : Orchestrator) (x : Stream), x ∈ statStreams o.m_nStations →
      x ∉ (StopStatistics o).connected) ∧
    (∀ o : Orchestrator, o.connected = [] →
      (StopStatistics (StartStatistics o).1).connected = []) ∧
    (∀ (connected : List Stream) (te : TraceEvent) (s : State),
      te.stream ∉ connected → deliver env connected te s = some s) ∧
    (∀ (te : TraceEvent) (s : State), te.stream ∈ statStreams n →
      deliver env (statStreams n) te s = handle env te.event s) ∧
    ∃ final : Sim,
      simulate d (3 * n + 4 + k) (Run (orchAt n w sm 0)) = some final ∧
      final.stopped = true ∧
      (∀ e ∈ final.log,
        (e.callback = Callback.StartTraffic → e.time = trafficTime d n 0 0) ∧
        (e.callback = Callback.StartStatistics → e.time = trafficTime d n 0 0 + w) ∧
        (e.callback = Callback.StopStatistics → e.time = trafficTime d n 0 0 + w + sm)) ∧
      (∀ (pre : List LogEntry) (e : LogEntry) (post : List LogEntry),
        final.log = pre ++ e :: post →
          (windowOpen (pre ++ [e]) = true → e.connected = statStreams n) ∧
          (windowOpen (pre ++ [e]) = false →
            e.connected = [] ∧ ∀ (te : TraceEvent) (s : State),
              deliver env e.connected te s = some s)) ∧
      ((∀ j, 0 ≤ d j) → trafficTime d n 0 0 < MilliSeconds 100000 →
        ∃ stopEntry : LogEntry, stopEntry.callback = Callback.Stop ∧
          final.log = expectedLog d n w sm ++ [stopEntry] ∧
          final.o.connected = []) := by
  refine ⟨fun _ => rfl, fun _ => rfl, ⟨rfl, rfl⟩, ?_, ?_, ?_, ?_, ?_⟩
  · intro o x hx hmem
    simp only [StopStatistics, disconnectAll, List.mem_filter, decide_eq_true_eq] at hmem
    exact hmem.2 hx
  · intro o ho
    simp only [StopStatistics, StartStatistics, connectAll, ho, List.nil_append]
    exact disconnect_connect _
  · intro connected te s h
    exact deliver_not_connected env connected te s h
  · intro te s h
    exact deliver_connected env n te s h
  · obtain ⟨final, hf, hs, e, he1, _, he3, he4, he5⟩ := simulate_Run d n w sm k hn hw hsm
    rw [List.nil_append] at he4
    rw [← he4] at he5
    refine ⟨final, hf, hs, ?_, ?_, ?_⟩
    · intro x hx
      rw [he4, List.mem_append, List.mem_singleton] at hx
      rcases hx with hx | hx
      · exact mem_onboardLog_times d n w sm n 0 0 x ((List.takeWhile_sublist _).subset hx)
      · subst hx
        rw [he1]
        exact ⟨nofun, nofun, nofun⟩
    · intro pre x post hsplit
      have hx := gateHolds_split n pre false x post (by rw [← hsplit]; exact he5)
      constructor
      · intro hopen
        unfold windowOpen at hopen
        rw [hx, if_pos hopen]
      · intro hclosed
        unfold windowOpen at hclosed
        have hx' : x.connected = [] := by
          rw [hx, hclosed]
          rfl
        refine ⟨hx', fun te s => ?_⟩
        rw [hx']
        exact deliver_not_connected env [] te s (List.not_mem_nil _)
    · intro hd hT
      have hall : (expectedLog d n w sm).takeWhile
          (fun e => decide (e.time < w + sm + MilliSeconds 100000)) = expectedLog d n w sm := by
        rw [List.takeWhile_eq_self_iff]
        intro x hx
        have hle := mem_onboardLog_le d n w sm hd hw hsm n 0 0 x hx
        rw [decide_eq_true_eq]
        generalize trafficTime d n 0 0 = T at *
        simp only [Time, MilliSeconds] at *
        omega
      rw [hall] at he4
      refine ⟨e, he1, he4, ?_⟩
      have hx := gateHolds_split n (expectedLog d n w sm) false e [] (by rw [← he4]; exact he5)
      rw [← he3, hx, List.foldl_append, expectedLog, windowOpen_onboardLog]
      simp only [List.foldl_cons, List.foldl_nil, he1, gateAfter]
      rfl

theorem statistics_gate_witness :
    (1 ≤ 2 ∧ (0 : Time) ≤ 1000000000 ∧ (0 : Time) ≤ 2000000000) ∧
    ∃ final : Sim,
      simulate exDelay (3 * 2 + 4 + 0) (Run (orchAt 2 1000000000 2000000000 0)) = some final ∧
      ∃ stopEntry : LogEntry, stopEntry.callback = Callback.Stop ∧
        final.log = expectedLog exDelay 2 1000000000 2000000000 ++ [stopEntry] ∧
        final.o.connected = [] :=
  ⟨⟨by decide, by decide, by decide⟩,
   match (statistics_gate exEnv exDelay 2 1000000000 2000000000 0
      (by decide) (by decide) (by decide)).2.2.2.2.2.2.2 with
   | ⟨final, h1, _, _, _, h2⟩ =>
     ⟨final, h1, h2 (fun _ => by unfold exDelay; decide) (by decide)⟩⟩

/-! ## Pending sends and latency samples -/

theorem sorted_insert {α : Type} (k : Nat) (v : α) (m : List (Nat × α))
    (hs : (m.map Prod.fst).Sorted (· < ·)) : ((insert k v m).map Prod.fst).Sorted (· < ·) := by
  induction m with
  | nil => simp [insert]
  | cons p rest ih =>
    obtain ⟨k', v'⟩ := p
    have hs' := hs
    simp only [List.map_cons, List.sorted_cons] at hs
    by_cases hlt : k < k'
    · simp only [insert, hlt, if_true, List.map_cons, List.sorted_cons]
      refine ⟨?_, hs⟩
      intro b hb
      simp only [List.mem_cons] at hb
      rcases hb with hb | hb
      · omega
      · have := hs.1 b hb
        omega
    · by_cases hk : k' = k
      · simp only [insert, hlt, hk, if_false, if_true]
        simpa [hk] using hs'
      · simp only [insert, hlt, hk, if_false, List.map_cons, List.sorted_cons]
        refine ⟨?_, ih hs.2⟩
        intro b hb
        have hsub : ∀ (l : List (Nat × α)) (b : Nat), b ∈ (insert k v l).map Prod.fst →
            b = k ∨ b ∈ l.map Prod.fst := by
          intro l
          induction l with
          | nil => intro b hb; simpa [insert] using hb
          | cons q l ihl =>
            obtain ⟨a, c⟩ := q
            intro b hb
            by_cases h1 : k < a
            · simp only [insert, h1, if_true, List.map_cons, List.mem_cons] at hb
              rcases hb with hb | hb | hb
              · exact Or.inl hb
              · exact Or.inr (by simp [hb])
              · exact Or.inr (by simp [hb])
            · by_cases h2 : a = k
              · rw [show insert k v ((a, c) :: l) = (a, c) :: l from by
                  simp [insert, h1, h2]] at hb
                exact Or.inr hb
              · simp only [insert, h1, h2, if_false, List.map_cons, List.mem_cons] at hb
                rcases hb with hb | hb
                · exact Or.inr (by simp [hb])
                · rcases ihl b hb with h3 | h3
                  · exact Or.inl h3
                  · exact Or.inr (by simp [h3])
        rcases hsub rest b hb with h1 | h1
        · omega
        · exact hs.1 b h1

theorem sorted_erase {α : Type} (k : Nat) (m : List (Nat × α))
    (hs : (m.map Prod.fst).Sorted (· < ·)) : ((erase k m).map Prod.fst).Sorted (· < ·) := by
  induction m with
  | nil => simp [erase]
  | cons p rest ih =>
    obtain ⟨k', v'⟩ := p
    simp only [List.map_cons, List.sorted_cons] at hs
    by_cases hk : k' = k
    · simp only [erase, hk, if_true]
      exact hs.2
    · simp only [erase, hk, if_false, List.map_cons, List.sorted_cons]
      refine ⟨?_, ih hs.2⟩
      intro b hb
      have hsub : ∀ (l : List (Nat × α)) (b : Nat), b ∈ (erase k l).map Prod.fst →
          b ∈ l.map Prod.fst := by
        intro l
        induction l with
        | nil => intro b hb; simp [erase] at hb
        | cons q l ihl =>
          obtain ⟨a, c⟩ := q
          intro b hb
          by_cases h2 : a = k
          · simp only [erase, h2, if_true] at hb
            simp [hb]
          · simp only [erase, h2, if_false, List.map_cons, List.mem_cons] at hb
            rcases hb with hb | hb
            · simp [hb]
            · simp [ihl b hb]
      exact hs.1 b (hsub rest b hb)

theorem length_erase {α : Type} (k : Nat) {w : α} (m : List (Nat × α))
    (h : find k m = some w) : (erase k m).length + 1 = m.length := by
  induction m with
  | nil => simp [find] at h
  | cons p rest ih =>
    obtain ⟨k', v'⟩ := p
    by_cases hk : k' = k
    · simp [erase, hk]
    · simp only [find, hk, if_false] at h
      simp [erase, hk, ih h]

theorem sum_length_assign (k : Nat) (v l : List Time) (m : List (Nat × List Time))
    (h : find k m = some l) :
    ((assign k v m).map (fun p => p.2.length)).sum + l.length
      = (m.map (fun p => p.2.length)).sum + v.length := by
  induction m with
  | nil => simp [find] at h
  | cons p rest ih =>
    obtain ⟨k', v'⟩ := p
    by_cases hk : k' = k
    · simp only [find, hk, if_true, Option.some.injEq] at h
      subst h
      simp only [assign, hk, if_true, List.map_cons, List.sum_cons]
      omega
    · simp only [find, hk, if_false] at h
      have := ih h
      simp only [assign, hk, if_false, List.map_cons, List.sum_cons]
      omega

theorem closeWindow_appView (s : State) : (closeWindow s).appView = s.appView := by
  unfold closeWindow
  split
  · split <;> rfl
  · rfl

theorem step_appView {env : Env} {ev : PsduForwardedDown} {s s' : State}
    (h : NotifyPsduForwardedDown env ev s = some s') : s'.appView = s.appView := by
  rw [step_eq_classify] at h
  cases hc : classify env ev with
  | undefined => simp [hc] at h
  | ulHeTb a =>
    simp only [hc] at h
    obtain ⟨st, -, hs⟩ := ulResponse_some h
    subst hs
    rfl
  | ulOther =>
    simp only [hc, Option.some.injEq] at h
    subst h
    rfl
  | dl =>
    simp only [hc] at h
    obtain ⟨dl1, -, hs⟩ := downlink_some h
    by_cases hp : ev.txVector.preamble = WifiPreamble.HE_MU
    · simp only [hp, if_true] at hs
      obtain ⟨-, dl2, -, hs⟩ := hs
      subst hs
      rfl
    · simp only [hp, if_false] at hs
      subst hs
      rfl
  | basicTf t =>
    simp only [hc] at h
    obtain ⟨-, ul, -, hs⟩ := basicTrigger_some h
    subst hs
    exact closeWindow_appView s
  | ignored =>
    simp only [hc, Option.some.injEq] at h
    subst h
    rfl

theorem dequeueGlobal_appView (now : Time) (s : State) :
    (dequeueGlobal now s).appView = s.appView := by
  unfold dequeueGlobal
  simp only
  split
  · split <;> rfl
  · rfl

theorem handle_appView_of_not_app {env : Env} {e : Event} {s s' : State}
    (htx : ∀ now p, e ≠ Event.applicationTx now p)
    (hrx : ∀ now ctx p, e ≠ Event.applicationRx now ctx p)
    (h : handle env e s = some s') : s'.appView = s.appView := by
  cases e with
  | txFailed a =>
    simp only [handle, NotifyTxFailed] at h
    split at h
    · simp at h
    · simp only [Option.some.injEq] at h; subst h; rfl
  | msduExpired a =>
    simp only [handle, NotifyMsduExpired] at h
    split at h
    · simp at h
    · simp only [Option.some.injEq] at h; subst h; rfl
  | msduDequeued now item =>
    simp only [handle] at h
    by_cases hd : now > item.timeStamp + env.maxDelay
    · rw [dequeue_late hd, Option.some.injEq] at h
      subst h; rfl
    · cases hf : find item.addr1 s.m_dlStats with
      | none =>
        simp [NotifyMsduDequeuedFromEdcaQueue, hd, dequeueGlobal_dlStats, hf] at h
      | some st =>
        rw [dequeue_eq (not_lt.mp hd) hf, Option.some.injEq] at h
        subst h
        exact dequeueGlobal_appView now s
  | psduForwardedDown ev => exact step_appView h
  | txopDuration d =>
    simp only [handle, TxopDuration, Option.some.injEq] at h
    subst h
    split <;> rfl
  | applicationTx now p => exact absurd rfl (htx now p)
  | applicationRx now ctx p => exact absurd rfl (hrx now ctx p)

theorem handle_app_step {env : Env} {e : Event} {s s' : State}
    (hs : (s.m_appPacketTxMap.map Prod.fst).Sorted (· < ·))
    (h : handle env e s = some s') :
    (s'.m_appPacketTxMap.map Prod.fst).Sorted (· < ·) ∧
    s'.latencySamples = s.latencySamples + (if consumesPending env s e then 1 else 0) ∧
    s'.m_appPacketTxMap.length + (if consumesPending env s e then 1 else 0)
      = s.m_appPacketTxMap.length + (if insertsPending env s e then 1 else 0) := by
  have hframe : ∀ (_ : s'.appView = s.appView)
      (_ : consumesPending env s e = false) (_ : insertsPending env s e = false),
      (s'.m_appPacketTxMap.map Prod.fst).Sorted (· < ·) ∧
      s'.latencySamples = s.latencySamples + (if consumesPending env s e then 1 else 0) ∧
      s'.m_appPacketTxMap.length + (if consumesPending env s e then 1 else 0)
        = s.m_appPacketTxMap.length + (if insertsPending env s e then 1 else 0) := by
    intro hv hc hi
    simp only [State.appView, Prod.mk.injEq] at hv
    rw [hc, hi]
    simp only [State.latencySamples, hv.1, hv.2, Bool.false_eq_true, if_false, add_zero,
      and_self, and_true]
    exact hs
  cases e with
  | txFailed a =>
    exact hframe (handle_appView_of_not_app (by intro _ _ h0; cases h0)
      (by intro _ _ _ h0; cases h0) h) rfl rfl
  | msduExpired a =>
    exact hframe (handle_appView_of_not_app (by intro _ _ h0; cases h0)
      (by intro _ _ _ h0; cases h0) h) rfl rfl
  | msduDequeued now item =>
    exact hframe (handle_appView_of_not_app (by intro _ _ h0; cases h0)
      (by intro _ _ _ h0; cases h0) h) rfl rfl
  | psduForwardedDown ev =>
    exact hframe (handle_appView_of_not_app (by intro _ _ h0; cases h0)
      (by intro _ _ _ h0; cases h0) h) rfl rfl
  | txopDuration d =>
    exact hframe (handle_appView_of_not_app (by intro _ _ h0; cases h0)
      (by intro _ _ _ h0; cases h0) h) rfl rfl
  | applicationTx now p =>
    simp only [handle, NotifyApplicationTx, Option.some.injEq] at h
    subst h
    by_cases hsz : p.size < env.m_payloadSize
    · simp [hsz, insertsPending, consumesPending, hs]
    · cases hf : find p.uid s.m_appPacketTxMap with
      | none =>
        simp only [hsz, if_false, insertsPending, consumesPending, hf, not_false_eq_true,
          and_self, decide_True, if_true, Bool.false_eq_true, add_zero]
        exact ⟨sorted_insert _ _ _ hs, rfl, length_insert _ _ _ hf⟩
      | some t0 =>
        simp only [hsz, if_false, insertsPending, consumesPending, hf, not_false_eq_true,
          true_and, Bool.false_eq_true, add_zero, insert_present now _ hf hs,
          reduceCtorEq, decide_False]
        exact ⟨hs, trivial⟩
  | applicationRx now ctx p =>
    simp only [handle, NotifyApplicationRx] at h
    by_cases hsz : p.size < env.m_payloadSize
    · simp only [hsz, if_true, Option.some.injEq] at h
      subst h
      simp [hsz, insertsPending, consumesPending, hs]
    · simp only [hsz, if_false] at h
      cases hf : find p.uid s.m_appPacketTxMap with
      | none =>
        simp only [hf, Option.some.injEq] at h
        subst h
        simp [hsz, insertsPending, consumesPending, hs, hf]
      | some t0 =>
        simp only [hf] at h
        cases hctx : ContextToNodeId ctx with
        | none => simp [hctx] at h
        | some nodeId =>
          simp only [hctx] at h
          cases hl : find nodeId s.m_appLatencyMap with
          | none => simp [hl] at h
          | some l =>
            simp only [hl, Option.some.injEq] at h
            subst h
            have h1 := sum_length_assign nodeId (l ++ [now - t0]) l s.m_appLatencyMap hl
            have h2 := length_erase p.uid s.m_appPacketTxMap hf
            simp only [List.length_append, List.length_singleton] at h1
            simp only [insertsPending, consumesPending, hsz, hf, not_false_eq_true, ne_eq,
              reduceCtorEq, and_self, decide_True, if_true, Bool.false_eq_true, if_false,
              add_zero, State.latencySamples]
            exact ⟨sorted_erase _ _ hs, by omega, h2⟩

theorem run_app (env : Env) (evs : List Event) : ∀ (s s' : State),
    (s.m_appPacketTxMap.map Prod.fst).Sorted (· < ·) →
    runEvents (handle env) evs s = some s' →
    (s'.m_appPacketTxMap.map Prod.fst).Sorted (· < ·) ∧
    s'.latencySamples = s.latencySamples + countAlong env (consumesPending env) evs s ∧
    s'.m_appPacketTxMap.length + countAlong env (consumesPending env) evs s
      = s.m_appPacketTxMap.length + countAlong env (insertsPending env) evs s := by
  induction evs with
  | nil =>
    intro s s' hs h
    simp only [runEvents, Option.some.injEq] at h
    subst h
    simp [countAlong, hs]
  | cons e rest ih =>
    intro s s' hs h
    simp only [runEvents] at h
    cases hstep : handle env e s with
    | none => simp [hstep] at h
    | some s1 =>
      simp only [hstep] at h
      obtain ⟨h1, h2, h3⟩ := handle_app_step hs hstep
      obtain ⟨i1, i2, i3⟩ := ih s1 s' h1 h
      refine ⟨i1, ?_, ?_⟩
      · simp only [countAlong, hstep]
        omega
      · simp only [countAlong, hstep]
        omega

theorem mem_insert_nil (k : Nat) (m : List (Nat × List Time))
    (h : ∀ p ∈ m, p.2 = []) : ∀ p ∈ insert k [] m, p.2 = [] := by
  induction m with
  | nil =>
    intro p hp
    simp only [insert, List.mem_singleton] at hp
    subst hp
    rfl
  | cons q rest ih =>
    obtain ⟨k', v'⟩ := q
    intro p hp
    by_cases hlt : k < k'
    · simp only [insert, hlt, if_true, List.mem_cons] at hp
      rcases hp with hp | hp | hp
      · subst hp; rfl
      · subst hp; exact h _ (by simp)
      · exact h _ (by simp [hp])
    · by_cases hk : k' = k
      · rw [show insert k [] ((k', v') :: rest) = (k', v') :: rest from by
          simp [insert, hlt, hk]] at hp
        exact h _ hp
      · simp only [insert, hlt, hk, if_false, List.mem_cons] at hp
        rcases hp with hp | hp
        · subst hp; exact h _ (by simp)
        · exact ih (fun q hq => h q (by simp [hq])) p hp

theorem setupLatency_nil (n : Nat) : ∀ (i : Nat) (s : State),
    (∀ p ∈ s.m_appLatencyMap, p.2 = []) →
    (∀ p ∈ (setupLatency n i s).m_appLatencyMap, p.2 = []) ∧
    (setupLatency n i s).m_appPacketTxMap = s.m_appPacketTxMap := by
  induction n with
  | zero => intro i s h; exact ⟨h, rfl⟩
  | succ n ih =>
    intro i s h
    exact ih (i + 1) { s with m_appLatencyMap := insert i [] s.m_appLatencyMap }
      (mem_insert_nil i _ h)

theorem initialState_app (staAddrs : List Mac48Address) (n : Nat) :
    (initialState staAddrs n).m_appPacketTxMap = [] ∧
    (initialState staAddrs n).latencySamples = 0 := by
  have h := setupLatency_nil n 0 (setupStats staAddrs State.ctor) (by
    rw [setupStats_eq]
    intro p hp
    simp [State.ctor] at hp)
  refine ⟨?_, ?_⟩
  · rw [initialState, h.2, setupStats_eq]
    rfl
  · unfold State.latencySamples
    rw [List.sum_eq_zero]
    intro x hx
    simp only [List.mem_map] at hx
    obtain ⟨p, hp, rfl⟩ := hx
    rw [h.1 p hp]
    rfl

theorem countAlong_eq_zero (env : Env) (c : State → Event → Bool) (evs : List Event)
    (h : ∀ e ∈ evs, ∀ s, c s e = false) : ∀ s, countAlong env c evs s = 0 := by
  induction evs with
  | nil => intro s; rfl
  | cons e rest ih =>
    intro s
    simp only [countAlong, h e (by simp) s, Bool.false_eq_true, if_false, zero_add]
    cases handle env e s with
    | none => rfl
    | some s1 => exact ih (fun e he => h e (by simp [he])) s1

/-- Claim C21.  NotifyApplicationTx leaves every latency vector as it was.
After every sequence of events processed from the initial state, the number of
latency samples over all stations plus the number of pending entries of
m_appPacketTxMap is the number of sends that added a pending entry, and the
number of latency samples is the number of receives that found and erased a
pending entry; when no receive was processed there is no sample at all and
every added entry is still pending. -/
theorem pending_sends_do_not_leak (env : Env) (staAddrs : List Mac48Address)
    (nStations : Nat) (evs : List Event) (s : State)
    (hrun : runEvents (handle env) evs (initialState staAddrs nStations) = some s) :
    (∀ (now : Time) (p : Packet) (t : State),
      (NotifyApplicationTx env now p t).m_appLatencyMap = t.m_appLatencyMap) ∧
    s.latencySamples + s.m_appPacketTxMap.length
      = countAlong env (insertsPending env) evs (initialState staAddrs nStations) ∧
    s.latencySamples
      = countAlong env (consumesPending env) evs (initialState staAddrs nStations) ∧
    ((∀ e ∈ evs, ∀ now ctx p, e ≠ Event.applicationRx now ctx p) →
      s.latencySamples = 0 ∧
      s.m_appPacketTxMap.length
        = countAlong env (insertsPending env) evs (initialState staAddrs nStations)) := by
  obtain ⟨h0, h1⟩ := initialState_app staAddrs nStations
  obtain ⟨-, h2, h3⟩ := run_app env evs _ _ (by rw [h0]; exact List.sorted_nil) hrun
  rw [h1, Nat.zero_add] at h2
  rw [h0, List.length_nil, Nat.zero_add] at h3
  refine ⟨?_, by omega, h2, ?_⟩
  · intro now p t
    unfold NotifyApplicationTx
    split <;> rfl
  · intro hno
    have hz := countAlong_eq_zero env (consumesPending env) evs (by
      intro e he t
      cases e with
      | applicationRx now ctx p => exact absurd rfl (hno _ he now ctx p)
      | _ => rfl) (initialState staAddrs nStations)
    rw [hz] at h2 h3
    exact ⟨h2, by omega⟩

theorem pending_sends_do_not_leak_witness :
    runEvents (handle exEnv)
        [Event.applicationTx 10 exPacket, Event.applicationRx 15 exContext exPacket,
         Event.applicationTx 20 { size := 160, uid := 8 }]
        (initialState [10, 20, 30] 3)
      = some { exInit with m_appLatencyMap := [(0, []), (1, []), (2, [5])],
                           m_appPacketTxMap := [(8, 20)] } ∧
    State.latencySamples { exInit with m_appLatencyMap := [(0, []), (1, []), (2, [5])],
                                       m_appPacketTxMap := [(8, 20)] } + 1
      = countAlong exEnv (insertsPending exEnv)
          [Event.applicationTx 10 exPacket, Event.applicationRx 15 exContext exPacket,
           Event.applicationTx 20 { size := 160, uid := 8 }]
          (initialState [10, 20, 30] 3) :=
  ⟨by with_unfolding_all rfl,
   (pending_sends_do_not_leak exEnv [10, 20, 30] 3
     [Event.applicationTx 10 exPacket, Event.applicationRx 15 exContext exPacket,
      Event.applicationTx 20 { size := 160, uid := 8 }]
     { exInit with m_appLatencyMap := [(0, []), (1, []), (2, [5])],
                   m_appPacketTxMap := [(8, 20)] }
     (by with_unfolding_all rfl)).2.1⟩

/-- Claim C28.  In a state reached from the initial state in which the uid of
the packet is pending with send time t0, NotifyApplicationTx of a packet of at
least m_payloadSize bytes with that uid returns the state unchanged: the send
time stored stays t0, and a later NotifyApplicationRx of the uid records the
latency now' - t0 and erases the entry, as it does without the further send.
The time stored is that of the first send: a send of a uid that is not pending
stores its time, and a second send of the uid changes nothing. -/
theorem duplicate_send_keeps_first (env : Env) (staAddrs : List Mac48Address)
    (nStations : Nat) (evs : List Event) (s : State)
    (hrun : runEvents (handle env) evs (initialState staAddrs nStations) = some s)
    (now : Time) (p : Packet) (hsz : env.m_payloadSize ≤ p.size) :
    (∀ t0, find p.uid s.m_appPacketTxMap = some t0 →
      NotifyApplicationTx env now p s = s ∧
      (∀ (now' : Time) (ctx : String) (pRx : Packet) (sta : Nat) (l : List Time),
        pRx.uid = p.uid → env.m_payloadSize ≤ pRx.size → ContextToNodeId ctx = some sta →
        find sta s.m_appLatencyMap = some l →
        NotifyApplicationRx env now' ctx pRx (NotifyApplicationTx env now p s)
          = some { s with
              m_appLatencyMap := assign sta (l ++ [now' - t0]) s.m_appLatencyMap,
              m_appPacketTxMap := erase p.uid s.m_appPacketTxMap })) ∧
    (find p.uid s.m_appPacketTxMap = none →
      ∀ (later : Time) (p2 : Packet), p2.uid = p.uid → env.m_payloadSize ≤ p2.size →
        find p.uid (NotifyApplicationTx env now p s).m_appPacketTxMap = some now ∧
        NotifyApplicationTx env later p2 (NotifyApplicationTx env now p s)
          = NotifyApplicationTx env now p s) := by
  obtain ⟨h0, -⟩ := initialState_app staAddrs nStations
  obtain ⟨hs, -, -⟩ := run_app env evs _ _ (by rw [h0]; exact List.sorted_nil) hrun
  have h1 : ¬ p.size < env.m_payloadSize := by omega
  have gen : ∀ (t : State) (tm : Time) (q : Packet) (t0 : Time),
      ¬ q.size < env.m_payloadSize → (t.m_appPacketTxMap.map Prod.fst).Sorted (· < ·) →
      find q.uid t.m_appPacketTxMap = some t0 → NotifyApplicationTx env tm q t = t := by
    intro t tm q t0 hq ht hp
    unfold NotifyApplicationTx
    simp only [hq, if_false, insert_present tm _ hp ht]
  have hsame : ∀ t0, find p.uid s.m_appPacketTxMap = some t0 →
      NotifyApplicationTx env now p s = s := fun t0 hp => gen s now p t0 h1 hs hp
  refine ⟨fun t0 hp => ⟨hsame t0 hp, ?_⟩, ?_⟩
  · intro now' ctx pRx sta l hu hsz2 hctx hl
    have h2 : ¬ pRx.size < env.m_payloadSize := by omega
    rw [hsame t0 hp]
    unfold NotifyApplicationRx
    simp only [h2, if_false, hu, hp, hctx, hl]
  · intro hfresh later p2 hu hsz2
    have h2 : ¬ p2.size < env.m_payloadSize := by omega
    have hf : find p.uid (NotifyApplicationTx env now p s).m_appPacketTxMap = some now := by
      unfold NotifyApplicationTx
      simp only [h1, if_false, find_insert_same _ _ _ hfresh]
    refine ⟨hf, ?_⟩
    have hs2 : ((NotifyApplicationTx env now p s).m_appPacketTxMap.map Prod.fst).Sorted
        (· < ·) := by
      unfold NotifyApplicationTx
      simp only [h1, if_false]
      exact sorted_insert _ _ _ hs
    exact gen _ later p2 now h2 hs2 (by rw [hu]; exact hf)

theorem duplicate_send_keeps_first_witness :
    (runEvents (handle exEnv) [Event.applicationTx 10 exPacket] (initialState [10, 20, 30] 3)
        = some exPending ∧
     exEnv.m_payloadSize ≤ exPacket.size ∧
     find exPacket.uid exPending.m_appPacketTxMap = some 10) ∧
    NotifyApplicationTx exEnv 12 exPacket exPending = exPending :=
  ⟨⟨by with_unfolding_all rfl, by decide, by decide⟩,
   ((duplicate_send_keeps_first exEnv [10, 20, 30] 3 [Event.applicationTx 10 exPacket]
      exPending (by with_unfolding_all rfl) 12 exPacket (by decide)).1 10 (by decide)).1⟩

/-! ## Head-of-line gaps and last dequeue times -/

theorem accHolds_observe {a : Acc} {xs : List ℚ} {x : ℚ} (h : AccHolds a xs)
    (hpos : ∀ y ∈ xs, 0 < y) (hx : 0 < x) : AccHolds (observe a x) (xs ++ [x]) := by
  obtain ⟨hn, havg, hnil, hne⟩ := h
  refine ⟨?_, ?_, ?_, ?_⟩
  · simp [observe, hn]
  · have := updAvg_mul a.2.2.1 a.2.2.2 x
    simp only [observe, List.length_append, List.length_singleton, List.sum_append,
      List.sum_singleton]
    push_cast
    rw [hn] at this ⊢
    rw [this, havg]
  · intro h0
    simp at h0
  · intro _
    by_cases hxs : xs = []
    · obtain ⟨h1, h2⟩ := hnil hxs
      subst hxs
      simp only [observe, updMin, updMax, h1, h2, true_or, if_true, gt_iff_lt, hx,
        List.nil_append, List.mem_singleton, forall_eq, le_refl, and_self]
    · obtain ⟨h1, h2, h3, h4⟩ := hne hxs
      have hmin : a.1 ≠ 0 := ne_of_gt (hpos _ h1)
      refine ⟨?_, ?_, ?_, ?_⟩
      · simp only [observe, updMin, hmin, false_or, List.mem_append, List.mem_singleton]
        split
        · exact Or.inr rfl
        · exact Or.inl h1
      · intro y hy
        simp only [List.mem_append, List.mem_singleton] at hy
        simp only [observe, updMin, hmin, false_or]
        split
        · rename_i hlt
          rcases hy with hy | hy
          · exact le_trans (le_of_lt hlt) (h2 y hy)
          · rw [hy]
        · rename_i hge
          rcases hy with hy | hy
          · exact h2 y hy
          · rw [hy]; exact not_lt.mp hge
      · simp only [observe, updMax, gt_iff_lt, List.mem_append, List.mem_singleton]
        split
        · exact Or.inr rfl
        · exact Or.inl h3
      · intro y hy
        simp only [List.mem_append, List.mem_singleton] at hy
        simp only [observe, updMax, gt_iff_lt]
        split
        · rename_i hlt
          rcases hy with hy | hy
          · exact le_trans (h4 y hy) (le_of_lt hlt)
          · rw [hy]
        · rename_i hge
          rcases hy with hy | hy
          · exact h4 y hy
          · rw [hy]; exact not_lt.mp hge

theorem dequeueGlobal_holAcc (now : Time) (s : State) :
    (dequeueGlobal now s).holAcc
      = if 0 < s.m_lastTxTime ∧ s.m_lastTxTime < now then
          observe s.holAcc (ToDoubleMS (now - s.m_lastTxTime))
        else s.holAcc := by
  unfold dequeueGlobal
  by_cases h1 : 0 < s.m_lastTxTime
  · by_cases h2 : s.m_lastTxTime < now
    · have h3 : ToDoubleMS (now - s.m_lastTxTime) > 0 := by
        rw [ToDoubleMS_pos_iff]
        simp only [Time] at *
        omega
      simp only [h1, h2, h3, and_self, if_true]
      rfl
    · have h3 : ¬ ToDoubleMS (now - s.m_lastTxTime) > 0 := by
        rw [ToDoubleMS_pos_iff]
        simp only [Time] at *
        omega
      simp only [h1, h2, h3, and_false, if_true, if_false]
      rfl
  · simp only [h1, false_and, if_false]
    rfl

theorem closeWindow_holView (s : State) : (closeWindow s).holView = s.holView := by
  unfold closeWindow
  split
  · split <;> rfl
  · rfl

theorem step_holView {env : Env} {ev : PsduForwardedDown} {s s' : State}
    (h : NotifyPsduForwardedDown env ev s = some s') : s'.holView = s.holView := by
  rw [step_eq_classify] at h
  cases hc : classify env ev with
  | undefined => simp [hc] at h
  | ulHeTb a =>
    simp only [hc] at h
    obtain ⟨st, -, hs⟩ := ulResponse_some h
    subst hs
    rfl
  | ulOther =>
    simp only [hc, Option.some.injEq] at h
    subst h
    rfl
  | dl =>
    simp only [hc] at h
    obtain ⟨dl1, -, hs⟩ := downlink_some h
    by_cases hp : ev.txVector.preamble = WifiPreamble.HE_MU
    · simp only [hp, if_true] at hs
      obtain ⟨-, dl2, -, hs⟩ := hs
      subst hs
      rfl
    · simp only [hp, if_false] at hs
      subst hs
      rfl
  | basicTf t =>
    simp only [hc] at h
    obtain ⟨-, ul, -, hs⟩ := basicTrigger_some h
    subst hs
    exact closeWindow_holView s
  | ignored =>
    simp only [hc, Option.some.injEq] at h
    subst h
    rfl

theorem handle_holView_of_not_dequeue {env : Env} {e : Event} {s s' : State}
    (hk : ∀ now item, e ≠ Event.msduDequeued now item)
    (h : handle env e s = some s') : s'.holView = s.holView := by
  cases e with
  | txFailed a =>
    simp only [handle, NotifyTxFailed] at h
    split at h
    · simp at h
    · simp only [Option.some.injEq] at h; subst h; rfl
  | msduExpired a =>
    simp only [handle, NotifyMsduExpired] at h
    split at h
    · simp at h
    · simp only [Option.some.injEq] at h; subst h; rfl
  | msduDequeued now item => exact absurd rfl (hk now item)
  | psduForwardedDown ev => exact step_holView h
  | txopDuration d =>
    simp only [handle, TxopDuration, Option.some.injEq] at h
    subst h
    split <;> rfl
  | applicationTx now p =>
    simp only [handle, NotifyApplicationTx, Option.some.injEq] at h
    subst h
    split <;> rfl
  | applicationRx now ctx p =>
    simp only [handle, NotifyApplicationRx] at h
    split at h
    · simp only [Option.some.injEq] at h; subst h; rfl
    · split at h
      · simp only [Option.some.injEq] at h; subst h; rfl
      · split at h
        · simp at h
        · split at h
          · simp at h
          · simp only [Option.some.injEq] at h; subst h; rfl

theorem holGaps_pos : ∀ (ts : List Time) (last : Time), ∀ x ∈ holGaps last ts, 0 < x := by
  intro ts
  induction ts with
  | nil => intro last x hx; simp [holGaps] at hx
  | cons t rest ih =>
    intro last x hx
    simp only [holGaps, List.mem_append] at hx
    rcases hx with hx | hx
    · split at hx
      · rename_i hc
        simp only [List.mem_singleton] at hx
        subst hx
        have : ToDoubleMS (t - last) > 0 := by
          rw [ToDoubleMS_pos_iff]
          have := hc.2
          simp only [Time] at *
          omega
        exact this
      · simp at hx
    · exact ih t x hx

theorem run_hol (env : Env) (evs : List Event) : ∀ (s s' : State) (xs : List ℚ),
    AccHolds s.holAcc xs → (∀ y ∈ xs, 0 < y) →
    runEvents (handle env) evs s = some s' →
    AccHolds s'.holAcc (xs ++ holGaps s.m_lastTxTime (dequeueTimes env evs)) := by
  induction evs with
  | nil =>
    intro s s' xs ha _ h
    simp only [runEvents, Option.some.injEq] at h
    subst h
    simpa [dequeueTimes, holGaps] using ha
  | cons e rest ih =>
    intro s s' xs ha hpos h
    simp only [runEvents] at h
    cases hstep : handle env e s with
    | none => simp [hstep] at h
    | some s1 =>
      simp only [hstep] at h
      have hother : (∀ now item, e ≠ Event.msduDequeued now item) →
          dequeueTimes env (e :: rest) = dequeueTimes env rest →
          AccHolds s'.holAcc (xs ++ holGaps s.m_lastTxTime (dequeueTimes env (e :: rest))) := by
        intro hk hd
        have hv := handle_holView_of_not_dequeue hk hstep
        simp only [State.holView, Prod.mk.injEq] at hv
        have := ih s1 s' xs (by rw [hv.1]; exact ha) hpos h
        rw [hv.2] at this
        rw [hd]
        exact this
      cases e with
      | msduDequeued now item =>
        simp only [handle] at hstep
        by_cases hd : now > item.timeStamp + env.maxDelay
        · rw [dequeue_late hd, Option.some.injEq] at hstep
          subst hstep
          simp only [dequeueTimes, hd, if_true]
          exact ih s s' xs ha hpos h
        · cases hf : find item.addr1 s.m_dlStats with
          | none =>
            simp [NotifyMsduDequeuedFromEdcaQueue, hd, dequeueGlobal_dlStats, hf] at hstep
          | some st =>
            rw [dequeue_eq (not_lt.mp hd) hf, Option.some.injEq] at hstep
            have hacc : s1.holAcc = (dequeueGlobal now s).holAcc := by
              subst hstep; rfl
            have hlast : s1.m_lastTxTime = now := by
              subst hstep; exact dequeueGlobal_lastTxTime now s
            rw [dequeueGlobal_holAcc] at hacc
            simp only [dequeueTimes, hd, if_false, holGaps]
            by_cases hg : 0 < s.m_lastTxTime ∧ s.m_lastTxTime < now
            · rw [if_pos hg] at hacc ⊢
              have hx : 0 < ToDoubleMS (now - s.m_lastTxTime) := by
                have : ToDoubleMS (now - s.m_lastTxTime) > 0 := by
                  rw [ToDoubleMS_pos_iff]
                  have := hg.2
                  simp only [Time] at *
                  omega
                exact this
              have h1 := accHolds_observe ha hpos hx
              rw [← hacc] at h1
              have h2 := ih s1 s' _ h1 (by
                intro y hy
                simp only [List.mem_append, List.mem_singleton] at hy
                rcases hy with hy | hy
                · exact hpos y hy
                · rw [hy]; exact hx) h
              rw [hlast] at h2
              simpa [List.append_assoc] using h2
            · rw [if_neg hg] at hacc ⊢
              have h2 := ih s1 s' xs (by rw [hacc]; exact ha) hpos h
              rw [hlast] at h2
              simpa using h2
      | txFailed a => exact hother (by intro _ _ h0; cases h0) rfl
      | msduExpired a => exact hother (by intro _ _ h0; cases h0) rfl
      | psduForwardedDown ev => exact hother (by intro _ _ h0; cases h0) rfl
      | txopDuration d => exact hother (by intro _ _ h0; cases h0) rfl
      | applicationTx now p => exact hother (by intro _ _ h0; cases h0) rfl
      | applicationRx now ctx p => exact hother (by intro _ _ h0; cases h0) rfl

theorem initialState_holView (staAddrs : List Mac48Address) (n : Nat) :
    (initialState staAddrs n).holView = ((0, 0, 0, 0), 0) := by
  obtain ⟨m, hm⟩ := initialState_eq staAddrs n
  rw [hm]; rfl

theorem holGaps_length_le : ∀ (ts : List Time) (last : Time),
    (holGaps last ts).length ≤ ts.length := by
  intro ts
  induction ts with
  | nil => intro last; simp [holGaps]
  | cons t rest ih =>
    intro last
    have := ih t
    simp only [holGaps, List.length_append, List.length_cons]
    split <;> simp <;> omega

theorem halvings_spec : ∀ (fuel n : Nat), 1 ≤ n → n ≤ fuel →
    2 ^ halvings fuel n ≤ n ∧ n < 2 ^ (halvings fuel n + 1) := by
  intro fuel
  induction fuel with
  | zero => intro n h1 h2; omega
  | succ fuel ih =>
    intro n h1 h2
    rw [halvings]
    by_cases h : n < 2
    · rw [if_pos h]
      have : n = 1 := by omega
      subst this
      simp
    · rw [if_neg h]
      have h3 := ih (n / 2) (by omega) (by omega)
      have h4 := Nat.div_add_mod n 2
      have h5 := Nat.mod_lt n (show 0 < 2 by omega)
      rw [pow_succ, pow_succ]
      rw [pow_succ] at h3
      omega

theorem binade_spec (n d : Nat) (hn : 1 ≤ n) (hd : 1 ≤ d) :
    (0 ≤ binade n d → d * 2 ^ (binade n d).toNat ≤ n) ∧
    (binade n d < 0 → d ≤ n * 2 ^ (- binade n d).toNat) := by
  obtain ⟨hn1, hn2⟩ := halvings_spec n n hn (le_refl _)
  obtain ⟨hd1, hd2⟩ := halvings_spec d d hd (le_refl _)
  unfold binade
  simp only []
  generalize halvings n n = a at *
  generalize halvings d d = b at *
  by_cases he : (a : Int) - (b : Int) ≥ 0
  · rw [if_pos he]
    have hab : b ≤ a := by omega
    have ht : ((a : Int) - (b : Int)).toNat = a - b := by omega
    rw [ht]
    by_cases hlt : n < d * 2 ^ (a - b)
    · rw [if_pos hlt]
      constructor
      · intro h0
        have hab1 : b + 1 ≤ a := by omega
        have ht2 : ((a : Int) - (b : Int) - 1).toNat = a - b - 1 := by omega
        rw [ht2]
        have : d * 2 ^ (a - b - 1) < 2 ^ (b + 1) * 2 ^ (a - b - 1) :=
          Nat.mul_lt_mul_of_pos_right hd2 (Nat.two_pow_pos _)
        rw [← pow_add, show b + 1 + (a - b - 1) = a by omega] at this
        omega
      · intro h0
        have hab0 : a = b := by omega
        subst hab0
        have ht2 : (-((a : Int) - (a : Int) - 1)).toNat = 1 := by omega
        rw [ht2]
        rw [pow_succ] at hd2
        omega
    · rw [if_neg hlt]
      constructor
      · intro _
        rw [ht]
        omega
      · intro h0
        omega
  · rw [if_neg he]
    have hab : a < b := by omega
    have ht : (-((a : Int) - (b : Int))).toNat = b - a := by omega
    rw [ht]
    by_cases hlt : n * 2 ^ (b - a) < d
    · rw [if_pos hlt]
      constructor
      · intro h0
        omega
      · intro _
        have ht2 : (-((a : Int) - (b : Int) - 1)).toNat = b - a + 1 := by omega
        rw [ht2]
        have : 2 ^ a * 2 ^ (b - a + 1) ≤ n * 2 ^ (b - a + 1) :=
          Nat.mul_le_mul_right _ hn1
        rw [← pow_add, show a + (b - a + 1) = b + 1 by omega] at this
        omega
    · rw [if_neg hlt]
      constructor
      · intro h0
        omega
      · intro _
        rw [ht]
        omega

theorem roundHalfEven_pos (n d : Nat) (hd : 0 < d) (h : d ≤ n) : 0 < roundHalfEven n d := by
  have hf : 0 < n / d := Nat.div_pos h hd
  unfold roundHalfEven
  simp only []
  split
  · exact hf
  · split
    · omega
    · split <;> omega

theorem roundPos_pos (n d : Nat) (hn : 1 ≤ n) (hd : 1 ≤ d) : 0 < roundPos n d := by
  obtain ⟨h1, h2⟩ := binade_spec n d hn hd
  unfold roundPos
  simp only []
  generalize binade n d = e at *
  by_cases he : e ≥ 52
  · rw [if_pos he]
    have h3 := h1 (by omega)
    have hk : (e - 52).toNat + 52 = e.toNat := by omega
    have h4 : d * 2 ^ (e - 52).toNat ≤ n := by
      have : d * 2 ^ (e - 52).toNat ≤ d * 2 ^ e.toNat :=
        Nat.mul_le_mul_left _ (Nat.pow_le_pow_right (by omega) (by omega))
      omega
    have h5 := roundHalfEven_pos n (d * 2 ^ (e - 52).toNat)
      (Nat.mul_pos (by omega) (Nat.two_pow_pos _)) h4
    rw [Rat.mkRat_eq_div]
    apply div_pos
    · have : 0 < roundHalfEven n (d * 2 ^ (e - 52).toNat) * 2 ^ (e - 52).toNat :=
        Nat.mul_pos h5 (Nat.two_pow_pos _)
      exact_mod_cast this
    · norm_num
  · rw [if_neg he]
    have h4 : d ≤ n * 2 ^ (52 - e).toNat := by
      by_cases h0 : 0 ≤ e
      · have h3 := h1 h0
        have : d * 1 ≤ d * 2 ^ e.toNat := Nat.mul_le_mul_left _ (Nat.one_le_two_pow)
        have : n * 1 ≤ n * 2 ^ (52 - e).toNat := Nat.mul_le_mul_left _ (Nat.one_le_two_pow)
        omega
      · have h3 := h2 (by omega)
        have : n * 2 ^ (-e).toNat ≤ n * 2 ^ (52 - e).toNat :=
          Nat.mul_le_mul_left _ (Nat.pow_le_pow_right (by omega) (by omega))
        omega
    have h5 := roundHalfEven_pos (n * 2 ^ (52 - e).toNat) d (by omega) h4
    rw [Rat.mkRat_eq_div]
    apply div_pos
    · exact_mod_cast h5
    · have : 0 < 2 ^ (52 - e).toNat := Nat.two_pow_pos _
      exact_mod_cast this

theorem roundDouble_pos_iff (q : ℚ) : 0 < roundDouble q ↔ 0 < q := by
  unfold roundDouble
  by_cases h0 : q = 0
  · simp [h0]
  · rw [if_neg h0]
    by_cases hq : 0 < q
    · rw [if_pos hq]
      have hnum : 0 < q.num := Rat.num_pos.mpr hq
      have := roundPos_pos q.num.toNat q.den (by omega) q.den_pos
      exact ⟨fun _ => hq, fun _ => this⟩
    · rw [if_neg hq]
      have hlt : q < 0 := lt_of_le_of_ne (not_lt.mp hq) h0
      have hnum : q.num < 0 := Rat.num_neg.mpr hlt
      have := roundPos_pos (-q.num).toNat q.den (by omega) q.den_pos
      constructor
      · intro h
        linarith
      · intro h
        exact absurd h hq

theorem binade_upper (n d : Nat) (hn : 1 ≤ n) (hd : 1 ≤ d) :
    (0 ≤ binade n d → n < d * 2 ^ ((binade n d).toNat + 1)) ∧
    (binade n d < 0 → n * 2 ^ (- binade n d).toNat < 2 * d) := by
  obtain ⟨hn1, hn2⟩ := halvings_spec n n hn (le_refl _)
  obtain ⟨hd1, hd2⟩ := halvings_spec d d hd (le_refl _)
  unfold binade
  simp only []
  generalize halvings n n = a at *
  generalize halvings d d = b at *
  by_cases he : (a : Int) - (b : Int) ≥ 0
  · rw [if_pos he]
    have hab : b ≤ a := by omega
    have ht : ((a : Int) - (b : Int)).toNat = a - b := by omega
    rw [ht]
    by_cases hlt : n < d * 2 ^ (a - b)
    · rw [if_pos hlt]
      constructor
      · intro h0
        have ht2 : ((a : Int) - (b : Int) - 1).toNat + 1 = a - b := by omega
        rw [ht2]
        exact hlt
      · intro h0
        have hab0 : a = b := by omega
        subst hab0
        have ht2 : (-((a : Int) - (a : Int) - 1)).toNat = 1 := by omega
        rw [ht2]
        simp only [Nat.sub_self, pow_zero, mul_one] at hlt
        omega
    · rw [if_neg hlt]
      constructor
      · intro _
        rw [ht]
        have : 2 ^ b * 2 ^ (a - b + 1) ≤ d * 2 ^ (a - b + 1) := Nat.mul_le_mul_right _ hd1
        rw [← pow_add, show b + (a - b + 1) = a + 1 by omega] at this
        omega
      · intro h0
        omega
  · rw [if_neg he]
    have hab : a < b := by omega
    have ht : (-((a : Int) - (b : Int))).toNat = b - a := by omega
    rw [ht]
    by_cases hlt : n * 2 ^ (b - a) < d
    · rw [if_pos hlt]
      constructor
      · intro h0
        omega
      · intro _
        have ht2 : (-((a : Int) - (b : Int) - 1)).toNat = b - a + 1 := by omega
        rw [ht2, pow_succ, ← mul_assoc]
        omega
    · rw [if_neg hlt]
      constructor
      · intro h0
        omega
      · intro _
        rw [ht]
        have : n * 2 ^ (b - a) < 2 ^ (a + 1) * 2 ^ (b - a) :=
          Nat.mul_lt_mul_of_pos_right hn2 (Nat.two_pow_pos _)
        rw [← pow_add, show a + 1 + (b - a) = b + 1 by omega, pow_succ] at this
        omega

theorem roundHalfEven_spec (n d : Nat) (hd : 0 < d) :
    2 * (roundHalfEven n d * d) ≤ 2 * n + d ∧ 2 * n ≤ 2 * (roundHalfEven n d * d) + d ∧
    n / d ≤ roundHalfEven n d ∧ roundHalfEven n d ≤ n / d + 1 := by
  have h1 := Nat.div_add_mod n d
  have h2 := Nat.mod_lt n hd
  have h3 : (n / d + 1) * d = d * (n / d) + d := by ring
  have h4 : n / d * d = d * (n / d) := by ring
  unfold roundHalfEven
  simp only []
  split
  · rw [h4]
    omega
  · split
    · rw [h3]
      omega
    · split
      · rw [h4]
        omega
      · rw [h3]
        omega

/-- The rounding is to a nearest double: roundPos n d is m units in the last
place, where the unit is 2^(e-52) for the binade e of n / d, the significand m
has 53 bits (2^52 <= m <= 2^53) and m differs from n / d in units by at most
one half. -/
theorem roundPos_nearest (n d : Nat) (hn : 1 ≤ n) (hd : 1 ≤ d) :
    ∃ m : Nat, 2 ^ 52 ≤ m ∧ m ≤ 2 ^ 53 ∧
      ((52 ≤ binade n d ∧
          roundPos n d = ((m * 2 ^ (binade n d - 52).toNat : Nat) : ℚ) ∧
          2 * (m * (d * 2 ^ (binade n d - 52).toNat)) ≤ 2 * n + d * 2 ^ (binade n d - 52).toNat ∧
          2 * n ≤ 2 * (m * (d * 2 ^ (binade n d - 52).toNat))
            + d * 2 ^ (binade n d - 52).toNat) ∨
       (binade n d < 52 ∧
          roundPos n d = (m : ℚ) / ((2 ^ (52 - binade n d).toNat : Nat) : ℚ) ∧
          2 * (m * d) ≤ 2 * (n * 2 ^ (52 - binade n d).toNat) + d ∧
          2 * (n * 2 ^ (52 - binade n d).toNat) ≤ 2 * (m * d) + d)) := by
  obtain ⟨h1, h2⟩ := binade_spec n d hn hd
  obtain ⟨h3, h4⟩ := binade_upper n d hn hd
  unfold roundPos
  simp only []
  generalize binade n d = e at *
  by_cases he : e ≥ 52
  · rw [if_pos he]
    have hlo := h1 (by omega)
    have hhi := h3 (by omega)
    have hk : e.toNat = (e - 52).toNat + 52 := by omega
    rw [hk] at hlo hhi
    generalize (e - 52).toNat = k at *
    have hD : 0 < d * 2 ^ k := Nat.mul_pos (by omega) (Nat.two_pow_pos _)
    obtain ⟨s1, s2, s3, s4⟩ := roundHalfEven_spec n (d * 2 ^ k) hD
    have hlo2 : d * 2 ^ k * 2 ^ 52 ≤ n := by
      rw [pow_add] at hlo
      rwa [mul_assoc]
    have hhi2 : n < d * 2 ^ k * 2 ^ 53 := by
      rw [show k + 52 + 1 = k + 53 by omega, pow_add] at hhi
      rwa [mul_assoc]
    have hf1 : 2 ^ 52 ≤ n / (d * 2 ^ k) := (Nat.le_div_iff_mul_le hD).mpr (by
      rw [mul_comm]; exact hlo2)
    have hf2 : n / (d * 2 ^ k) < 2 ^ 53 := (Nat.div_lt_iff_lt_mul hD).mpr (by
      rw [mul_comm]; exact hhi2)
    refine ⟨roundHalfEven n (d * 2 ^ k), by omega, by omega, Or.inl ⟨he, ?_, s1, s2⟩⟩
    rw [Rat.mkRat_eq_div]
    simp
  · rw [if_neg he]
    have hk52 : (52 - e).toNat = (52 - e).toNat := rfl
    have hlo2 : d * 2 ^ 52 ≤ n * 2 ^ (52 - e).toNat := by
      by_cases h0 : 0 ≤ e
      · have hlo := h1 h0
        have hs : e.toNat + (52 - e).toNat = 52 := by omega
        have : d * 2 ^ e.toNat * 2 ^ (52 - e).toNat ≤ n * 2 ^ (52 - e).toNat :=
          Nat.mul_le_mul_right _ hlo
        rw [mul_assoc, ← pow_add, hs] at this
        exact this
      · have hlo := h2 (by omega)
        have hs : (-e).toNat + 52 = (52 - e).toNat := by omega
        have : d * 2 ^ 52 ≤ n * 2 ^ (-e).toNat * 2 ^ 52 := Nat.mul_le_mul_right _ hlo
        rw [mul_assoc, ← pow_add, hs] at this
        exact this
    have hhi2 : n * 2 ^ (52 - e).toNat < d * 2 ^ 53 := by
      by_cases h0 : 0 ≤ e
      · have hhi := h3 h0
        have hs : e.toNat + 1 + (52 - e).toNat = 53 := by omega
        have : n * 2 ^ (52 - e).toNat < d * 2 ^ (e.toNat + 1) * 2 ^ (52 - e).toNat :=
          Nat.mul_lt_mul_of_pos_right hhi (Nat.two_pow_pos _)
        rw [mul_assoc, ← pow_add, hs] at this
        exact this
      · have hhi := h4 (by omega)
        have hs : (-e).toNat + 52 = (52 - e).toNat := by omega
        have : n * 2 ^ (-e).toNat * 2 ^ 52 < 2 * d * 2 ^ 52 :=
          Nat.mul_lt_mul_of_pos_right hhi (Nat.two_pow_pos _)
        rw [mul_assoc, ← pow_add, hs] at this
        rw [pow_succ]
        omega
    generalize (52 - e).toNat = k at *
    obtain ⟨s1, s2, s3, s4⟩ := roundHalfEven_spec (n * 2 ^ k) d (by omega)
    have hf1 : 2 ^ 52 ≤ n * 2 ^ k / d := (Nat.le_div_iff_mul_le (by omega)).mpr (by
      rw [mul_comm]; exact hlo2)
    have hf2 : n * 2 ^ k / d < 2 ^ 53 := (Nat.div_lt_iff_lt_mul (by omega)).mpr (by
      rw [mul_comm (2 ^ 53)]; exact hhi2)
    refine ⟨roundHalfEven (n * 2 ^ k) d, by omega, by omega, Or.inr ⟨by omega, ?_, s1, s2⟩⟩
    rw [Rat.mkRat_eq_div]
    simp

theorem ToDoubleMSRounded_pos_iff (t : Time) : ToDoubleMSRounded t > 0 ↔ 0 < t := by
  unfold ToDoubleMSRounded
  rw [gt_iff_lt, roundDouble_pos_iff]
  exact ToDoubleMS_pos_iff t

theorem extremesHold_observe {a : Acc} {xs : List ℚ} {x : ℚ} (h : ExtremesHold a xs)
    (hpos : ∀ y ∈ xs, 0 < y) (hx : 0 < x) : ExtremesHold (observeDouble a x) (xs ++ [x]) := by
  obtain ⟨hn, hnil, hne⟩ := h
  refine ⟨?_, ?_, ?_⟩
  · simp [observeDouble, hn]
  · intro h0
    simp at h0
  · intro _
    by_cases hxs : xs = []
    · obtain ⟨h1, h2⟩ := hnil hxs
      subst hxs
      simp only [observeDouble, updMin, updMax, h1, h2, true_or, if_true, gt_iff_lt, hx,
        List.nil_append, List.mem_singleton, forall_eq, le_refl, and_self]
    · obtain ⟨h1, h2, h3, h4⟩ := hne hxs
      have hmin : a.1 ≠ 0 := ne_of_gt (hpos _ h1)
      refine ⟨?_, ?_, ?_, ?_⟩
      · simp only [observeDouble, updMin, hmin, false_or, List.mem_append, List.mem_singleton]
        split
        · exact Or.inr rfl
        · exact Or.inl h1
      · intro y hy
        simp only [List.mem_append, List.mem_singleton] at hy
        simp only [observeDouble, updMin, hmin, false_or]
        split
        · rename_i hlt
          rcases hy with hy | hy
          · exact le_trans (le_of_lt hlt) (h2 y hy)
          · rw [hy]
        · rename_i hge
          rcases hy with hy | hy
          · exact h2 y hy
          · rw [hy]; exact not_lt.mp hge
      · simp only [observeDouble, updMax, gt_iff_lt, List.mem_append, List.mem_singleton]
        split
        · exact Or.inr rfl
        · exact Or.inl h3
      · intro y hy
        simp only [List.mem_append, List.mem_singleton] at hy
        simp only [observeDouble, updMax, gt_iff_lt]
        split
        · rename_i hlt
          rcases hy with hy | hy
          · exact le_trans (h4 y hy) (le_of_lt hlt)
          · rw [hy]
        · rename_i hge
          rcases hy with hy | hy
          · exact h4 y hy
          · rw [hy]; exact not_lt.mp hge

theorem dequeueGlobalDouble_lastTxTime (now : Time) (s : State) :
    (dequeueGlobalDouble now s).m_lastTxTime = now := by
  unfold dequeueGlobalDouble
  rfl

theorem dequeueGlobalDouble_dlStats (now : Time) (s : State) :
    (dequeueGlobalDouble now s).m_dlStats = s.m_dlStats := by
  unfold dequeueGlobalDouble
  simp only
  split
  · split <;> rfl
  · rfl

theorem dequeueGlobalDouble_holAcc (now : Time) (s : State) :
    (dequeueGlobalDouble now s).holAcc
      = if 0 < s.m_lastTxTime ∧ s.m_lastTxTime < now then
          observeDouble s.holAcc (ToDoubleMSRounded (now - s.m_lastTxTime))
        else s.holAcc := by
  unfold dequeueGlobalDouble
  by_cases h1 : 0 < s.m_lastTxTime
  · by_cases h2 : s.m_lastTxTime < now
    · have h3 : ToDoubleMSRounded (now - s.m_lastTxTime) > 0 := by
        rw [ToDoubleMSRounded_pos_iff]
        simp only [Time] at *
        omega
      simp only [h1, h2, h3, and_self, if_true]
      rfl
    · have h3 : ¬ ToDoubleMSRounded (now - s.m_lastTxTime) > 0 := by
        rw [ToDoubleMSRounded_pos_iff]
        simp only [Time] at *
        omega
      simp only [h1, h2, h3, and_false, if_true, if_false]
      rfl
  · simp only [h1, false_and, if_false]
    rfl

theorem holGapsDouble_pos : ∀ (ts : List Time) (last : Time),
    ∀ x ∈ holGapsDouble last ts, 0 < x := by
  intro ts
  induction ts with
  | nil => intro last x hx; simp [holGapsDouble] at hx
  | cons t rest ih =>
    intro last x hx
    simp only [holGapsDouble, List.mem_append] at hx
    rcases hx with hx | hx
    · split at hx
      · rename_i hc
        simp only [List.mem_singleton] at hx
        subst hx
        have : ToDoubleMSRounded (t - last) > 0 := by
          rw [ToDoubleMSRounded_pos_iff]
          have := hc.2
          simp only [Time] at *
          omega
        exact this
      · simp at hx
    · exact ih t x hx

theorem holGapsDouble_length : ∀ (ts : List Time) (last : Time),
    (holGapsDouble last ts).length = (holGaps last ts).length := by
  intro ts
  induction ts with
  | nil => intro last; rfl
  | cons t rest ih =>
    intro last
    simp only [holGapsDouble, holGaps, List.length_append, ih t]
    split <;> rfl

theorem run_holDouble (env : Env) (evs : List Event) : ∀ (s s' : State) (xs : List ℚ),
    ExtremesHold s.holAcc xs → (∀ y ∈ xs, 0 < y) →
    runEvents (handleHolDouble env) evs s = some s' →
    ExtremesHold s'.holAcc (xs ++ holGapsDouble s.m_lastTxTime (dequeueTimes env evs)) := by
  induction evs with
  | nil =>
    intro s s' xs ha _ h
    simp only [runEvents, Option.some.injEq] at h
    subst h
    simpa [dequeueTimes, holGapsDouble] using ha
  | cons e rest ih =>
    intro s s' xs ha hpos h
    simp only [runEvents] at h
    cases hstep : handleHolDouble env e s with
    | none => simp [hstep] at h
    | some s1 =>
      simp only [hstep] at h
      have hother : (∀ now item, e ≠ Event.msduDequeued now item) →
          handle env e s = some s1 →
          dequeueTimes env (e :: rest) = dequeueTimes env rest →
          ExtremesHold s'.holAcc
            (xs ++ holGapsDouble s.m_lastTxTime (dequeueTimes env (e :: rest))) := by
        intro hk hst hd
        have hv := handle_holView_of_not_dequeue hk hst
        simp only [State.holView, Prod.mk.injEq] at hv
        have := ih s1 s' xs (by rw [hv.1]; exact ha) hpos h
        rw [hv.2] at this
        rw [hd]
        exact this
      cases e with
      | msduDequeued now item =>
        simp only [handleHolDouble, NotifyMsduDequeuedFromEdcaQueueDouble] at hstep
        by_cases hd : now > item.timeStamp + env.maxDelay
        · rw [if_pos hd, Option.some.injEq] at hstep
          subst hstep
          simp only [dequeueTimes, hd, if_true]
          exact ih s s' xs ha hpos h
        · rw [if_neg hd] at hstep
          simp only [dequeueGlobalDouble_dlStats] at hstep
          cases hf : find item.addr1 s.m_dlStats with
          | none => simp [hf] at hstep
          | some st =>
            simp only [hf, Option.some.injEq] at hstep
            have hacc : s1.holAcc = (dequeueGlobalDouble now s).holAcc := by
              subst hstep; rfl
            have hlast : s1.m_lastTxTime = now := by
              subst hstep; exact dequeueGlobalDouble_lastTxTime now s
            rw [dequeueGlobalDouble_holAcc] at hacc
            simp only [dequeueTimes, hd, if_false, holGapsDouble]
            by_cases hg : 0 < s.m_lastTxTime ∧ s.m_lastTxTime < now
            · rw [if_pos hg] at hacc ⊢
              have hx : 0 < ToDoubleMSRounded (now - s.m_lastTxTime) := by
                have : ToDoubleMSRounded (now - s.m_lastTxTime) > 0 := by
                  rw [ToDoubleMSRounded_pos_iff]
                  have := hg.2
                  simp only [Time] at *
                  omega
                exact this
              have h1 := extremesHold_observe ha hpos hx
              rw [← hacc] at h1
              have h2 := ih s1 s' _ h1 (by
                intro y hy
                simp only [List.mem_append, List.mem_singleton] at hy
                rcases hy with hy | hy
                · exact hpos y hy
                · rw [hy]; exact hx) h
              rw [hlast] at h2
              simpa [List.append_assoc] using h2
            · rw [if_neg hg] at hacc ⊢
              have h2 := ih s1 s' xs (by rw [hacc]; exact ha) hpos h
              rw [hlast] at h2
              simpa using h2
      | txFailed a => exact hother (by intro _ _ h0; cases h0) hstep rfl
      | msduExpired a => exact hother (by intro _ _ h0; cases h0) hstep rfl
      | psduForwardedDown ev => exact hother (by intro _ _ h0; cases h0) hstep rfl
      | txopDuration d => exact hother (by intro _ _ h0; cases h0) hstep rfl
      | applicationTx now p => exact hother (by intro _ _ h0; cases h0) hstep rfl
      | applicationRx now ctx p => exact hother (by intro _ _ h0; cases h0) hstep rfl

/-- Claim C22.  After every sequence of events processed from the initial
state, m_nHolDelaySamples is the number of dequeues, among those not discarded,
whose time strictly exceeds a strictly positive time of the dequeue before; the
gaps counted are strictly positive, and when there is one, m_minHolDelay and
m_maxHolDelay are the smallest and the largest of them in milliseconds.  The
running mean of line 1061, taken over exact rationals as updAvg does, is the
arithmetic mean of the gaps and then lies between the two.  The first dequeue
that is not discarded counts no gap.  With the double operations of the
dequeue handler rounded, the count is the same and m_minHolDelay and
m_maxHolDelay are the smallest and the largest of the gaps as doubles; the
order of the mean is lost there, as the evaluation after the next theorem
shows. -/
theorem hol_delay_extremes (env : Env) (staAddrs : List Mac48Address) (nStations : Nat)
    (evs : List Event) (s : State)
    (hrun : runEvents (handle env) evs (initialState staAddrs nStations) = some s) :
    s.m_nHolDelaySamples = (holGaps 0 (dequeueTimes env evs)).length ∧
    (∀ x ∈ holGaps 0 (dequeueTimes env evs), 0 < x) ∧
    (0 < s.m_nHolDelaySamples →
      s.m_minHolDelay ∈ holGaps 0 (dequeueTimes env evs) ∧
      (∀ x ∈ holGaps 0 (dequeueTimes env evs), s.m_minHolDelay ≤ x) ∧
      s.m_maxHolDelay ∈ holGaps 0 (dequeueTimes env evs) ∧
      (∀ x ∈ holGaps 0 (dequeueTimes env evs), x ≤ s.m_maxHolDelay) ∧
      s.m_avgHolDelay = (holGaps 0 (dequeueTimes env evs)).sum
        / ((holGaps 0 (dequeueTimes env evs)).length : ℚ) ∧
      s.m_minHolDelay ≤ s.m_avgHolDelay ∧ s.m_avgHolDelay ≤ s.m_maxHolDelay) ∧
    (∀ (t : Time) (rest : List Time), dequeueTimes env evs = t :: rest →
      holGaps 0 (dequeueTimes env evs) = holGaps t rest ∧
      s.m_nHolDelaySamples ≤ rest.length) ∧
    (∀ sd : State,
      runEvents (handleHolDouble env) evs (initialState staAddrs nStations) = some sd →
        sd.m_nHolDelaySamples = s.m_nHolDelaySamples ∧
        sd.m_nHolDelaySamples = (holGapsDouble 0 (dequeueTimes env evs)).length ∧
        (∀ x ∈ holGapsDouble 0 (dequeueTimes env evs), 0 < x) ∧
        (0 < sd.m_nHolDelaySamples →
          sd.m_minHolDelay ∈ holGapsDouble 0 (dequeueTimes env evs) ∧
          (∀ x ∈ holGapsDouble 0 (dequeueTimes env evs), sd.m_minHolDelay ≤ x) ∧
          sd.m_maxHolDelay ∈ holGapsDouble 0 (dequeueTimes env evs) ∧
          (∀ x ∈ holGapsDouble 0 (dequeueTimes env evs), x ≤ sd.m_maxHolDelay))) := by
  have h0 := initialState_holView staAddrs nStations
  simp only [State.holView, Prod.mk.injEq] at h0
  have hinit : AccHolds (initialState staAddrs nStations).holAcc [] := by
    rw [h0.1]
    exact ⟨rfl, by simp, fun _ => ⟨rfl, rfl⟩, fun h => absurd rfl h⟩
  have hacc := run_hol env evs _ _ [] hinit (by simp) hrun
  rw [h0.2, List.nil_append] at hacc
  obtain ⟨hn, havg, -, hne⟩ := hacc
  have hpos := holGaps_pos (dequeueTimes env evs) 0
  have hcount : s.m_nHolDelaySamples = (holGaps 0 (dequeueTimes env evs)).length := hn
  refine ⟨hcount, hpos, ?_, ?_, ?_⟩
  · intro hs
    rw [hcount] at hs
    have hnil : holGaps 0 (dequeueTimes env evs) ≠ [] := by
      intro h
      rw [h] at hs
      simp at hs
    obtain ⟨h1, h2, h3, h4⟩ := hne hnil
    have hlen : (0 : ℚ) < ((holGaps 0 (dequeueTimes env evs)).length : ℚ) := by
      exact_mod_cast hs
    have hmean : s.m_avgHolDelay = (holGaps 0 (dequeueTimes env evs)).sum
        / ((holGaps 0 (dequeueTimes env evs)).length : ℚ) := by
      have : s.holAcc.2.2.1 = s.m_avgHolDelay := rfl
      rw [this] at havg
      rw [← havg]
      field_simp
    have hlo := List.card_nsmul_le_sum (holGaps 0 (dequeueTimes env evs)) s.m_minHolDelay h2
    have hhi := List.sum_le_card_nsmul (holGaps 0 (dequeueTimes env evs)) s.m_maxHolDelay h4
    simp only [nsmul_eq_mul] at hlo hhi
    refine ⟨h1, h2, h3, h4, hmean, ?_, ?_⟩
    · rw [hmean, le_div_iff₀ hlen]
      linarith
    · rw [hmean, div_le_iff₀ hlen]
      linarith
  · intro t rest ht
    rw [hcount, ht]
    have : holGaps 0 (t :: rest) = holGaps t rest := by
      simp [holGaps]
    rw [this]
    exact ⟨rfl, holGaps_length_le rest t⟩
  · intro sd hsd
    have hinitd : ExtremesHold (initialState staAddrs nStations).holAcc [] := by
      rw [h0.1]
      exact ⟨rfl, fun _ => ⟨rfl, rfl⟩, fun h => absurd rfl h⟩
    have haccd := run_holDouble env evs _ _ [] hinitd (by simp) hsd
    rw [h0.2, List.nil_append] at haccd
    obtain ⟨hnd, -, hned⟩ := haccd
    have hcountd : sd.m_nHolDelaySamples
        = (holGapsDouble 0 (dequeueTimes env evs)).length := hnd
    refine ⟨?_, hcountd, holGapsDouble_pos (dequeueTimes env evs) 0, ?_⟩
    · rw [hcountd, hcount]
      exact holGapsDouble_length _ _
    · intro hs
      rw [hcountd] at hs
      have hnil : holGapsDouble 0 (dequeueTimes env evs) ≠ [] := by
        intro h
        rw [h] at hs
        simp at hs
      exact hned hnil

theorem hol_delay_extremes_witness :
    runEvents (handle exEnv)
        [Event.msduDequeued 1000000 exItem, Event.msduDequeued 3000000 exItem]
        (initialState [10, 20, 30] 3) = some exHol ∧
    exHol.m_nHolDelaySamples
      = (holGaps 0 (dequeueTimes exEnv
          [Event.msduDequeued 1000000 exItem, Event.msduDequeued 3000000 exItem])).length ∧
    holGaps 0 (dequeueTimes exEnv
        [Event.msduDequeued 1000000 exItem, Event.msduDequeued 3000000 exItem]) = [2] :=
  ⟨by with_unfolding_all rfl,
   (hol_delay_extremes exEnv [10, 20, 30] 3
     [Event.msduDequeued 1000000 exItem, Event.msduDequeued 3000000 exItem] exHol
     (by with_unfolding_all rfl)).1,
   by with_unfolding_all rfl⟩

set_option maxRecDepth 8000 in
/-- Claim C22, the order of the mean refuted on the example scenario with the
double operations rounded.  Four dequeues 0.1 ms apart give three samples equal
to the double nearest to 0.1: the count is 3, the minimum and the maximum are
that double, and the running mean of line 1061 is the next double above it, so
that m_avgHolDelay exceeds m_maxHolDelay.  With dequeues 0.7 ms apart the
running mean is the double below the samples, so that m_avgHolDelay is less
than m_minHolDelay. -/
theorem hol_mean_outside_extremes :
    (runEvents (handleHolDouble exEnv) (exEqualGaps 100000) exInit).map
        (fun s => (s.m_nHolDelaySamples, s.m_minHolDelay, s.m_maxHolDelay, s.m_avgHolDelay))
      = some (3, 3602879701896397 / 36028797018963968, 3602879701896397 / 36028797018963968,
              7205759403792795 / 72057594037927936) ∧
    ¬ ((7205759403792795 / 72057594037927936 : ℚ) ≤ 3602879701896397 / 36028797018963968) ∧
    (runEvents (handleHolDouble exEnv) (exEqualGaps 700000) exInit).map
        (fun s => (s.m_nHolDelaySamples, s.m_minHolDelay, s.m_maxHolDelay, s.m_avgHolDelay))
      = some (3, 3152519739159347 / 4503599627370496, 3152519739159347 / 4503599627370496,
              6305039478318693 / 9007199254740992) ∧
    ¬ ((3152519739159347 / 4503599627370496 : ℚ) ≤ 6305039478318693 / 9007199254740992) := by
  refine ⟨by with_unfolding_all rfl, by norm_num, by with_unfolding_all rfl, by norm_num⟩

theorem lastTxTimes_assign_same {k : Nat} {v st : DlStats} (m : List (Mac48Address × DlStats))
    (h : find k m = some st) (hv : v.lastTxTime = st.lastTxTime) :
    lastTxTimes (assign k v m) = lastTxTimes m := by
  induction m with
  | nil => rfl
  | cons p rest ih =>
    obtain ⟨k', v'⟩ := p
    by_cases hk : k' = k
    · simp only [find, hk, if_true, Option.some.injEq] at h
      subst h
      simp [assign, hk, lastTxTimes, hv]
    · simp only [find, hk, if_false] at h
      have := ih h
      simp only [lastTxTimes] at this
      simp [assign, hk, lastTxTimes, this]

theorem mem_lastTxTimes_assign {k : Nat} {v st : DlStats} (m : List (Mac48Address × DlStats))
    (h : find k m = some st) :
    v.lastTxTime ∈ lastTxTimes (assign k v m) ∧
    ∀ t ∈ lastTxTimes (assign k v m), t = v.lastTxTime ∨ t ∈ lastTxTimes m := by
  induction m with
  | nil => simp [find] at h
  | cons p rest ih =>
    obtain ⟨k', v'⟩ := p
    by_cases hk : k' = k
    · simp only [assign, hk, if_true, lastTxTimes, List.map_cons, List.mem_cons, true_or,
        true_and]
      intro t ht
      rcases ht with ht | ht
      · exact Or.inl ht
      · exact Or.inr (Or.inr ht)
    · simp only [find, hk, if_false] at h
      obtain ⟨h1, h2⟩ := ih h
      simp only [lastTxTimes] at h1 h2
      simp only [assign, hk, if_false, lastTxTimes, List.map_cons, List.mem_cons]
      refine ⟨Or.inr h1, ?_⟩
      intro t ht
      rcases ht with ht | ht
      · exact Or.inr (Or.inl ht)
      · rcases h2 t ht with h3 | h3
        · exact Or.inl h3
        · exact Or.inr (Or.inr h3)

theorem dlSizeLoop_lastTxTimes (l : List (Nat × WifiPsdu)) :
    ∀ (mx sm : Nat) (dl : List (Mac48Address × DlStats))
      (r : Nat × Nat × List (Mac48Address × DlStats)),
      dlSizeLoop l mx sm dl = some r → lastTxTimes r.2.2 = lastTxTimes dl := by
  induction l with
  | nil =>
    intro mx sm dl r h
    simp [dlSizeLoop] at h
    subst h
    rfl
  | cons p rest ih =>
    intro mx sm dl r h
    obtain ⟨k, psdu⟩ := p
    simp only [dlSizeLoop] at h
    cases hf : find psdu.addr1 dl with
    | none => simp [hf] at h
    | some st =>
      simp only [hf] at h
      rw [ih _ _ _ _ h]
      exact lastTxTimes_assign_same dl hf rfl

theorem dlRatioLoop_lastTxTimes (env : Env) (pm : List (Nat × WifiPsdu)) (mx : Nat)
    (us : List Nat) :
    ∀ (dl dl' : List (Mac48Address × DlStats)),
      dlRatioLoop env pm mx us dl = some dl' → lastTxTimes dl' = lastTxTimes dl := by
  induction us with
  | nil =>
    intro dl dl' h
    simp [dlRatioLoop] at h
    subst h
    rfl
  | cons k rest ih =>
    intro dl dl' h
    simp only [dlRatioLoop] at h
    cases hk : find k env.staList with
    | none => simp [hk] at h
    | some b =>
      simp only [hk] at h
      cases hf : find b dl with
      | none => simp [hf] at h
      | some st =>
        simp only [hf] at h
        rw [ih _ _ h]
        exact lastTxTimes_assign_same dl hf rfl

theorem closeWindow_dlStats (s : State) : (closeWindow s).m_dlStats = s.m_dlStats := by
  unfold closeWindow
  split
  · split <;> rfl
  · rfl

theorem step_lastTxTimes {env : Env} {ev : PsduForwardedDown} {s s' : State}
    (h : NotifyPsduForwardedDown env ev s = some s') :
    lastTxTimes s'.m_dlStats = lastTxTimes s.m_dlStats := by
  rw [step_eq_classify] at h
  cases hc : classify env ev with
  | undefined => simp [hc] at h
  | ulHeTb a =>
    simp only [hc] at h
    obtain ⟨st, -, hs⟩ := ulResponse_some h
    subst hs
    rfl
  | ulOther =>
    simp only [hc, Option.some.injEq] at h
    subst h
    rfl
  | dl =>
    simp only [hc] at h
    obtain ⟨dl1, h1, hs⟩ := downlink_some h
    have hl1 := dlSizeLoop_lastTxTimes _ _ _ _ _ h1
    simp only at hl1
    by_cases hp : ev.txVector.preamble = WifiPreamble.HE_MU
    · simp only [hp, if_true] at hs
      obtain ⟨-, dl2, h2, hs⟩ := hs
      subst hs
      simp only
      rw [dlRatioLoop_lastTxTimes _ _ _ _ _ _ h2, hl1]
    · simp only [hp, if_false] at hs
      subst hs
      exact hl1
  | basicTf t =>
    simp only [hc] at h
    obtain ⟨-, ul, -, hs⟩ := basicTrigger_some h
    subst hs
    simp only [closeWindow_dlStats]
  | ignored =>
    simp only [hc, Option.some.injEq] at h
    subst h
    rfl

theorem handle_lastTxTimes_of_not_dequeue {env : Env} {e : Event} {s s' : State}
    (hk : ∀ now item, e ≠ Event.msduDequeued now item)
    (h : handle env e s = some s') :
    lastTxTimes s'.m_dlStats = lastTxTimes s.m_dlStats := by
  cases e with
  | txFailed a =>
    simp only [handle, NotifyTxFailed] at h
    cases hf : find a s.m_dlStats with
    | none => simp [hf] at h
    | some st =>
      simp only [hf, Option.some.injEq] at h
      subst h
      exact lastTxTimes_assign_same _ hf rfl
  | msduExpired a =>
    simp only [handle, NotifyMsduExpired] at h
    cases hf : find a s.m_dlStats with
    | none => simp [hf] at h
    | some st =>
      simp only [hf, Option.some.injEq] at h
      subst h
      exact lastTxTimes_assign_same _ hf rfl
  | msduDequeued now item => exact absurd rfl (hk now item)
  | psduForwardedDown ev => exact step_lastTxTimes h
  | txopDuration d =>
    simp only [handle, TxopDuration, Option.some.injEq] at h
    subst h
    split <;> rfl
  | applicationTx now p =>
    simp only [handle, NotifyApplicationTx, Option.some.injEq] at h
    subst h
    split <;> rfl
  | applicationRx now ctx p =>
    simp only [handle, NotifyApplicationRx] at h
    split at h
    · simp only [Option.some.injEq] at h; subst h; rfl
    · split at h
      · simp only [Option.some.injEq] at h; subst h; rfl
      · split at h
        · simp at h
        · split at h
          · simp at h
          · simp only [Option.some.injEq] at h; subst h; rfl

theorem run_lastTx (env : Env) (evs : List Event) : ∀ (s s' : State),
    LastTxInv s → List.Chain (· ≤ ·) s.m_lastTxTime (dequeueTimes env evs) →
    runEvents (handle env) evs s = some s' →
    LastTxInv s' ∧
    s'.m_lastTxTime = ((dequeueTimes env evs).getLast?).getD s.m_lastTxTime := by
  induction evs with
  | nil =>
    intro s s' hi _ h
    simp only [runEvents, Option.some.injEq] at h
    subst h
    exact ⟨hi, rfl⟩
  | cons e rest ih =>
    intro s s' hi hch h
    simp only [runEvents] at h
    cases hstep : handle env e s with
    | none => simp [hstep] at h
    | some s1 =>
      simp only [hstep] at h
      have hother : (∀ now item, e ≠ Event.msduDequeued now item) →
          dequeueTimes env (e :: rest) = dequeueTimes env rest →
          LastTxInv s' ∧
          s'.m_lastTxTime
            = ((dequeueTimes env (e :: rest)).getLast?).getD s.m_lastTxTime := by
        intro hk hd
        have hv := handle_holView_of_not_dequeue hk hstep
        simp only [State.holView, Prod.mk.injEq] at hv
        have hl := handle_lastTxTimes_of_not_dequeue hk hstep
        rw [hd] at hch ⊢
        have hi1 : LastTxInv s1 := by
          unfold LastTxInv
          rw [hv.2, hl]
          exact hi
        have := ih s1 s' hi1 (by rw [hv.2]; exact hch) h
        rw [hv.2] at this
        exact this
      cases e with
      | msduDequeued now item =>
        simp only [handle] at hstep
        by_cases hd : now > item.timeStamp + env.maxDelay
        · rw [dequeue_late hd, Option.some.injEq] at hstep
          subst hstep
          simp only [dequeueTimes, hd, if_true] at hch ⊢
          exact ih s s' hi hch h
        · cases hf : find item.addr1 s.m_dlStats with
          | none =>
            simp [NotifyMsduDequeuedFromEdcaQueue, hd, dequeueGlobal_dlStats, hf] at hstep
          | some st =>
            rw [dequeue_eq (not_lt.mp hd) hf, Option.some.injEq] at hstep
            have hlast : s1.m_lastTxTime = now := by
              subst hstep; exact dequeueGlobal_lastTxTime now s
            have hdl : s1.m_dlStats = assign item.addr1 (dequeueSta now st) s.m_dlStats := by
              subst hstep; rfl
            simp only [dequeueTimes, hd, if_false, List.chain_cons] at hch ⊢
            obtain ⟨hle, hch'⟩ := hch
            obtain ⟨m1, m2⟩ := mem_lastTxTimes_assign (v := dequeueSta now st) s.m_dlStats hf
            rw [dequeueSta_lastTxTime] at m1 m2
            have hnow : 0 ≤ now := le_trans hi.1 hle
            have hi1 : LastTxInv s1 := by
              unfold LastTxInv
              rw [hlast, hdl]
              refine ⟨hnow, ?_, Or.inr m1⟩
              intro t ht
              rcases m2 t ht with h1 | h1
              · rw [h1]; exact ⟨hnow, le_refl _⟩
              · exact ⟨(hi.2.1 t h1).1, le_trans (hi.2.1 t h1).2 hle⟩
            have := ih s1 s' hi1 (by rw [hlast]; exact hch') h
            rw [hlast] at this
            refine ⟨this.1, ?_⟩
            rw [this.2]
            cases hr : dequeueTimes env rest with
            | nil => simp
            | cons t ts =>
              simp only [List.getLast?_cons_cons, List.getLast?_eq_getLast _ (List.cons_ne_nil t ts),
                Option.getD_some, List.getLast?_eq_getLast _ (List.cons_ne_nil now (t :: ts))]
              rfl
      | txFailed a => exact hother (by intro _ _ h0; cases h0) rfl
      | msduExpired a => exact hother (by intro _ _ h0; cases h0) rfl
      | psduForwardedDown ev => exact hother (by intro _ _ h0; cases h0) rfl
      | txopDuration d => exact hother (by intro _ _ h0; cases h0) rfl
      | applicationTx now p => exact hother (by intro _ _ h0; cases h0) rfl
      | applicationRx now ctx p => exact hother (by intro _ _ h0; cases h0) rfl

theorem mem_setAt_const {α : Type} (k : Nat) (v : α) (m : List (Nat × α))
    (h : ∀ p ∈ m, p.2 = v) : ∀ p ∈ setAt k v m, p.2 = v := by
  have hassign : ∀ (l : List (Nat × α)), (∀ p ∈ l, p.2 = v) → ∀ p ∈ assign k v l, p.2 = v := by
    intro l
    induction l with
    | nil => intro _ p hp; simp [assign] at hp
    | cons q rest ih =>
      obtain ⟨k', v'⟩ := q
      intro hl p hp
      by_cases hk : k' = k
      · simp only [assign, hk, if_true, List.mem_cons] at hp
        rcases hp with hp | hp
        · subst hp; rfl
        · exact hl p (by simp [hp])
      · simp only [assign, hk, if_false, List.mem_cons] at hp
        rcases hp with hp | hp
        · subst hp; exact hl _ (by simp)
        · exact ih (fun q hq => hl q (by simp [hq])) p hp
  have hinsert : ∀ (l : List (Nat × α)), (∀ p ∈ l, p.2 = v) → ∀ p ∈ insert k v l, p.2 = v := by
    intro l
    induction l with
    | nil =>
      intro _ p hp
      simp only [insert, List.mem_singleton] at hp
      subst hp
      rfl
    | cons q rest ih =>
      obtain ⟨k', v'⟩ := q
      intro hl p hp
      by_cases hlt : k < k'
      · simp only [insert, hlt, if_true, List.mem_cons] at hp
        rcases hp with hp | hp | hp
        · subst hp; rfl
        · subst hp; exact hl _ (by simp)
        · exact hl _ (by simp [hp])
      · by_cases hk : k' = k
        · rw [show insert k v ((k', v') :: rest) = (k', v') :: rest from by
            simp [insert, hlt, hk]] at hp
          exact hl _ hp
        · simp only [insert, hlt, hk, if_false, List.mem_cons] at hp
          rcases hp with hp | hp
          · subst hp; exact hl _ (by simp)
          · exact ih (fun q hq => hl q (by simp [hq])) p hp
  unfold setAt
  cases find k m with
  | none => exact hinsert m h
  | some _ => exact hassign m h

theorem mem_foldl_setAt_const {α : Type} (v : α) (l : List Nat) :
    ∀ (m : List (Nat × α)), (∀ p ∈ m, p.2 = v) →
      ∀ p ∈ l.foldl (fun m a => setAt a v m) m, p.2 = v := by
  induction l with
  | nil => intro m h; exact h
  | cons a rest ih =>
    intro m h
    exact ih _ (mem_setAt_const a v m h)

theorem initialState_lastTxInv (staAddrs : List Mac48Address) (n : Nat) :
    LastTxInv (initialState staAddrs n) ∧ (initialState staAddrs n).m_lastTxTime = 0 := by
  obtain ⟨m, hm⟩ := initialState_eq staAddrs n
  rw [hm]
  refine ⟨⟨le_refl _, ?_, Or.inl rfl⟩, rfl⟩
  intro t ht
  simp only [lastTxTimes, List.mem_map] at ht
  obtain ⟨p, hp, rfl⟩ := ht
  have := mem_foldl_setAt_const DlStats.init staAddrs [] (by simp) p hp
  rw [this]
  exact ⟨le_refl _, le_refl _⟩

theorem mem_of_find {α : Type} {k : Nat} {v : α} (m : List (Nat × α))
    (h : find k m = some v) : (k, v) ∈ m := by
  induction m with
  | nil => simp [find] at h
  | cons p rest ih =>
    obtain ⟨k', v'⟩ := p
    by_cases hk : k' = k
    · simp only [find, hk, if_true, Option.some.injEq] at h
      simp [hk, h]
    · simp only [find, hk, if_false] at h
      simp [ih h]

theorem foldr_max_eq (l : List Time) (M : Time) (hM : 0 ≤ M)
    (hall : ∀ t ∈ l, t ≤ M) (hmem : M = 0 ∨ M ∈ l) : l.foldr max 0 = M := by
  have hle : ∀ (l : List Time), (∀ t ∈ l, t ≤ M) → l.foldr max 0 ≤ M := by
    intro l
    induction l with
    | nil => intro _; exact hM
    | cons a rest ih =>
      intro h
      simp only [List.foldr_cons]
      exact max_le (h a (by simp)) (ih (fun t ht => h t (by simp [ht])))
  have hge : ∀ (l : List Time), 0 ≤ l.foldr max 0 ∧ ∀ t ∈ l, t ≤ l.foldr max 0 := by
    intro l
    induction l with
    | nil => exact ⟨le_refl _, by simp⟩
    | cons a rest ih =>
      simp only [List.foldr_cons, List.mem_cons]
      refine ⟨le_trans ih.1 (le_max_right _ _), ?_⟩
      intro t ht
      rcases ht with ht | ht
      · rw [ht]; exact le_max_left _ _
      · exact le_trans (ih.2 t ht) (le_max_right _ _)
  apply le_antisymm (hle l hall)
  rcases hmem with h | h
  · rw [h]; exact (hge l).1
  · exact (hge l).2 M h

/-- Claim C27.  After every sequence of events from the initial state in which
the times of the dequeues that are not discarded are non-negative and do not
decrease, the lastTxTime of every station is at most the BSS-wide m_lastTxTime,
which is the largest of the lastTxTime values of the stations and the time of
the last such dequeue; all of them are 0 as long as there was none. -/
theorem lastTxTime_is_max (env : Env) (staAddrs : List Mac48Address) (nStations : Nat)
    (evs : List Event) (s : State)
    (hrun : runEvents (handle env) evs (initialState staAddrs nStations) = some s)
    (hmono : List.Chain (· ≤ ·) 0 (dequeueTimes env evs)) :
    (∀ a st, find a s.m_dlStats = some st → st.lastTxTime ≤ s.m_lastTxTime) ∧
    s.m_lastTxTime = (lastTxTimes s.m_dlStats).foldr max 0 ∧
    s.m_lastTxTime = ((dequeueTimes env evs).getLast?).getD 0 ∧
    (dequeueTimes env evs = [] →
      s.m_lastTxTime = 0 ∧ ∀ a st, find a s.m_dlStats = some st → st.lastTxTime = 0) := by
  obtain ⟨hi0, h0⟩ := initialState_lastTxInv staAddrs nStations
  obtain ⟨hinv, hlast⟩ := run_lastTx env evs _ _ hi0 (by rw [h0]; exact hmono) hrun
  rw [h0] at hlast
  have hmem : ∀ a st, find a s.m_dlStats = some st →
      st.lastTxTime ∈ lastTxTimes s.m_dlStats := by
    intro a st hf
    simp only [lastTxTimes, List.mem_map]
    exact ⟨(a, st), mem_of_find _ hf, rfl⟩
  refine ⟨fun a st hf => (hinv.2.1 _ (hmem a st hf)).2, ?_, hlast, ?_⟩
  · exact (foldr_max_eq _ _ hinv.1 (fun t ht => (hinv.2.1 t ht).2) hinv.2.2).symm
  · intro hnil
    rw [hnil] at hlast
    simp only [List.getLast?_nil, Option.getD_none] at hlast
    refine ⟨hlast, fun a st hf => ?_⟩
    have := hinv.2.1 _ (hmem a st hf)
    rw [hlast] at this
    exact le_antisymm this.2 this.1

theorem lastTxTime_is_max_witness :
    (runEvents (handle exEnv)
        [Event.msduDequeued 1000000 exItem, Event.msduDequeued 3000000 exItem]
        (initialState [10, 20, 30] 3) = some exHol ∧
     List.Chain (· ≤ ·) 0 (dequeueTimes exEnv
        [Event.msduDequeued 1000000 exItem, Event.msduDequeued 3000000 exItem])) ∧
    exHol.m_lastTxTime = (lastTxTimes exHol.m_dlStats).foldr max 0 :=
  ⟨⟨by with_unfolding_all rfl, by simp [dequeueTimes, exItem, exEnv]⟩,
   (lastTxTime_is_max exEnv [10, 20, 30] 3
     [Event.msduDequeued 1000000 exItem, Event.msduDequeued 3000000 exItem] exHol
     (by with_unfolding_all rfl) (by simp [dequeueTimes, exItem, exEnv])).2.1⟩

/-! ## Closed windows and Trigger Frame counters -/

theorem step_nBasic {env : Env} {ev : PsduForwardedDown} {s s' : State}
    (h : NotifyPsduForwardedDown env ev s = some s') :
    s'.m_nBasicTriggerFramesSent
      = s.m_nBasicTriggerFramesSent + (if isBasicTf env ev then 1 else 0) := by
  have ht := step_tfState h
  have hcw : (closeWindow s).tfState.1 = s.m_nBasicTriggerFramesSent := by
    rw [closeWindow_tfState]
    split
    · split <;> rfl
    · rfl
  unfold isBasicTf
  cases hc : classify env ev <;> rw [hc] at ht <;>
    simp only [State.tfState, Prod.mk.injEq] at ht <;>
    simp only [Bool.false_eq_true, if_false, if_true, add_zero]
  · exact ht.1
  · exact ht.1
  · exact ht.1
  · exact ht.1
  · rw [ht.1]
    exact congrArg (· + 1) hcw
  · exact ht.1

theorem run_nBasic (env : Env) (evs : List PsduForwardedDown) : ∀ (s s' : State),
    runEvents (NotifyPsduForwardedDown env) evs s = some s' →
    s'.m_nBasicTriggerFramesSent
      = s.m_nBasicTriggerFramesSent + (evs.filter (isBasicTf env)).length := by
  induction evs with
  | nil =>
    intro s s' h
    simp only [runEvents, Option.some.injEq] at h
    subst h
    rfl
  | cons e rest ih =>
    intro s s' h
    obtain ⟨s1, h1, h2⟩ := runEvents_cons_some h
    rw [ih s1 s' h2, step_nBasic h1]
    by_cases hb : isBasicTf env e = true
    · simp [List.filter_cons, hb]; omega
    · simp [List.filter_cons, hb]

/-- Claim C23.  After every sequence of fewer than 2^64 forwarded-frame events
processed from the initial state in which every Basic Trigger Frame carries a
strictly positive granted duration, m_nBasicTriggerFramesSent is the number of
Basic Trigger Frames among them, and once it is at least 1 the failed Trigger
Frames plus the completeness samples recorded (the windows closed with a
non-zero responded duration) are one less: every window but the last one has
been closed.  So m_nFailedTriggerFrames < m_nBasicTriggerFramesSent and the
unsigned m_nBasicTriggerFramesSent - 1 - m_nFailedTriggerFrames is the natural
number, the count of the samples recorded. -/
theorem last_window_unscored (env : Env) (staAddrs : List Mac48Address) (nStations : Nat)
    (evs : List PsduForwardedDown) (s : State)
    (hlen : evs.length < 18446744073709551616)
    (hpos : ∀ ev ∈ evs, ∀ t, classify env ev = Branch.basicTf t → 0 < t.heTbPpduDuration)
    (hrun : runEvents (NotifyPsduForwardedDown env) evs (initialState staAddrs nStations)
      = some s) :
    s.m_nBasicTriggerFramesSent = (evs.filter (isBasicTf env)).length ∧
    (1 ≤ s.m_nBasicTriggerFramesSent →
      s.m_nFailedTriggerFrames + (windowLog env evs).ratios.length + 1
        = s.m_nBasicTriggerFramesSent ∧
      s.m_nFailedTriggerFrames < s.m_nBasicTriggerFramesSent ∧
      s.lengthSamples = s.m_nBasicTriggerFramesSent - 1 - s.m_nFailedTriggerFrames ∧
      s.lengthSamples = (windowLog env evs).ratios.length) ∧
    (s.m_nBasicTriggerFramesSent = 0 →
      s.m_nFailedTriggerFrames = 0 ∧ (windowLog env evs).ratios = []) := by
  have h0 := initialState_tfState staAddrs nStations
  simp only [State.tfState, Prod.mk.injEq, State.lengthAcc] at h0
  obtain ⟨a1, a2, ⟨-, -, a3⟩, a4, -, a6⟩ := h0
  have hinit : LogInv (initialState staAddrs nStations)
      { window := none, responded := 0, ratios := [] } 0 := by
    refine ⟨a4, a6, ?_, ?_, ?_, ?_⟩
    · intro t ht; simp at ht
    · simp
    · omega
    · exact ⟨a1, a2, rfl⟩
  have hfin : LogInv s (windowLog env evs) (0 + evs.length) :=
    run_logInv env evs _ _ _ 0 (by omega) hpos hrun hinit
  obtain ⟨-, -, -, -, hle, hcnt⟩ := hfin
  have hn := run_nBasic env evs _ _ hrun
  rw [a1, Nat.zero_add] at hn
  refine ⟨hn, fun hb => ?_, fun hz => ?_⟩
  · cases hgw : (windowLog env evs).window with
    | none =>
      rw [hgw] at hcnt
      obtain ⟨c1, -, -⟩ := hcnt
      omega
    | some w =>
      rw [hgw] at hcnt
      have hs := lengthSamples_eq hcnt (by omega)
      refine ⟨by omega, by omega, by omega, hs⟩
  · cases hgw : (windowLog env evs).window with
    | none =>
      rw [hgw] at hcnt
      exact ⟨hcnt.2.1, hcnt.2.2⟩
    | some w =>
      rw [hgw] at hcnt
      omega

theorem last_window_unscored_witness :
    (([exTrigger [1, 2] 1000000, exResponse 10 1000000, exTrigger [1, 2] 2000000].length
        < 18446744073709551616) ∧
     runEvents (NotifyPsduForwardedDown exEnv)
        [exTrigger [1, 2] 1000000, exResponse 10 1000000, exTrigger [1, 2] 2000000]
        (initialState [10, 20, 30] 3) = some exWindowClosed) ∧
    exWindowClosed.m_nBasicTriggerFramesSent
      = ([exTrigger [1, 2] 1000000, exResponse 10 1000000,
          exTrigger [1, 2] 2000000].filter (isBasicTf exEnv)).length :=
  ⟨⟨by decide, by with_unfolding_all rfl⟩,
   (last_window_unscored exEnv [10, 20, 30] 3
     [exTrigger [1, 2] 1000000, exResponse 10 1000000, exTrigger [1, 2] 2000000]
     exWindowClosed (by decide)
     (by
       intro ev hev t ht
       simp only [List.mem_cons, List.mem_singleton, List.not_mem_nil, or_false] at hev
       rcases hev with h | h | h
       · subst h
         rw [show classify exEnv (exTrigger [1, 2] 1000000)
           = Branch.basicTf { isBasic := true, aid12s := [1, 2], heTbPpduDuration := 1000000 }
           from by decide] at ht
         injection ht with ht
         subst ht
         decide
       · subst h
         rw [show classify exEnv (exResponse 10 1000000) = Branch.ulHeTb 10 from by decide] at ht
         exact Branch.noConfusion ht
       · subst h
         rw [show classify exEnv (exTrigger [1, 2] 2000000)
           = Branch.basicTf { isBasic := true, aid12s := [1, 2], heTbPpduDuration := 2000000 }
           from by decide] at ht
         injection ht with ht
         subst ht
         decide)
     (by with_unfolding_all rfl)).1⟩

/-! ## Bounds of the DL MU ratios -/

theorem le_largestSize (l : List (Nat × WifiPsdu)) :
    ∀ p ∈ l, p.2.GetSize ≤ largestSize l := by
  induction l with
  | nil => intro p hp; simp at hp
  | cons q rest ih =>
    intro p hp
    simp only [List.mem_cons] at hp
    simp only [largestSize, List.map_cons, List.foldr_cons]
    rcases hp with hp | hp
    · subst hp; exact le_max_left _ _
    · exact le_trans (ih p hp) (le_max_right _ _)

theorem largestSize_mem (l : List (Nat × WifiPsdu)) (h : 0 < largestSize l) :
    ∃ p ∈ l, p.2.GetSize = largestSize l := by
  induction l with
  | nil => simp [largestSize] at h
  | cons q rest ih =>
    simp only [largestSize, List.map_cons, List.foldr_cons] at h ⊢
    by_cases hq : (List.map (fun p => p.2.GetSize) rest).foldr max 0 ≤ q.2.GetSize
    · exact ⟨q, by simp, by rw [max_eq_left hq]⟩
    · have hlt := Nat.lt_of_not_le hq
      have hpos : 0 < largestSize rest := by
        unfold largestSize
        omega
      obtain ⟨p, hp, hpe⟩ := ih hpos
      refine ⟨p, by simp [hp], ?_⟩
      rw [max_eq_right (le_of_lt hlt)]
      exact hpe

theorem totalSize_le (l : List (Nat × WifiPsdu)) :
    totalSize l ≤ l.length * largestSize l := by
  have h := List.sum_le_card_nsmul (l.map (fun p => p.2.GetSize)) (largestSize l) (by
    intro x hx
    simp only [List.mem_map] at hx
    obtain ⟨p, hp, rfl⟩ := hx
    exact le_largestSize l p hp)
  simpa [totalSize] using h

theorem find_of_mem_nodup {α : Type} (m : List (Nat × α)) (k : Nat) (v : α)
    (hn : (m.map Prod.fst).Nodup) (h : (k, v) ∈ m) : find k m = some v := by
  induction m with
  | nil => simp at h
  | cons p rest ih =>
    obtain ⟨k', v'⟩ := p
    simp only [List.map_cons, List.nodup_cons] at hn
    simp only [List.mem_cons, Prod.mk.injEq] at h
    rcases h with h | h
    · simp [find, h.1, h.2]
    · have hne : ¬ k' = k := by
        intro hk
        apply hn.1
        rw [hk]
        exact List.mem_map.mpr ⟨(k, v), h, rfl⟩
      simp only [find, hne, if_false]
      exact ih hn.2 h

theorem dlSizeLoop_isSome (l : List (Nat × WifiPsdu)) :
    ∀ (mx sm : Nat) (dl : List (Mac48Address × DlStats)),
      (∀ p ∈ l, find p.2.addr1 dl ≠ none) → dlSizeLoop l mx sm dl ≠ none := by
  induction l with
  | nil => intro mx sm dl _; simp [dlSizeLoop]
  | cons p rest ih =>
    intro mx sm dl h
    obtain ⟨k, psdu⟩ := p
    simp only [dlSizeLoop]
    cases hf : find psdu.addr1 dl with
    | none => exact absurd hf (h (k, psdu) (by simp))
    | some st =>
      simp only
      apply ih
      intro q hq
      rw [find_assign]
      have := h q (by simp [hq])
      split
      · simp [hf]
      · exact this

theorem dlRatioLoop_isSome (env : Env) (pm : List (Nat × WifiPsdu)) (mx : Nat)
    (us : List Nat) :
    ∀ (dl : List (Mac48Address × DlStats)),
      (∀ k ∈ us, ∃ a, find k env.staList = some a ∧ find a dl ≠ none) →
      dlRatioLoop env pm mx us dl ≠ none := by
  induction us with
  | nil => intro dl _; simp [dlRatioLoop]
  | cons k rest ih =>
    intro dl h
    obtain ⟨a, ha, hfa⟩ := h k (by simp)
    simp only [dlRatioLoop, ha]
    cases hf : find a dl with
    | none => exact absurd hf hfa
    | some st =>
      simp only
      apply ih
      intro j hj
      obtain ⟨b, hb, hfb⟩ := h j (by simp [hj])
      refine ⟨b, hb, ?_⟩
      rw [find_assign]
      split
      · simp [hf]
      · exact hfb

theorem step_station_ratio {env : Env} {ev : PsduForwardedDown} {s s' : State}
    (hc : classify env ev = Branch.dl) (hp : ev.txVector.preamble = WifiPreamble.HE_MU)
    (hd : (ev.txVector.heMuUserInfoMap.map (fun k => find k env.staList)).Nodup)
    (h : NotifyPsduForwardedDown env ev s = some s') :
    ∀ k ∈ ev.txVector.heMuUserInfoMap, ∃ a st st',
      find k env.staList = some a ∧ find a s.m_dlStats = some st ∧
      find a s'.m_dlStats = some st' ∧
      st'.ampduAcc = observe st.ampduAcc (staRatio ev.psduMap (maxSizeFrom ev.psduMap 0) k) := by
  obtain ⟨-, dl1, dl2, h1, h2, h3⟩ := step_dlMu hc hp h
  have hsize := dlSizeLoop_ampduAcc _ _ _ _ _ h1
  simp only at hsize
  obtain ⟨hr1, -⟩ := dlRatioLoop_spec env _ _ _ _ _ h2 hd
  intro k hk
  obtain ⟨a, st1, ha, hst1, hst'⟩ := hr1 k hk
  have hsa := hsize a
  rw [hst1] at hsa
  cases hst : find a s.m_dlStats with
  | none => rw [hst] at hsa; simp at hsa
  | some st =>
    rw [hst] at hsa
    simp only [Option.map_some', Option.some.injEq] at hsa
    refine ⟨a, st, _, ha, hst, by rw [h3]; exact hst', ?_⟩
    rw [← hsa]
    rfl

/-- Claim C26.  For an HE MU downlink event with at least one entry in the
user-info map, at least one sub-frame of strictly positive size, the STA-ID of
every sub-frame in the user-info map, distinct STA-IDs in the psduMap (it is a
std::map) and a 32-bit sum and product that do not wrap: maxBytes is strictly
positive, so the assertion holds; the ratio charged for every entry of the
user-info map lies in [0, 1] and is 1 for at least one of them; the BSS-wide
completeness sample lies in (0, 1]; when the stations involved are registered
the handler returns, with that sample entered in the BSS-wide accumulator; and
whenever it returns, with the user-info map addressing distinct stations, the
accumulator of at least one station has observed the sample 1. -/
theorem dlMu_ratios_bounded (env : Env) (ev : PsduForwardedDown)
    (hc : classify env ev = Branch.dl) (hp : ev.txVector.preamble = WifiPreamble.HE_MU)
    (hru : 0 < ev.txVector.heMuUserInfoMap.length)
    (hsz : ∃ p ∈ ev.psduMap, 0 < p.2.GetSize)
    (halloc : ∀ p ∈ ev.psduMap, p.1 ∈ ev.txVector.heMuUserInfoMap)
    (hkeys : (ev.psduMap.map Prod.fst).Nodup)
    (hsum : totalSize ev.psduMap < 4294967296)
    (hprod : largestSize ev.psduMap * ev.txVector.heMuUserInfoMap.length < 4294967296) :
    0 < maxBytesOf ev ∧
    (∀ k ∈ ev.txVector.heMuUserInfoMap,
      0 ≤ staRatio ev.psduMap (maxSizeFrom ev.psduMap 0) k ∧
      staRatio ev.psduMap (maxSizeFrom ev.psduMap 0) k ≤ 1) ∧
    (∃ k ∈ ev.txVector.heMuUserInfoMap,
      staRatio ev.psduMap (maxSizeFrom ev.psduMap 0) k = 1) ∧
    (0 < dlMuSample ev ∧ dlMuSample ev ≤ 1) ∧
    (∀ s : State, (∀ p ∈ ev.psduMap, find p.2.addr1 s.m_dlStats ≠ none) →
      (∀ k ∈ ev.txVector.heMuUserInfoMap,
        ∃ a, find k env.staList = some a ∧ find a s.m_dlStats ≠ none) →
      ∃ s', NotifyPsduForwardedDown env ev s = some s' ∧
        s'.ampduAcc = observe s.ampduAcc (dlMuSample ev)) ∧
    (∀ s s' : State, NotifyPsduForwardedDown env ev s = some s' →
      (ev.txVector.heMuUserInfoMap.map (fun k => find k env.staList)).Nodup →
      ∃ k ∈ ev.txVector.heMuUserInfoMap, ∃ a st st',
        find k env.staList = some a ∧ find a s.m_dlStats = some st ∧
        find a s'.m_dlStats = some st' ∧ st'.ampduAcc = observe st.ampduAcc 1) := by
  obtain ⟨p0, hp0, hpos0⟩ := hsz
  have hmaxpos : 0 < largestSize ev.psduMap := lt_of_lt_of_le hpos0 (le_largestSize _ p0 hp0)
  have hmx : maxSizeFrom ev.psduMap 0 = largestSize ev.psduMap := by
    rw [maxSizeFrom_eq]
    simp
  have hmb : maxBytesOf ev = largestSize ev.psduMap * ev.txVector.heMuUserInfoMap.length := by
    unfold maxBytesOf
    rw [hmx, Nat.mod_eq_of_lt hprod]
  have hmbpos : 0 < maxBytesOf ev := by
    rw [hmb]
    exact Nat.mul_pos hmaxpos hru
  have hQmax : (0 : ℚ) < (largestSize ev.psduMap : ℚ) := by exact_mod_cast hmaxpos
  have hlen : ev.psduMap.length ≤ ev.txVector.heMuUserInfoMap.length := by
    have hsub : ev.psduMap.map Prod.fst ⊆ ev.txVector.heMuUserInfoMap := by
      intro k hk
      simp only [List.mem_map] at hk
      obtain ⟨p, hp, rfl⟩ := hk
      exact halloc p hp
    have := (List.subperm_of_subset hkeys hsub).length_le
    simpa using this
  have hone : ∃ k ∈ ev.txVector.heMuUserInfoMap,
      staRatio ev.psduMap (maxSizeFrom ev.psduMap 0) k = 1 := by
    obtain ⟨p, hp, hpe⟩ := largestSize_mem _ hmaxpos
    refine ⟨p.1, halloc p hp, ?_⟩
    unfold staRatio
    rw [hmx, find_of_mem_nodup _ p.1 p.2 hkeys hp]
    simp only [hpe]
    exact div_self (ne_of_gt hQmax)
  refine ⟨hmbpos, ?_, hone, ?_, ?_, ?_⟩
  · intro k _
    unfold staRatio
    rw [hmx]
    cases hf : find k ev.psduMap with
    | none => simp
    | some psdu =>
      simp only
      have hle : psdu.GetSize ≤ largestSize ev.psduMap :=
        le_largestSize _ (k, psdu) (mem_of_find _ hf)
      have hleQ : (psdu.GetSize : ℚ) ≤ (largestSize ev.psduMap : ℚ) := by exact_mod_cast hle
      constructor
      · positivity
      · rw [div_le_one hQmax]
        exact hleQ
  · rw [dlMuSample_exact ev hsum hprod]
    have hru' : (0 : ℚ) < (ev.txVector.heMuUserInfoMap.length : ℚ) := by exact_mod_cast hru
    have hden : (0 : ℚ) < (largestSize ev.psduMap : ℚ)
        * (ev.txVector.heMuUserInfoMap.length : ℚ) := mul_pos hQmax hru'
    have htot : 0 < totalSize ev.psduMap := by
      unfold totalSize
      have hmem : p0.2.GetSize ∈ ev.psduMap.map (fun p => p.2.GetSize) :=
        List.mem_map.mpr ⟨p0, hp0, rfl⟩
      have := List.single_le_sum (fun x _ => Nat.zero_le x) _ hmem
      omega
    have htotQ : (0 : ℚ) < (totalSize ev.psduMap : ℚ) := by exact_mod_cast htot
    refine ⟨div_pos htotQ hden, ?_⟩
    rw [div_le_one hden]
    have h1 := totalSize_le ev.psduMap
    have h2 : ev.psduMap.length * largestSize ev.psduMap
        ≤ largestSize ev.psduMap * ev.txVector.heMuUserInfoMap.length := by
      rw [Nat.mul_comm]
      exact Nat.mul_le_mul_left _ hlen
    have h3 : totalSize ev.psduMap
        ≤ largestSize ev.psduMap * ev.txVector.heMuUserInfoMap.length := le_trans h1 h2
    exact_mod_cast h3
  · intro s hreg1 hreg2
    have hsome : NotifyPsduForwardedDown env ev s ≠ none := by
      rw [step_eq_classify, hc]
      unfold downlink
      cases hl : dlSizeLoop ev.psduMap 0 0 s.m_dlStats with
      | none => exact absurd hl (dlSizeLoop_isSome _ _ _ _ hreg1)
      | some r =>
        obtain ⟨mx, sm, dl1⟩ := r
        have hv := dlSizeLoop_values _ _ _ _ _ hl
        simp only at hv
        obtain ⟨e1, e2⟩ := hv
        subst e1 e2
        simp only [hp, if_true]
        unfold dlMu
        have hb : 0 < maxSizeFrom ev.psduMap 0 * ev.txVector.heMuUserInfoMap.length
            % 4294967296 := hmbpos
        simp only [gt_iff_lt, hb, if_true]
        have hfind : ∀ a, find a s.m_dlStats ≠ none → find a dl1 ≠ none := by
          intro a ha
          have := dlSizeLoop_sizeView _ _ _ _ _ hl a
          simp only at this
          intro hn
          rw [hn] at this
          cases hfa : find a s.m_dlStats with
          | none => exact ha hfa
          | some st => rw [hfa] at this; simp at this
        cases hr : dlRatioLoop env ev.psduMap (maxSizeFrom ev.psduMap 0)
            ev.txVector.heMuUserInfoMap dl1 with
        | none =>
          exact absurd hr (dlRatioLoop_isSome env _ _ _ _ (by
            intro k hk
            obtain ⟨a, ha, hfa⟩ := hreg2 k hk
            exact ⟨a, ha, hfind a hfa⟩))
        | some dl2 => simp
    cases hres : NotifyPsduForwardedDown env ev s with
    | none => exact absurd hres hsome
    | some s' =>
      refine ⟨s', rfl, ?_⟩
      have hacc := step_ampduAcc hres
      rw [(isDlMu_iff env ev).mpr ⟨hc, hp⟩, if_pos rfl] at hacc
      exact hacc
  · intro s s' h hd
    obtain ⟨k, hk, hk1⟩ := hone
    obtain ⟨a, st, st', ha, hst, hst', hacc⟩ := step_station_ratio hc hp hd h k hk
    rw [hk1] at hacc
    exact ⟨k, hk, a, st, st', ha, hst, hst', hacc⟩

theorem dlMu_ratios_bounded_witness :
    (classify exEnv exBoth = Branch.dl ∧
     exBoth.txVector.preamble = WifiPreamble.HE_MU ∧
     0 < exBoth.txVector.heMuUserInfoMap.length ∧
     (exBoth.psduMap.map Prod.fst).Nodup ∧
     totalSize exBoth.psduMap < 4294967296 ∧
     largestSize exBoth.psduMap * exBoth.txVector.heMuUserInfoMap.length < 4294967296) ∧
    0 < maxBytesOf exBoth ∧ (0 < dlMuSample exBoth ∧ dlMuSample exBoth ≤ 1) :=
  ⟨⟨by decide, by decide, by decide, by decide, by decide, by decide⟩,
   match dlMu_ratios_bounded exEnv exBoth (by decide) (by decide) (by decide)
      ⟨(1, dataPsdu 10 100), by decide, by decide⟩
      (by decide) (by decide) (by decide) (by decide) with
   | ⟨h1, _, _, h2, _, _⟩ => ⟨h1, h2⟩⟩

/-! ## Responses without a counted Trigger Frame -/

theorem tfUlLength_pos_of_sent (env : Env) (staAddrs : List Mac48Address) (nStations : Nat)
    (evs : List PsduForwardedDown) (s : State)
    (hlen : evs.length < 18446744073709551616)
    (hpos : ∀ ev ∈ evs, ∀ t, classify env ev = Branch.basicTf t → 0 < t.heTbPpduDuration)
    (hrun : runEvents (NotifyPsduForwardedDown env) evs (initialState staAddrs nStations)
      = some s)
    (hb : 1 ≤ s.m_nBasicTriggerFramesSent) : 0 < s.m_tfUlLength := by
  have h0 := initialState_tfState staAddrs nStations
  simp only [State.tfState, Prod.mk.injEq, State.lengthAcc] at h0
  obtain ⟨a1, a2, ⟨-, -, a3⟩, a4, -, a6⟩ := h0
  have hinit : LogInv (initialState staAddrs nStations)
      { window := none, responded := 0, ratios := [] } 0 := by
    refine ⟨a4, a6, ?_, ?_, ?_, ?_⟩
    · intro t ht; simp at ht
    · simp
    · omega
    · exact ⟨a1, a2, rfl⟩
  have hfin : LogInv s (windowLog env evs) (0 + evs.length) :=
    run_logInv env evs _ _ _ 0 (by omega) hpos hrun hinit
  obtain ⟨hw, -, hwpos, -, -, hcnt⟩ := hfin
  cases hgw : (windowLog env evs).window with
  | none =>
    rw [hgw] at hcnt
    omega
  | some t =>
    rw [hgw] at hw
    have := hwpos t hgw
    rw [hw.1]
    exact this

/-- Claim C24, evaluated on the example scenario: when the first event seen is
the HE TB PPDU of station B (index 1) for a Trigger Frame sent before the
statistics started, and B then answers the one Basic Trigger Frame that
solicits it, station B has nLengthRatioSamples = 2 and
nSolicitingTriggerFrames = 1.  The unsigned difference of line 713 wraps to
2^64 - 1, which the static_cast rounds to the double 2^64, and this is the
ratio computed for the station and the missing HE TB PPDU ratio, instead of a
value in [0, 1]. -/
theorem response_count_exceeds_solicited :
    (runEvents (NotifyPsduForwardedDown exEnv) exLateStart exInit).map
        (fun s => (find 20 s.m_ulStats).map
          (fun st => (st.nLengthRatioSamples, st.nSolicitingTriggerFrames)))
      = some (some (2, 1)) ∧
    (runEvents (NotifyPsduForwardedDown exEnv) exLateStart exInit).map
        (fun s => (find 20 s.m_ulStats).map unrespondedTfRatio)
      = some (some 18446744073709551616) ∧
    (runEvents (NotifyPsduForwardedDown exEnv) exLateStart exInit).map
        (fun s => (find 20 s.m_ulStats).map
          (fun st => sub64 st.nSolicitingTriggerFrames st.nLengthRatioSamples))
      = some (some 18446744073709551615) ∧
    (runEvents (NotifyPsduForwardedDown exEnv) exLateStart exInit).map
        (fun s => missingHeTbPpduRatio s.m_ulStats)
      = some 18446744073709551616 ∧
    ¬ ((18446744073709551616 : ℚ) ≤ 1) := by
  refine ⟨by with_unfolding_all rfl, by with_unfolding_all rfl, by decide,
    by with_unfolding_all rfl, ?_⟩
  norm_num

/-- Claim C25, evaluated on the example scenario: an HE TB PPDU of station A
that is the first event processed takes the uplink-response path while
m_tfUlLength still has the value Seconds (0) of the constructor.  The path has
no guard: it adds the duration to m_responsesToLastTfDuration and counts a
sample for A, whose ratio is the duration divided by zero seconds. -/
theorem first_response_divides_by_zero :
    classify exEnv (exResponse 10 1000000) = Branch.ulHeTb 10 ∧
    exInit.m_tfUlLength = 0 ∧
    GetSeconds exInit.m_tfUlLength = 0 ∧
    (NotifyPsduForwardedDown exEnv (exResponse 10 1000000) exInit).map
        (fun s => (s.m_responsesToLastTfDuration, s.m_tfUlLength,
          (find 10 s.m_ulStats).map (fun st => st.nLengthRatioSamples)))
      = some (1000000, 0, some 1) := by
  refine ⟨by decide, by with_unfolding_all rfl, by with_unfolding_all rfl,
    by with_unfolding_all rfl⟩

end WifiDlOfdma
